import Mathlib

/-!
DDS sweeper firmware: instruction table scan, run loop, line dispatcher, PIO programs

A shallow embedding of `dds-sweeper.c` and `build/trigger_timer.pio.h`.

* Bytes are `Fin 256`; `uint` values are naturals reduced modulo `2 ^ 32` wherever the
  C code can wrap.
* `instructions` and the flash image are functions from index to byte.  An access is inside the
  C array exactly when the index is below `MAX_SIZE`; every read the code makes is checked
  against that bound, and a read outside it ends the model (C leaves it undefined).
* Loops that the C code does not bound take a fuel argument.
-/

namespace DDSSweeper

/-! ## Constants of `dds-sweeper.c` -/

abbrev Byte := Fin 256

abbrev Table := Nat → Byte

def STOPPED : Nat := 0
def RUNNING : Nat := 1
def ABORTING : Nat := 2

def UPDATE : Nat := 0

def MAX_SIZE : Nat := 249856
def TIMERS : Nat := 5000
def TIMING_OFFSET : Nat := MAX_SIZE - TIMERS * 4

def VERSION : String := "0.1.1"

/-- Modulus of the C type `uint` (32 bits on the RP2040). -/
def UINT_MOD : Nat := 4294967296

/-- Largest value of the C type `int`. -/
def INT_MAX : Nat := 2147483647

/-! ## The table scan at the head of `background()` (lines 298-317) -/

/-- Result of the counting loop `while (true) { if (instructions[offset] == 0x00) ... }`. -/
inductive ScanResult where
  /-- The loop left through `break` with `num_ins = i` and the flag `repeat` -/
  | found (num_ins : Nat) (rep : Bool)
  /-- The next read `instructions[index]` lies outside `instructions[MAX_SIZE]` -/
  | outOfBounds (index : Nat)
  /-- C: `++i` on `int i = INT_MAX` -/
  | intOverflow
  /-- The fuel given to the model is used up; the loop is still running -/
  | outOfFuel
  deriving DecidableEq, Repr

/-- C: `uint step = INS_SIZE * ad9959.channels + 1;` -/
def stepOf (INS_SIZE channels : Nat) : Nat := (INS_SIZE * channels + 1) % UINT_MOD

/-- The counting loop, entered with the current `i` and `offset`.
Each unit of fuel is one evaluation of the loop body. -/
def scanFrom (instructions : Table) (step : Nat) : Nat → Nat → Nat → ScanResult
  | 0, _, _ => .outOfFuel
  | fuel + 1, i, offset =>
    if offset < MAX_SIZE then
      if instructions offset = 0 then
        if offset + 1 < MAX_SIZE then
          .found i (decide (instructions (offset + 1) ≠ 0))
        else .outOfBounds (offset + 1)
      else if i < INT_MAX then
        scanFrom instructions step fuel (i + 1) ((step * (i + 1)) % UINT_MOD)
      else .intOverflow
    else .outOfBounds offset

/-- The scan as `background()` runs it: `i = 0`, `offset = 0`. -/
def scan (instructions : Table) (step : Nat) (fuel : Nat) : ScanResult :=
  scanFrom instructions step fuel 0 0

/-- Well-formed table in the words of the specification: `n` records of stride `step`, each
starting with a nonzero control byte, then a terminator record whose `step` bytes are all
zero, then one flag byte, all inside the buffer. -/
def WellFormedSpec (instructions : Table) (step n : Nat) : Prop :=
  (∀ i, i < n → instructions (i * step) ≠ 0) ∧
  (∀ j, n * step ≤ j → j < n * step + step → instructions j = 0) ∧
  n * step + step < MAX_SIZE

/-- Terminated table as the code reads it: `n` records whose control bytes are nonzero, then a
record whose control byte is zero, that byte and the one after it inside the buffer. -/
def Terminated (instructions : Table) (step n : Nat) : Prop :=
  (∀ i, i < n → instructions (i * step) ≠ 0) ∧
  instructions (n * step) = 0 ∧
  n * step + 1 < MAX_SIZE

/-- One record `[1, 0, ..., 0]` of stride 15, an all-zero terminator record at 15..29, and
the byte after the terminator record, index 30, set to 1. -/
def tableFlagAfter : Table := fun i => if i = 0 then 1 else if i = 30 then 1 else 0

/-- A buffer in which every byte is 1: no terminator anywhere. -/
def tableNoTerminator : Table := fun _ => 1

/-- Number of the first record that starts at or beyond `MAX_SIZE`. -/
def firstOutside (step : Nat) : Nat := (MAX_SIZE - 1) / step + 1

/-! ## Globals and hardware actions -/

/-- The global variables of `dds-sweeper.c` the in-scope functions read or write, with the
flash image that `load` and `save` copy from and to. -/
structure Globals where
  /-- C: `int status` -/
  status : Nat
  /-- C: `uint triggers` -/
  triggers : Nat
  /-- C: `uint INS_SIZE` -/
  INS_SIZE : Nat
  /-- C: `ad9959.channels` -/
  channels : Nat
  /-- C: `ad9959.sweep_type` -/
  sweep_type : Nat
  /-- C: `bool DEBUG` -/
  DEBUG : Bool
  /-- C: `bool timing` -/
  timing : Bool
  /-- C: `uint8_t instructions[MAX_SIZE]` -/
  instructions : Table
  /-- The `MAX_SIZE` bytes at `XIP_BASE + FLASH_TARGET_OFFSET` -/
  flash : Table

/-- Calls that act on hardware or on the other core, in program order. -/
inductive Event where
  /-- C: `set_status(s)` -/
  | set_status (s : Nat)
  /-- C: `sync()`: one pulse on `PIN_SYNC` -/
  | sync
  /-- C: `pio_sm_put(PIO_TIME, 0, w)` -/
  | timer_put (w : Nat)
  /-- C: `pio_sm_put(PIO_TRIG, 0, w)` -/
  | trig_put (w : Nat)
  /-- C: `spi_write_blocking(spi1, instructions + src, len)` with the bytes sent -/
  | spi_write (src : Nat) (bytes : List Byte)
  /-- C: `dma_channel_transfer_from_buffer_now(timer_dma, instructions + src, count)` -/
  | dma_start (src count : Nat)
  /-- C: `pio_sm_get_blocking(PIO_TRIG, 0)` returned a word -/
  | wait_ack
  /-- C: `dma_channel_abort(timer_dma)` -/
  | dma_abort
  /-- C: `pio_sm_clear_fifos(PIO_TRIG, 0)` -/
  | clear_fifos_trig
  /-- C: `pio_sm_clear_fifos(PIO_TIME, 0)` -/
  | clear_fifos_time
  /-- C: `multicore_fifo_push_blocking(w)` -/
  | fifo_push (w : Nat)
  /-- The pulse on `PIN_RESET` at the head of `reset()` -/
  | reset_pulse
  /-- C: `set_pll_mult(&ad9959, ad9959.pll_mult)` -/
  | set_pll_mult
  /-- C: `clear()` -/
  | clear
  /-- C: `init_pin(TRIGGER)` and the pulse on `TRIGGER` in `abort_run()` -/
  | trigger_pulse
  /-- C: `init_pio()` -/
  | init_pio
  /-- C: `flash_range_erase(FLASH_TARGET_OFFSET, MAX_SIZE)` -/
  | flash_erase
  /-- C: `flash_range_program(FLASH_TARGET_OFFSET, instructions, MAX_SIZE)` -/
  | flash_program
  /-- The driver calls of a calibration handler of `loop()` -/
  | script (name : String)
  deriving DecidableEq, Repr

/-! ## The execution context: `background()` -/

/-- What the run loop meets from outside itself.  `ctl j` is the value the control context has
stored in `status` between the boundary checks `j - 1` and `j` of the run loop, if it stored
one; `advance j` tells whether the `wait()` of iteration `j` receives a word from the Trigger
sequencer. -/
structure Env where
  ctl : Nat → Option Nat
  advance : Nat → Bool

/-- How far one pass of `background()` got. -/
inductive Outcome where
  /-- The run loop was left, the clean-up ran, `background()` is back at
  `multicore_fifo_pop_blocking()` -/
  | drained
  /-- Parked in `pio_sm_get_blocking`: no word arrives -/
  | blocked
  /-- The next read `instructions[index]` lies outside `instructions[MAX_SIZE]` -/
  | outOfBounds (index : Nat)
  /-- C: `++i` on `int i = INT_MAX` -/
  | intOverflow
  /-- The fuel given to the model is used up; the code is still running -/
  | outOfFuel
  deriving DecidableEq, Repr

structure RunResult where
  outcome : Outcome
  g : Globals
  trace : List Event

/-- Put the events `evs` in front of the trace. -/
def RunResult.after (evs : List Event) (r : RunResult) : RunResult :=
  { r with trace := evs ++ r.trace }

/-- The calls of the clean-up, lines 356-360. -/
def cleanupEvents : List Event :=
  [.dma_abort, .clear_fifos_trig, .clear_fifos_time, .set_status STOPPED]

/-- Lines 356-360: the clean-up after the run loop. -/
def cleanup (g : Globals) : RunResult :=
  { outcome := .drained
    g := { g with status := STOPPED }
    trace := cleanupEvents }

/-- The `len` argument `step - 1` of `spi_write_blocking`, computed in `uint`. -/
def spiLen (step : Nat) : Nat := (step + UINT_MOD - 1) % UINT_MOD

/-- The bytes `instructions[src], ..., instructions[src + len - 1]`. -/
def bytesFrom (instructions : Table) (src len : Nat) : List Byte :=
  (List.range len).map (fun k => instructions (src + k))

/-- The run loop `while (status != ABORTING) { ... }` of lines 329-354, entered at the boundary
check number `j` with the locals `i` and `offset`.  Each unit of fuel is one boundary check. -/
def runLoop (env : Env) (step num_ins : Nat) (rep : Bool) :
    Nat → Nat → Nat → Nat → Globals → RunResult
  | 0, _, _, _, g => { outcome := .outOfFuel, g := g, trace := [] }
  | fuel + 1, j, i, offset, g0 =>
    let g : Globals := { g0 with status := (env.ctl j).getD g0.status }
    if g.status = ABORTING then cleanup g
    else if i = num_ins ∧ rep = false then cleanup g
    else
      let offset1 := if i = num_ins then 0 else offset
      let i1 := if i = num_ins then 0 else i
      if offset1 < MAX_SIZE then
        let len := spiLen step
        if len = 0 ∨ offset1 + len < MAX_SIZE then
          let issue : List Event :=
            [.trig_put (g.instructions offset1).val,
             .spi_write (offset1 + 1) (bytesFrom g.instructions (offset1 + 1) len)] ++
            (if i1 = 0 ∧ g.timing = true then [.dma_start TIMING_OFFSET num_ins] else [])
          if env.advance j = true then
            let g1 : Globals := { g with triggers := (g.triggers + 1) % UINT_MOD }
            if i1 < INT_MAX then
              (runLoop env step num_ins rep fuel (j + 1) (i1 + 1)
                ((step * (i1 + 1)) % UINT_MOD) g1).after (issue ++ [.wait_ack])
            else { outcome := .intOverflow, g := g1, trace := issue ++ [.wait_ack] }
          else { outcome := .blocked, g := g, trace := issue }
        else
          { outcome := .outOfBounds MAX_SIZE, g := g,
            trace := [.trig_put (g.instructions offset1).val] }
      else { outcome := .outOfBounds offset1, g := g, trace := [] }

/-- One pass of the outer `while (true)` of `background()`, lines 292-361, from the moment
`multicore_fifo_pop_blocking()` returns the start message `hwstart`. -/
def background (env : Env) (fuel : Nat) (hwstart : Nat) (g0 : Globals) : RunResult :=
  let g : Globals := { g0 with status := RUNNING }
  let step := stepOf g.INS_SIZE g.channels
  match scan g.instructions step fuel with
  | .found num_ins rep =>
    let g1 : Globals := { g with triggers := 0 }
    (runLoop env step num_ins rep fuel 0 0 0 g1).after
      ([.set_status RUNNING, .sync] ++ (if hwstart ≠ 0 then [.timer_put 0] else []))
  | .outOfBounds k => { outcome := .outOfBounds k, g := g, trace := [.set_status RUNNING] }
  | .intOverflow => { outcome := .intOverflow, g := g, trace := [.set_status RUNNING] }
  | .outOfFuel => { outcome := .outOfFuel, g := g, trace := [.set_status RUNNING] }

/-- The calls of one loop iteration that issues record `i` of the table `t` and observes its
advance event. -/
def recordEvents (t : Table) (step : Nat) (timing : Bool) (num_ins i : Nat) : List Event :=
  [.trig_put (t (i * step)).val,
   .spi_write (i * step + 1) (bytesFrom t (i * step + 1) (step - 1))] ++
  (if i = 0 ∧ timing = true then [.dma_start TIMING_OFFSET num_ins] else []) ++
  [.wait_ack]

/-- The calls of the iterations for the `k` records from record `i` on, in order. -/
def recordsTrace (t : Table) (step : Nat) (timing : Bool) (num_ins : Nat) :
    Nat → Nat → List Event
  | 0, _ => []
  | k + 1, i => recordEvents t step timing num_ins i ++
      recordsTrace t step timing num_ins k (i + 1)

/-- Records `A` (control byte 1) and `B` (control byte 2) of stride 15, then a terminator
record whose bytes are all zero: a table that does not repeat. -/
def tableAB : Table := fun i => if i = 0 then 1 else if i = 15 then 2 else 0

/-- One record of stride 15 with control byte 1, then a terminator record whose second byte,
index 16, is 1: a table that repeats. -/
def tableRepeat : Table := fun i => if i = 0 then 1 else if i = 16 then 1 else 0

/-- Number of words the engine handed to the Trigger sequencer. -/
def countTrigPut : List Event → Nat
  | [] => 0
  | .trig_put _ :: es => countTrigPut es + 1
  | _ :: es => countTrigPut es

/-- Number of transport writes. -/
def countSpiWrite : List Event → Nat
  | [] => 0
  | .spi_write _ _ :: es => countSpiWrite es + 1
  | _ :: es => countSpiWrite es

/-- Number of advance events observed by `wait()`. -/
def countWaitAck : List Event → Nat
  | [] => 0
  | .wait_ack :: es => countWaitAck es + 1
  | _ :: es => countWaitAck es

/-- Globals as `main()` leaves them before the first `loop()`, with the table `t` in
`instructions`: `reset()` has set `INS_SIZE = 14` and one channel, `status` is `STOPPED`. -/
def bootGlobals (t : Table) : Globals :=
  { status := STOPPED, triggers := 0, INS_SIZE := 14, channels := 1, sweep_type := 1,
    DEBUG := true, timing := false, instructions := t, flash := fun _ => 0 }

/-- The control context stores nothing in `status` and every `wait()` receives its word. -/
def envQuiet : Env := { ctl := fun _ => none, advance := fun _ => true }

/-- The control context stores `ABORTING` in `status` before boundary check 1; every
`wait()` receives its word. -/
def envAbortAt1 : Env :=
  { ctl := fun j => if j = 1 then some ABORTING else none, advance := fun _ => true }

/-! ## The control context: `reset()`, `abort_run()`, `loop()` -/

/-- What `printf` wrote: a line whose text the model determines, or the prints of a
calibration handler or of `measure_freqs()`, whose text (measured or floating point values) is
not modelled. -/
inductive Output where
  | line (s : String)
  | scriptOutput (name : String)
  deriving DecidableEq, Repr

/-- Result of one call of a control-context function. -/
structure CtlResult where
  g : Globals
  out : List Output
  hw : List Event

/-- The C string in a `char` array: the characters before the first NUL. -/
def cstr (l : List Char) : List Char := l.takeWhile (fun c => c ≠ Char.ofNat 0)

/-- Holds when `strncmp(a, b, n) == 0`, for C strings `a` and `b` given without their NUL. -/
def strncmpEq : List Char → List Char → Nat → Bool
  | _, _, 0 => true
  | [], [], _ + 1 => true
  | a :: as, b :: bs, n + 1 => a == b && strncmpEq as bs n
  | [], _ :: _, _ + 1 => false
  | _ :: _, [], _ + 1 => false

/-- The test `strncmp(readstring, kw, n) == 0` of `loop()`. -/
def cmd (readstring : List Char) (kw : String) (n : Nat) : Bool :=
  strncmpEq (cstr readstring) kw.toList n

/-- The function `reset()`, lines 245-260.
Modelled from the spec: `set_pll_mult` and `clear` are declared in `ad9959.h`, which is not
among the sources; they are the synthesizer driver (an external collaborator that is addressed
over the transport) and are recorded as hardware events that leave the globals alone. -/
def reset (g : Globals) : Globals × List Event :=
  ({ g with sweep_type := 1, channels := 1, INS_SIZE := 14 },
   [.reset_pulse, .sync, .set_pll_mult, .clear, .trig_put UPDATE])

/-- The function `abort_run()`, lines 267-280. -/
def abort_run (g : Globals) : Globals × List Event :=
  if g.status = RUNNING then
    ({ g with status := ABORTING }, [.set_status ABORTING, .trigger_pulse, .init_pio])
  else (g, [])

/-- The text printed by the branch `local_status != STOPPED` of `loop()`. -/
def busyText (readstring : List Char) : String :=
  "Cannot execute command \"" ++ String.mk (cstr readstring) ++
  "\" during buffered execution. Check status first and wait for it to return " ++
  toString STOPPED ++ " (stopped or aborted).\n"

/-- A calibration handler of `loop()`: driver calls and prints, no write to the globals. -/
def runScript (name : String) (g : Globals) : CtlResult :=
  { g := g, out := [.scriptOutput name], hw := [.script name] }

/-- Copy of the first `MAX_SIZE` bytes of `src` over `dst` (`memcpy`, `flash_range_program`
after `flash_range_erase`). -/
def copyTable (dst src : Table) : Table := fun k => if k < MAX_SIZE then src k else dst k

/-- The function `loop()`, lines 368-1413, after `readline()` has stored the line in
`readstring`: the dispatch on what `readstring` holds.  It is the whole of `loop()` for a line
that fits `readstring`, fewer than 256 characters; `loopOnInput` puts `readline()` in front of
it.  The handlers from `setfreq1` on are calibration scripts: they call the synthesizer driver
and print, and assign none of the globals. -/
def loop (readstring : List Char) (g : Globals) : CtlResult :=
  let local_status := g.status
  if cmd readstring "version" 7 then
    { g := g, out := [.line (VERSION ++ "\n")], hw := [] }
  else if cmd readstring "status" 6 then
    { g := g, out := [.line (toString local_status ++ "\n")], hw := [] }
  else if cmd readstring "debug on" 8 then
    { g := { g with DEBUG := true }, out := [.line "ok\n"], hw := [] }
  else if cmd readstring "debug off" 9 then
    { g := { g with DEBUG := false }, out := [.line "ok\n"], hw := [] }
  else if cmd readstring "getfreqs" 8 then
    { g := g, out := [.scriptOutput "getfreqs"], hw := [] }
  else if cmd readstring "numtriggers" 11 then
    { g := g, out := [.line (toString g.triggers ++ "\n")], hw := [] }
  else if cmd readstring "reset" 5 then
    let a := abort_run g
    let r := reset a.1
    { g := { r.1 with status := STOPPED }, out := [.line "ok\n"],
      hw := a.2 ++ r.2 ++ [.set_status STOPPED] }
  else if cmd readstring "abort" 5 then
    let a := abort_run g
    { g := a.1, out := [.line "ok\n"], hw := a.2 }
  else if local_status ≠ STOPPED then
    { g := g, out := [.line (busyText readstring)], hw := [] }
  else if cmd readstring "readregs" 8 then
    { g := g, out := [.scriptOutput "readregs", .line "ok\n"],
      hw := [.script "single_step_mode", .trig_put UPDATE, .script "read_all"] }
  else if cmd readstring "load" 4 then
    { g := { g with instructions := copyTable g.instructions g.flash },
      out := [.line "ok\n"], hw := [] }
  else if cmd readstring "save" 4 then
    { g := { g with flash := copyTable g.flash g.instructions },
      out := [.line "ok\n"], hw := [.flash_erase, .flash_program] }
  else if cmd readstring "setfreq1" 8 then runScript "setfreq1" g
  else if cmd readstring "setfreq2" 8 then runScript "setfreq2" g
  else if cmd readstring "setamp" 6 then runScript "setamp" g
  else if cmd readstring "checkv" 11 then runScript "checkv" g
  else if cmd readstring "Custom" 6 then runScript "Custom" g
  else if cmd readstring "sweepamp" 11 then runScript "sweepamp" g
  else if cmd readstring "freq99.5" 8 then runScript "freq99.5" g
  else if cmd readstring "Interpolate" 11 then runScript "Interpolate" g
  else if cmd readstring "freq_and_amp" 12 then runScript "freq_and_amp" g
  else if cmd readstring "Cust" 4 then runScript "Cust" g
  else if cmd readstring "pattern1" 8 then runScript "pattern1" g
  else if cmd readstring "pattern2" 8 then runScript "pattern2" g
  else if cmd readstring "pattern3" 8 then runScript "pattern3" g
  else if cmd readstring "pattern4" 8 then runScript "pattern4" g
  else if cmd readstring "pattern5" 8 then runScript "pattern5" g
  else if cmd readstring "pattern6" 8 then runScript "pattern6" g
  else if cmd readstring "pattern7" 8 then runScript "pattern7" g
  else { g := g, out := [], hw := [] }

/-- The keywords `loop()` tests before it looks at the status, with the lengths it compares. -/
def alwaysKeywords : List (String × Nat) :=
  [("version", 7), ("status", 6), ("debug on", 8), ("debug off", 9), ("getfreqs", 8),
   ("numtriggers", 11), ("reset", 5), ("abort", 5)]

/-- Holds when the line is served by one of the branches of `loop()` that come before the
test of the status. -/
def alwaysServed (readstring : List Char) : Bool :=
  alwaysKeywords.any (fun p => cmd readstring p.1 p.2)

/-- The commands the specification lists as recognized. -/
def specCommands : List String :=
  ["version", "status", "numtriggers", "reset", "abort", "load", "save", "start"]

/-- Holds when the line begins with one of the commands the specification lists. -/
def specRecognized (readstring : List Char) : Bool :=
  specCommands.any (fun kw => cmd readstring kw kw.length)

/-! ## The PIO programs of `trigger_timer.pio.h`

A state machine of the RP2040 PIO block, cycle by cycle, for the instructions the two programs
use: `jmp` (always, `!x`, `x--`, `!y`, `y--`, `x!=y`), `wait <pol> pin 0`, `out pins`,
`push`/`pull` and `mov` without operation between `x`, `y`, `osr`, `isr` and `null`.  Any other
instruction word sets `fault`.  Both programs run with autopull off and execute no `in`, so the
shift counters are left out.  Addresses are relative to the load offset of the program. -/

/-- A program with the configuration `*_program_get_default_config` gives it. -/
structure PioProgram where
  instructions : List Nat
  wrap_target : Nat
  wrap : Nat
  /-- The `bit_count` argument of `sm_config_set_sideset` -/
  sideset_bits : Nat
  /-- The `optional` argument of `sm_config_set_sideset` -/
  sideset_opt : Bool

def trigger_program_instructions : List Nat :=
  [0x90a0, 0xa027, 0x0044, 0x1f00, 0x20a0, 0x7b04, 0x7004, 0x8020]

def timer_program_instructions : List Nat :=
  [0x80a0, 0xa027, 0x0025, 0xb542, 0x0044, 0x20a0, 0x0000]

/-- The trigger program: `trigger_wrap_target 0`, `trigger_wrap 7`,
`sm_config_set_sideset(&c, 2, true, false)`. -/
def trigger_program : PioProgram :=
  { instructions := trigger_program_instructions, wrap_target := 0, wrap := 7,
    sideset_bits := 2, sideset_opt := true }

/-- The timer program: `timer_wrap_target 0`, `timer_wrap 4`,
`sm_config_set_sideset(&c, 1, false, false)`. -/
def timer_program : PioProgram :=
  { instructions := timer_program_instructions, wrap_target := 0, wrap := 4,
    sideset_bits := 1, sideset_opt := false }

/-- Registers, FIFOs and driven pins of one state machine. -/
structure Sm where
  pc : Nat
  x : Nat
  y : Nat
  osr : Nat
  isr : Nat
  /-- TX FIFO, oldest word first -/
  tx : List Nat
  /-- RX FIFO, oldest word first -/
  rx : List Nat
  /-- Level last driven on the side-set pin: `PIN_UPDATE` for the trigger program,
  `TRIGGER` for the timer program -/
  side : Nat
  /-- Value last written to the four `out` pins -/
  pins : Nat
  /-- Delay cycles still to spend before the next instruction -/
  delay : Nat
  /-- An instruction outside the modelled subset was met -/
  fault : Bool
  deriving DecidableEq, Repr

/-- Depth of one FIFO of a state machine. -/
def FIFO_DEPTH : Nat := 4

/-- Delay cycles encoded in the 5-bit delay/side-set field `f`. -/
def delayOf (p : PioProgram) (f : Nat) : Nat := f % 2 ^ (5 - p.sideset_bits)

/-- Side-set of the field `f`: `none` when the instruction leaves the pin alone. -/
def sidesetOf (p : PioProgram) (f : Nat) : Option Nat :=
  let ss := f / 2 ^ (5 - p.sideset_bits)
  if p.sideset_bits = 0 then none
  else if p.sideset_opt then
    if ss / 2 ^ (p.sideset_bits - 1) = 1 then some (ss % 2 ^ (p.sideset_bits - 1)) else none
  else some ss

/-- What executing one instruction does to the flow of control. -/
inductive Exec where
  | stall
  | next (s : Sm)
  | jump (s : Sm) (addr : Nat)
  | unsupported

/-- Value of a `mov` source. -/
def movSource (s : Sm) : Nat → Option Nat
  | 1 => some s.x
  | 2 => some s.y
  | 3 => some 0
  | 6 => some s.isr
  | 7 => some s.osr
  | _ => none

/-- Execute the instruction word `w` with the input pin at level `pin`. -/
def exec (w : Nat) (pin : Bool) (s : Sm) : Exec :=
  let arg := w % 32
  let mid := (w / 32) % 8
  match w / 8192 with
  | 0 =>
    -- jmp
    match mid with
    | 0 => .jump s arg
    | 1 => if s.x = 0 then .jump s arg else .next s
    | 2 =>
      let s1 : Sm := { s with x := (s.x + UINT_MOD - 1) % UINT_MOD }
      if s.x ≠ 0 then .jump s1 arg else .next s1
    | 3 => if s.y = 0 then .jump s arg else .next s
    | 4 =>
      let s1 : Sm := { s with y := (s.y + UINT_MOD - 1) % UINT_MOD }
      if s.y ≠ 0 then .jump s1 arg else .next s1
    | 5 => if s.x ≠ s.y then .jump s arg else .next s
    | _ => .unsupported
  | 1 =>
    -- wait <polarity> pin 0
    if (mid % 4 = 1) ∧ arg = 0 then
      if pin = decide (mid / 4 = 1) then .next s else .stall
    else .unsupported
  | 3 =>
    -- out pins, <bit count>, shifting right
    if mid = 0 then
      let n := if arg = 0 then 32 else arg
      .next { s with pins := (s.osr % 2 ^ n) % 2 ^ 4, osr := s.osr / 2 ^ n }
    else .unsupported
  | 4 =>
    -- push / pull; the IfFull / IfEmpty forms need the shift counters
    if arg ≠ 0 ∨ (mid / 2) % 2 = 1 then .unsupported
    else if mid / 4 = 0 then
      -- push
      if s.rx.length < FIFO_DEPTH then .next { s with rx := s.rx ++ [s.isr], isr := 0 }
      else if mid % 2 = 1 then .stall
      else .next { s with isr := 0 }
    else
      -- pull
      match s.tx with
      | v :: rest => .next { s with osr := v, tx := rest }
      | [] => if mid % 2 = 1 then .stall else .next { s with osr := s.x }
  | 5 =>
    -- mov <dest>, <source>
    if arg / 8 ≠ 0 then .unsupported
    else
      match movSource s (arg % 8), mid with
      | some v, 1 => .next { s with x := v }
      | some v, 2 => .next { s with y := v }
      | _, _ => .unsupported
  | _ => .unsupported

/-- One clock cycle.  A delay cycle does nothing else; otherwise the instruction at `pc` is
executed: its side-set is applied even when it stalls, and its delay starts when it
completes. -/
def Sm.cycle (p : PioProgram) (pin : Bool) (s : Sm) : Sm :=
  if s.fault = true then s
  else if 0 < s.delay then { s with delay := s.delay - 1 }
  else
    match p.instructions.get? s.pc with
    | none => { s with fault := true }
    | some w =>
      let f := (w / 256) % 32
      let s1 : Sm := { s with side := (sidesetOf p f).getD s.side }
      match exec w pin s1 with
      | .stall => s1
      | .next s2 =>
        { s2 with pc := if s.pc = p.wrap then p.wrap_target else s.pc + 1, delay := delayOf p f }
      | .jump s2 a => { s2 with pc := a, delay := delayOf p f }
      | .unsupported => { s1 with fault := true }

/-- Run `n` cycles, the first at time `t`; `pin t` is the level of the input pin at time
`t`. -/
def Sm.run (p : PioProgram) (pin : Nat → Bool) : Nat → Nat → Sm → Sm
  | 0, _, s => s
  | n + 1, t, s => Sm.run p pin n (t + 1) (Sm.cycle p (pin t) s)

/-- State machine after `pio_sm_init` followed by one `pio_sm_put` of the word `c`. -/
def smWithCommand (c : Nat) : Sm :=
  { pc := 0, x := 0, y := 0, osr := 0, isr := 0, tx := [c], rx := [], side := 0, pins := 0,
    delay := 0, fault := false }

/-- The trigger state machine three cycles after a nonzero command `c` was put: `pull`, `mov`
and `jmp x--` have run and the program stands at `wait 1 pin, 0` with the strobe low. -/
def trigAtWait (c : Nat) : Sm :=
  { pc := 4, x := (c + UINT_MOD - 1) % UINT_MOD, y := 0, osr := c, isr := 0, tx := [],
    rx := [], side := 0, pins := 0, delay := 0, fault := false }

/-- The trigger pin held low. -/
def pinLow : Nat → Bool := fun _ => false

/-- The trigger pin low during cycles 0 to 4 and high from cycle 5 on. -/
def pinHighFrom5 : Nat → Bool := fun t => decide (5 ≤ t)

/-- The timer state machine in its count-down loop at `jmp x--, 4`, the pulse over. -/
def timerCount (d x : Nat) : Sm :=
  { pc := 4, x := x, y := 0, osr := d, isr := 0, tx := [], rx := [], side := 0, pins := 0,
    delay := 0, fault := false }

/-- The states the timer state machine passes through after it pulled the word 0, the only
word in its TX FIFO. -/
def TimerQuiet (s : Sm) : Prop :=
  s.fault = false ∧ s.delay = 0 ∧ s.side = 0 ∧ s.x = 0 ∧ s.osr = 0 ∧ s.tx = [] ∧
  (s.pc = 0 ∨ s.pc = 1 ∨ s.pc = 2 ∨ s.pc = 5 ∨ s.pc = 6)

/-- The timer state machine held at `wait 1 pin, 0` after the word 0. -/
def timerAtWait : Sm :=
  { pc := 5, x := 0, y := 0, osr := 0, isr := 0, tx := [], rx := [], side := 0, pins := 0,
    delay := 0, fault := false }

/-- The stride configuration the firmware can be in: `INS_SIZE` still has its initial value
0, or `reset()` has run (`INS_SIZE = 14`, one channel); nothing else writes either. -/
def Configured (g : Globals) : Prop :=
  g.INS_SIZE = 0 ∨ (g.INS_SIZE = 14 ∧ g.channels = 1)

/-- The stores to `status` among the events `es`, each as the pair of the value it replaces
and the value it stores; `st` is the value of `status` before the first event.  It follows the
cell as long as nothing outside the events stores to it. -/
def statusWrites : Nat → List Event → List (Nat × Nat)
  | _, [] => []
  | st, .set_status s :: es => (st, s) :: statusWrites s es
  | st, _ :: es => statusWrites st es

/-- Holds for the calls of the start of a run: `set_status(RUNNING)`, `sync()` and the word
put to the Timer sequencer. -/
def isStartEvent : Event → Bool
  | .set_status s => s == RUNNING
  | .sync => true
  | .timer_put _ => true
  | _ => false

/-- The source offset and transfer count of every TimingDMA transfer started, in order. -/
def dmaStarts : List Event → List (Nat × Nat)
  | [] => []
  | .dma_start src count :: es => (src, count) :: dmaStarts es
  | _ :: es => dmaStarts es

/-- The calls of `f` successive iterations of the run loop on a repeating table of `n`
records, the first of them being instruction number `k` of the run: instruction number `k`
is record `k % n`. -/
def repeatTrace (t : Table) (step : Nat) (timing : Bool) (n : Nat) : Nat → Nat → List Event
  | 0, _ => []
  | f + 1, k => recordEvents t step timing n (k % n) ++ repeatTrace t step timing n f (k + 1)

/-- The words handed to the Trigger sequencer, in order. -/
def trigPuts : List Event → List Nat
  | [] => []
  | .trig_put w :: es => w :: trigPuts es
  | _ :: es => trigPuts es

/-- Holds for the calls of the clean-up after the run loop and for every store to
`status`. -/
def isCleanupEvent : Event → Bool
  | .dma_abort => true
  | .clear_fifos_trig => true
  | .clear_fifos_time => true
  | .set_status _ => true
  | _ => false

/-- The source offsets of the transport writes, in order. -/
def spiSources : List Event → List Nat
  | [] => []
  | .spi_write src _ :: es => src :: spiSources es
  | _ :: es => spiSources es

/-- A table whose first record is already the terminator, with the repeat flag (byte 1)
set: no record, repeating. -/
def tableEmptyRepeat : Table := fun i => if i = 1 then 1 else 0

/-- The trigger state machine about to execute `pull block` at address 0: no fault, no delay
cycle pending. -/
def TrigReady (s : Sm) : Prop := s.fault = false ∧ s.delay = 0 ∧ s.pc = 0

/-- The trigger state machine at address 0 with an empty TX FIFO, possibly still in the delay
cycles of `jmp 0 side 1 [7]`. -/
def TrigIdle (s : Sm) : Prop := s.fault = false ∧ s.pc = 0 ∧ s.tx = []

/-- The trigger pin low during cycles 0 to 4, high in cycle 5 and low again afterwards. -/
def pinPulseAt5 : Nat → Bool := fun t => decide (t = 5)

/-- The trigger state machine standing at `wait 1 pin, 0`. -/
def TrigWaiting (s : Sm) : Prop := s.fault = false ∧ s.delay = 0 ∧ s.pc = 4

/-- Number of elements of `readstring` (`char readstring[256]`, line 99). -/
def READSTRING_SIZE : Nat := 256

/-- What one call of `readline()` did: its stores to `readstring` in order, each as the pair
of the index and the character stored, and whether it returned. -/
structure ReadResult where
  stores : List (Nat × Char)
  returned : Bool
  deriving DecidableEq, Repr

/-- The loop of `readline()`, lines 222-234, with the index `i`.  The list holds the
characters `getchar()` delivers; when it is used up `getchar()` blocks and the function does
not return.  The increment of the `int` index is undefined at `INT_MAX`: the model stops
there without returning. -/
def readlineFrom : List Char → Nat → ReadResult
  | [], _ => { stores := [], returned := false }
  | c :: cs, i =>
    if c = Char.ofNat 10 then { stores := [(i, Char.ofNat 0)], returned := true }
    else if i < INT_MAX then
      { stores := (i, c) :: (readlineFrom cs (i + 1)).stores,
        returned := (readlineFrom cs (i + 1)).returned }
    else { stores := [(i, c)], returned := false }

/-- The function `readline()`, lines 222-234. -/
def readline (input : List Char) : ReadResult := readlineFrom input 0

/-- The characters of `l` paired with the indices `i`, `i + 1`, ... -/
def indexedFrom : Nat → List Char → List (Nat × Char)
  | _, [] => []
  | i, c :: cs => (i, c) :: indexedFrom (i + 1) cs

/-- Value of `MAX_POINTS`. -/
def MAX_POINTS : Nat := 13

/-- The arrays of `cubicSplineInterpolation`: the parameters `x`, `y` and the locals. -/
inductive Arr where
  | x | y | h | alpha | l | mu | z | c | b | d
  deriving DecidableEq, Repr

/-- Declared number of elements of each array. -/
def Arr.size : Arr → Nat
  | .h => MAX_POINTS - 1
  | .alpha => MAX_POINTS - 1
  | .mu => MAX_POINTS - 1
  | _ => MAX_POINTS

/-- One array access: the array, the index and whether it is a store. -/
structure Access where
  arr : Arr
  idx : Int
  store : Bool
  deriving DecidableEq, Repr

/-- A read of `a[i]`. -/
def rd (a : Arr) (i : Int) : Access := { arr := a, idx := i, store := false }

/-- A store to `a[i]`. -/
def wr (a : Arr) (i : Int) : Access := { arr := a, idx := i, store := true }

/-- Holds when the index lies inside the array. -/
def Access.inBounds (a : Access) : Bool := decide (0 ≤ a.idx) && decide (a.idx < a.arr.size)

/-- Accesses of one iteration of the loop of step 1 (`h[i] = ...; alpha[i] = ...;`). -/
def step1Body (i : Int) : List Access :=
  [rd .x (i + 1), rd .x i, wr .h i,
   rd .h i, rd .y (i + 1), rd .y i, rd .h (i - 1), rd .y i, rd .y (i - 1), wr .alpha i]

/-- Accesses of one iteration of the loop of step 2 (`l[i]`, `mu[i]`, `z[i]`). -/
def step2Body (i : Int) : List Access :=
  [rd .x (i + 1), rd .x (i - 1), rd .h (i - 1), rd .mu (i - 1), wr .l i,
   rd .h i, rd .l i, wr .mu i,
   rd .alpha i, rd .h (i - 1), rd .z (i - 1), rd .l i, wr .z i]

/-- Accesses of one iteration of the loop of step 3 (`c[j]`, `b[j]`, `d[j]`). -/
def step3Body (j : Int) : List Access :=
  [rd .z j, rd .mu j, rd .c (j + 1), wr .c j,
   rd .y (j + 1), rd .y j, rd .h j, rd .h j, rd .c (j + 1), rd .c j, wr .b j,
   rd .c (j + 1), rd .c j, rd .h j, wr .d j]

/-- The search loop of step 4 from index `i`, at most `k` more iterations: its accesses and
the interval found.  `ge i` is the result of `resultX >= x[i]`, `le i` that of
`resultX <= x[i + 1]`, which is evaluated only when the first holds. -/
def searchFrom (ge le : Nat → Bool) : Nat → Nat → List Access × Option Nat
  | 0, _ => ([], none)
  | k + 1, i =>
    if ge i = true then
      if le i = true then ([rd .x i, rd .x (i + 1)], some i)
      else
        (rd .x i :: rd .x (i + 1) :: (searchFrom ge le k (i + 1)).1,
         (searchFrom ge le k (i + 1)).2)
    else (rd .x i :: (searchFrom ge le k (i + 1)).1, (searchFrom ge le k (i + 1)).2)

/-- Accesses of steps 1 to 3 of `cubicSplineInterpolation` for `n` points, in program order
(within one statement in the order written); they do not depend on the data. -/
def splineSetup (n : Nat) : List Access :=
  ((List.range (n - 1)).map (fun i : Nat => step1Body (i : Int))).flatten ++
  [wr .l 0, wr .mu 0, wr .z 0] ++
  ((List.range (n - 2)).map (fun i : Nat => step2Body ((i : Int) + 1))).flatten ++
  [wr .l ((n : Int) - 1), wr .z ((n : Int) - 1), wr .c ((n : Int) - 1)] ++
  ((List.range (n - 1)).reverse.map (fun j : Nat => step3Body (j : Int))).flatten

/-- Accesses of step 4 and of the evaluation of the spline. -/
def splineEval (n : Nat) (ge le : Nat → Bool) : List Access :=
  (searchFrom ge le (n - 1) 0).1 ++
  match (searchFrom ge le (n - 1) 0).2 with
  | none => []
  | some k => [rd .x k, rd .y k, rd .b k, rd .c k, rd .d k]

/-- All array accesses of `cubicSplineInterpolation` (lines 140-198 of `dds-sweeper.c`,
lines 8-66 of `Cubic_Spline_Interpolation.c`: the two copies have the same statements up to
the way the result is handed back). -/
def cubicSplineAccesses (n : Nat) (ge le : Nat → Bool) : List Access :=
  splineSetup n ++ splineEval n ge le

/-- One record `[1]` of stride 1, the terminator record `[0]` at index 1, and the byte after
the terminator record, index 2, set to 1. -/
def tableStride1 : Table := fun i => if i = 1 then 0 else 1

/-- Records `A` (control byte 1) and `B` (control byte 2) of stride 15, then a terminator
record whose second byte, index 31, is 1: a table of two records that repeats. -/
def tableABRepeat : Table :=
  fun i => if i = 0 then 1 else if i = 15 then 2 else if i = 31 then 1 else 0

/-- How one call of `loop()` ends. -/
inductive LoopOutcome where
  /-- Every store of `readline()` was inside `readstring`, and the dispatch ran -/
  | served (r : CtlResult)
  /-- The call `readline()` stored outside `readstring`, first at `index`: C defines no
  behaviour from there on -/
  | overrun (index : Nat)
  /-- No newline has arrived: the call is still in `readline()` -/
  | reading

/-- The function `loop()`, lines 368-1413, from its first statement: `readline()` stores the
characters `getchar()` delivers and the terminating NUL in `readstring`, then the dispatch
`loop` runs on what `readstring` holds. -/
def loopOnInput (input : List Char) (g : Globals) : LoopOutcome :=
  match (readline input).stores.find? (fun p => decide (READSTRING_SIZE ≤ p.1)) with
  | some p => .overrun p.1
  | none =>
    if (readline input).returned = true then
      .served (loop ((readline input).stores.map Prod.snd) g)
    else .reading

/-- Where the control context stands between its accesses to `status`. -/
inductive CtlAt where
  /-- Not inside `abort_run()` and not before the `set_status(STOPPED)` of `reset` -/
  | idle
  /-- In `abort_run()`, after `get_status()` returned `r` and before the branch on it;
  `thenStop` holds when `abort_run()` was called by the `reset` branch -/
  | afterGet (r : Nat) (thenStop : Bool)
  /-- In the `reset` branch, after `abort_run()` and before `set_status(STOPPED)` -/
  | beforeStop
  deriving DecidableEq, Repr

/-- Where the execution context stands. -/
inductive EngAt where
  /-- In `multicore_fifo_pop_blocking()` -/
  | waiting
  /-- Between `set_status(RUNNING)` and the `set_status(STOPPED)` of the clean-up -/
  | running
  deriving DecidableEq, Repr

/-- The status cell and the places of the two contexts. -/
structure Sys where
  status : Nat
  ctl : CtlAt
  eng : EngAt
  deriving DecidableEq, Repr

/-- The accesses to `status` that store or that a store depends on.  Each is one call of
`get_status()` or `set_status()`, which hold `status_mutex`, so each is atomic. -/
inductive StatusStep where
  /-- Line 268: `get_status()` in `abort_run()`, called by the branch `abort`
  (`thenStop = false`) or `reset` (`thenStop = true`) -/
  | abortGet (thenStop : Bool)
  /-- Line 269: `set_status(ABORTING)`, made when the value read was `RUNNING` -/
  | abortSet
  /-- Line 389: `set_status(STOPPED)` of the `reset` branch -/
  | resetSet
  /-- Line 296: `set_status(RUNNING)` after a start message was popped -/
  | engStart
  /-- Line 360: `set_status(STOPPED)` of the clean-up -/
  | engStop
  deriving DecidableEq, Repr

/-- One access: the state after it and the store it made, as the pair of the value replaced
and the value stored; `none` when the context is not at that access. -/
def Sys.step (s : Sys) : StatusStep → Option (Sys × List (Nat × Nat))
  | .abortGet b =>
    if s.ctl = .idle then some ({ s with ctl := .afterGet s.status b }, []) else none
  | .abortSet =>
    match s.ctl with
    | .afterGet r b =>
      if r = RUNNING then
        some ({ s with status := ABORTING, ctl := if b = true then .beforeStop else .idle },
          [(s.status, ABORTING)])
      else some ({ s with ctl := if b = true then .beforeStop else .idle }, [])
    | _ => none
  | .resetSet =>
    if s.ctl = .beforeStop then
      some ({ s with status := STOPPED, ctl := .idle }, [(s.status, STOPPED)])
    else none
  | .engStart =>
    if s.eng = .waiting then
      some ({ s with status := RUNNING, eng := .running }, [(s.status, RUNNING)])
    else none
  | .engStop =>
    if s.eng = .running then
      some ({ s with status := STOPPED, eng := .waiting }, [(s.status, STOPPED)])
    else none

/-- The accesses of a schedule in order: the final state and the stores made. -/
def Sys.run : Sys → List StatusStep → Option (Sys × List (Nat × Nat))
  | s, [] => some (s, [])
  | s, a :: rest =>
    match s.step a with
    | none => none
    | some (s1, w) =>
      match Sys.run s1 rest with
      | none => none
      | some (s2, ws) => some (s2, w ++ ws)

/-- The state after `main()` has initialised: `status` is `STOPPED`, the control context is
about to call `loop()`, the execution context waits for a start message. -/
def Sys.boot : Sys := { status := STOPPED, ctl := .idle, eng := .waiting }

/-- Holds when in the schedule every `get_status()` of `abort_run()` is followed at once by
its `set_status(ABORTING)`: no access of the execution context falls between the two. -/
def abortAtomic : List StatusStep → Bool
  | [] => true
  | .abortGet _ :: .abortSet :: rest => abortAtomic rest
  | .abortGet _ :: _ => false
  | _ :: rest => abortAtomic rest

/-- The states between two commands of an atomic `abort_run()`: the control context is not
between the two accesses of `abort_run()`, the cell holds 0, 1 or 2, and it holds `STOPPED`
whenever the execution context waits for a start message. -/
def Sys.Settled (s : Sys) : Prop :=
  (s.ctl = .idle ∨ s.ctl = .beforeStop) ∧ s.status ≤ 2 ∧ (s.eng = .waiting → s.status = STOPPED)

/-- The four transitions of the status cell. -/
def fourTransitions : List (Nat × Nat) :=
  [(STOPPED, RUNNING), (RUNNING, ABORTING), (ABORTING, STOPPED), (RUNNING, STOPPED)]

/-- The schedules of one call of `loop()`: no access that stores, the two accesses of
`abort_run()`, or those followed by the `set_status(STOPPED)` of `reset`. -/
def loopSchedules : List (List StatusStep) :=
  [[], [.abortGet false, .abortSet], [.abortGet true, .abortSet, .resetSet]]

/-- The schedules of one pass of `background()`: `set_status(RUNNING)`, and the
`set_status(STOPPED)` of the clean-up when the run loop has been left. -/
def engineSchedules : List (List StatusStep) :=
  [[.engStart], [.engStart, .engStop]]

/-- The call `pio_sm_put(pio, sm, w)`: the word enters the TX FIFO; a write to a full FIFO is
lost. -/
def pio_sm_put (s : Sm) (w : Nat) : Sm :=
  if s.tx.length < FIFO_DEPTH then { s with tx := s.tx ++ [w] } else s

/-- The call `pio_sm_get_blocking(pio, sm)` on the state machine running program `p`: it
polls the RX FIFO, one poll per cycle, and takes the oldest word once there is one.  The
result is the word, the time and the state after the read; `none` when no word has arrived
within `fuel` polls. -/
def pio_sm_get_blocking (p : PioProgram) (pin : Nat → Bool) :
    Nat → Nat → Sm → Option (Nat × Nat × Sm)
  | 0, _, _ => none
  | fuel + 1, t, s =>
    match s.rx with
    | w :: rest => some (w, t, { s with rx := rest })
    | [] => pio_sm_get_blocking p pin fuel (t + 1) (Sm.cycle p (pin t) s)

/-- What the execution context meets from outside when the Trigger state machine is part of
the model. -/
structure PioEnv where
  /-- The value another context stores in `status` before the boundary check `j`, if any -/
  ctl : Nat → Option Nat
  /-- Level of the trigger pin at each cycle of the state machine -/
  pin : Nat → Bool
  /-- Cycles of the state machine that pass in iteration `j` between `pio_sm_put` and the
  first poll of `wait()`: the time of the transport write -/
  busy : Nat → Nat
  /-- Number of polls of one `wait()` the model follows -/
  patience : Nat

/-- The run loop of `background()`, lines 329-354, with `wait()` carried out on the Trigger
state machine: `pio_sm_put` queues the control byte, the state machine runs during the
transport write, and `wait()` returns when `pio_sm_get_blocking` finds a word in the RX
FIFO.  `t` is the time and `s` the state of the state machine. -/
def runLoopPio (env : PioEnv) (step num_ins : Nat) (rep : Bool) :
    Nat → Nat → Nat → Nat → Nat → Sm → Globals → RunResult
  | 0, _, _, _, _, _, g => { outcome := .outOfFuel, g := g, trace := [] }
  | fuel + 1, j, i, offset, t, s, g0 =>
    let g : Globals := { g0 with status := (env.ctl j).getD g0.status }
    if g.status = ABORTING then cleanup g
    else if i = num_ins ∧ rep = false then cleanup g
    else
      let offset1 := if i = num_ins then 0 else offset
      let i1 := if i = num_ins then 0 else i
      if offset1 < MAX_SIZE then
        let len := spiLen step
        if len = 0 ∨ offset1 + len < MAX_SIZE then
          let issue : List Event :=
            [.trig_put (g.instructions offset1).val,
             .spi_write (offset1 + 1) (bytesFrom g.instructions (offset1 + 1) len)] ++
            (if i1 = 0 ∧ g.timing = true then [.dma_start TIMING_OFFSET num_ins] else [])
          match pio_sm_get_blocking trigger_program env.pin env.patience (t + env.busy j)
              (Sm.run trigger_program env.pin (env.busy j) t
                (pio_sm_put s (g.instructions offset1).val)) with
          | some (_, t2, s2) =>
            let g1 : Globals := { g with triggers := (g.triggers + 1) % UINT_MOD }
            if i1 < INT_MAX then
              (runLoopPio env step num_ins rep fuel (j + 1) (i1 + 1)
                ((step * (i1 + 1)) % UINT_MOD) t2 s2 g1).after (issue ++ [.wait_ack])
            else { outcome := .intOverflow, g := g1, trace := issue ++ [.wait_ack] }
          | none => { outcome := .blocked, g := g, trace := issue }
        else
          { outcome := .outOfBounds MAX_SIZE, g := g,
            trace := [.trig_put (g.instructions offset1).val] }
      else { outcome := .outOfBounds offset1, g := g, trace := [] }

/-- The trigger state machine after `init_pio()`: at address 0, registers and FIFOs
empty. -/
def smAfterInit : Sm :=
  { pc := 0, x := 0, y := 0, osr := 0, isr := 0, tx := [], rx := [], side := 0, pins := 0,
    delay := 0, fault := false }

/-- No store to `status` from outside, the trigger pin held high, the first poll of `wait()`
right after `pio_sm_put`, and up to 20 polls. -/
def pioEnvHigh : PioEnv :=
  { ctl := fun _ => none, pin := fun _ => true, busy := fun _ => 0, patience := 20 }

/-- The words handed to the Trigger sequencer whose `wait()` returned, in order; `last` is
the word of the iteration under way. -/
def ackedWords : Option Nat → List Event → List Nat
  | _, [] => []
  | _, .trig_put w :: es => ackedWords (some w) es
  | some w, .wait_ack :: es => w :: ackedWords none es
  | last, _ :: es => ackedWords last es

/-- The trigger state machine at `pull block` with both FIFOs empty. -/
def TrigRest (s : Sm) : Prop := s.fault = false ∧ s.pc = 0 ∧ s.tx = [] ∧ s.rx = []

/-- The states of the trigger state machine while it serves the nonzero command `c`, the only
word queued, before its `push`: the RX FIFO is empty. -/
def TrigServing (c : Nat) (s : Sm) : Prop :=
  s.fault = false ∧ s.rx = [] ∧
  ((s.pc = 0 ∧ s.tx = [c]) ∨
   (s.tx = [] ∧ s.delay = 0 ∧
     ((s.pc = 1 ∧ s.osr = c) ∨ (s.pc = 2 ∧ s.x = c) ∨ s.pc = 4 ∨ s.pc = 5 ∨ s.pc = 7)) ∨
   (s.tx = [] ∧ s.pc = 6 ∧ s.delay ≤ 3))

/-- The trigger state machine after the `push` of a command: back at `pull block`, one word
in the RX FIFO. -/
def TrigAcked (s : Sm) : Prop :=
  s.fault = false ∧ s.pc = 0 ∧ s.delay = 0 ∧ s.tx = [] ∧ ∃ w, s.rx = [w]

/-- The states of the trigger state machine while it serves the command 0, the only word
queued, and after it: the RX FIFO is empty. -/
def TrigSilent (s : Sm) : Prop :=
  s.fault = false ∧ s.rx = [] ∧
  ((s.pc = 0 ∧ (s.tx = [0] ∨ s.tx = [])) ∨
   (s.tx = [] ∧ s.delay = 0 ∧ ((s.pc = 1 ∧ s.osr = 0) ∨ (s.pc = 2 ∧ s.x = 0) ∨ s.pc = 3)))

/-- Record 0 with control byte 1, record 1 with control byte 0 and the payload byte 5 at
index 16, then a terminator record whose bytes are all zero, stride 15. -/
def tableZeroControl : Table := fun i => if i = 0 then 1 else if i = 16 then 5 else 0

/-! ## Lemmas on the scan -/

theorem scanFrom_records (t : Table) (step n : Nat) (hstep : 0 < step)
    (hrec : ∀ i, i < n → t (i * step) ≠ 0) (hbound : n * step < MAX_SIZE) :
    ∀ k i fuel, i + k = n →
      scanFrom t step (fuel + k) i (i * step) = scanFrom t step fuel n (n * step) := by
  intro k
  induction k with
  | zero => intro i fuel h; simp at h; subst h; rfl
  | succ k ih =>
    intro i fuel h
    have hi : i < n := by omega
    have hlt : i * step < MAX_SIZE :=
      lt_of_le_of_lt (Nat.mul_le_mul_right step (le_of_lt hi)) hbound
    have hn : n < MAX_SIZE := by
      calc n ≤ n * step := Nat.le_mul_of_pos_right n hstep
        _ < MAX_SIZE := hbound
    have hint : i < INT_MAX := by
      have : MAX_SIZE < INT_MAX := by decide
      omega
    have hmod : (step * (i + 1)) % UINT_MOD = (i + 1) * step := by
      rw [Nat.mul_comm]
      apply Nat.mod_eq_of_lt
      have h1 : (i + 1) * step ≤ n * step := Nat.mul_le_mul_right step (by omega)
      have : MAX_SIZE < UINT_MOD := by decide
      omega
    have : fuel + (k + 1) = (fuel + k) + 1 := by omega
    rw [this, scanFrom]
    simp only [hlt, if_true, hrec i hi, if_false, hint, hmod]
    exact ih (i + 1) fuel (by omega)

theorem scan_terminated (t : Table) (step n : Nat) (hstep : 0 < step)
    (h : Terminated t step n) (fuel : Nat) (hfuel : n < fuel) :
    scan t step fuel = .found n (decide (t (n * step + 1) ≠ 0)) := by
  obtain ⟨hrec, hz, hb⟩ := h
  obtain ⟨f, rfl⟩ : ∃ f, fuel = (f + 1) + n := ⟨fuel - n - 1, by omega⟩
  have hb0 : n * step < MAX_SIZE := by omega
  have := scanFrom_records t step n hstep hrec hb0 n 0 (f + 1) (by omega)
  simp only [Nat.zero_mul] at this
  rw [scan, this, scanFrom]
  simp [hb0, hz, hb]

theorem wellFormedSpec_terminated (t : Table) (step n : Nat) (hstep : 0 < step)
    (h : WellFormedSpec t step n) : Terminated t step n := by
  obtain ⟨hrec, hz, hb⟩ := h
  exact ⟨hrec, hz (n * step) (le_refl _) (by omega), by omega⟩

theorem tableFlagAfter_wellFormed : WellFormedSpec tableFlagAfter 15 1 := by
  refine ⟨?_, ?_, by decide⟩
  · intro i hi
    have : i = 0 := by omega
    subst this
    decide
  · intro j h1 h2
    have h0 : j ≠ 0 := by omega
    have h30 : j ≠ 30 := by omega
    simp [tableFlagAfter, h0, h30]

theorem firstOutside_spec (step : Nat) (hstep : 0 < step) (hlt : step < UINT_MOD) :
    MAX_SIZE ≤ firstOutside step * step ∧ firstOutside step * step < UINT_MOD ∧
    (∀ i, i < firstOutside step → i * step < MAX_SIZE) := by
  have hdm := Nat.div_add_mod (MAX_SIZE - 1) step
  have hml := Nat.mod_lt (MAX_SIZE - 1) hstep
  have hM : MAX_SIZE = 249856 := rfl
  have hU : UINT_MOD = 4294967296 := rfl
  have hexp : firstOutside step * step = step * ((MAX_SIZE - 1) / step) + step := by
    unfold firstOutside
    rw [Nat.add_mul, Nat.one_mul, Nat.mul_comm]
  refine ⟨by omega, ?_, ?_⟩
  · by_cases hq : (MAX_SIZE - 1) / step = 0
    · rw [hexp, hq]; omega
    · have h1 : step ≤ step * ((MAX_SIZE - 1) / step) :=
        Nat.le_mul_of_pos_right step (Nat.pos_of_ne_zero hq)
      omega
  · intro i hi
    have hi2 : i ≤ (MAX_SIZE - 1) / step := by unfold firstOutside at hi; omega
    have h2 : i * step ≤ step * ((MAX_SIZE - 1) / step) := by
      rw [Nat.mul_comm i step]
      exact Nat.mul_le_mul_left step hi2
    omega

/-- With no record-aligned terminator below `MAX_SIZE`, the counting loop run from record `i`
either is still running when the fuel ends or asks for the first record-aligned index
outside the buffer. -/
theorem scanFrom_unterminated (t : Table) (step : Nat) (hstep : 0 < step)
    (hlt : step < UINT_MOD) (hno : ∀ i, i * step < MAX_SIZE → t (i * step) ≠ 0) :
    ∀ fuel i, i ≤ firstOutside step →
      scanFrom t step fuel i (i * step) =
        if firstOutside step - i < fuel then .outOfBounds (firstOutside step * step)
        else .outOfFuel := by
  obtain ⟨hk, hkU, hin⟩ := firstOutside_spec step hstep hlt
  intro fuel
  induction fuel with
  | zero => intro i _; simp [scanFrom]
  | succ fuel ih =>
    intro i hi
    rw [scanFrom]
    rcases Nat.lt_or_ge i (firstOutside step) with hlt2 | hge
    · have hoff : i * step < MAX_SIZE := hin i hlt2
      have hfo : firstOutside step ≤ MAX_SIZE := by
        unfold firstOutside
        have := Nat.div_le_self (MAX_SIZE - 1) step
        have hM : MAX_SIZE = 249856 := rfl
        omega
      have hint : i < INT_MAX := by
        have : MAX_SIZE < INT_MAX := by decide
        omega
      have hmod : (step * (i + 1)) % UINT_MOD = (i + 1) * step := by
        rw [Nat.mul_comm]
        apply Nat.mod_eq_of_lt
        have : (i + 1) * step ≤ firstOutside step * step :=
          Nat.mul_le_mul_right step (by omega)
        omega
      simp only [hoff, if_true, hno i hoff, if_false, hint, hmod]
      rw [ih (i + 1) (by omega)]
      have e : (firstOutside step - (i + 1) < fuel) ↔ (firstOutside step - i < fuel + 1) := by
        omega
      simp only [e]
    · have hik : i = firstOutside step := by omega
      subst hik
      have hnot : ¬ firstOutside step * step < MAX_SIZE := by omega
      simp [hnot]

theorem tableNoTerminator_unterminated (step : Nat) :
    ∀ i, i * step < MAX_SIZE → tableNoTerminator (i * step) ≠ 0 := by
  intro i _
  show (1 : Byte) ≠ 0
  decide

/-- C2, as amended.  The scan has no malformed-table result and no check against `MAX_SIZE`:
on a buffer with no record-aligned terminator it finds the control byte of every record below
`MAX_SIZE` nonzero and then asks for index `firstOutside step * step`, which is not below
`MAX_SIZE`; the model ends there. -/
theorem scan_unterminated (t : Table) (step fuel : Nat) (hstep : 0 < step)
    (hlt : step < UINT_MOD) (hno : ∀ i, i * step < MAX_SIZE → t (i * step) ≠ 0)
    (hfuel : firstOutside step < fuel) :
    scan t step fuel = .outOfBounds (firstOutside step * step) ∧
    MAX_SIZE ≤ firstOutside step * step := by
  have h := scanFrom_unterminated t step hstep hlt hno fuel 0 (Nat.zero_le _)
  simp only [Nat.zero_mul, Nat.sub_zero, hfuel, if_true] at h
  exact ⟨h, (firstOutside_spec step hstep hlt).1⟩

theorem scan_unterminated_witness :
    scan tableNoTerminator 15 16660 = .outOfBounds (firstOutside 15 * 15) ∧
    MAX_SIZE ≤ firstOutside 15 * 15 :=
  scan_unterminated tableNoTerminator 15 16660 (by decide) (by decide)
    (tableNoTerminator_unterminated 15) (by decide)

/-- C2, counterexample.  In the buffer `tableNoTerminator` no byte is zero; with the stride 15
that `reset()` configures, the scan does not fail with a malformed-table error: it goes on to
index 249870, which is not below `MAX_SIZE`. -/
theorem scan_unterminated_counterexample :
    scan tableNoTerminator (stepOf 14 1) 16660 = .outOfBounds 249870 ∧ MAX_SIZE ≤ 249870 := by
  have h := scanFrom_unterminated tableNoTerminator 15 (by decide) (by decide)
    (tableNoTerminator_unterminated 15) 16660 0 (Nat.zero_le _)
  have e1 : firstOutside 15 = 16658 := by decide
  have e2 : stepOf 14 1 = 15 := by decide
  rw [e1] at h
  simp only [Nat.zero_mul, Nat.sub_zero] at h
  rw [e2, scan, h]
  exact ⟨by decide, by decide⟩

/-! ## The start of a run on a table without terminator -/

theorem background_unterminated (env : Env) (fuel hwstart : Nat) (g : Globals)
    (hstep : 0 < stepOf g.INS_SIZE g.channels)
    (hno : ∀ i, i * stepOf g.INS_SIZE g.channels < MAX_SIZE →
      g.instructions (i * stepOf g.INS_SIZE g.channels) ≠ 0) :
    (background env fuel hwstart g).g.status = RUNNING ∧
    (background env fuel hwstart g).trace = [.set_status RUNNING] ∧
    (firstOutside (stepOf g.INS_SIZE g.channels) < fuel →
      (background env fuel hwstart g).outcome =
        .outOfBounds (firstOutside (stepOf g.INS_SIZE g.channels) *
          stepOf g.INS_SIZE g.channels)) := by
  have hlt : stepOf g.INS_SIZE g.channels < UINT_MOD := Nat.mod_lt _ (by decide)
  have h := scanFrom_unterminated g.instructions _ hstep hlt hno fuel 0 (Nat.zero_le _)
  simp only [Nat.zero_mul, Nat.sub_zero] at h
  unfold background scan
  simp only [h]
  by_cases hf : firstOutside (stepOf g.INS_SIZE g.channels) < fuel
  · simp [hf]
  · simp [hf]

/-- C3, as amended.  For every table with no record-aligned terminator below `MAX_SIZE`, a
start message does set the status cell to `RUNNING`: `set_status(RUNNING)` comes before the
scan and does not depend on the table.  Up to the point where the scan leaves the buffer that
is the only action: nothing is pushed to the Trigger sequencer or to the transport. -/
theorem start_unterminated (env : Env) (fuel hwstart : Nat) (g : Globals)
    (hstep : 0 < stepOf g.INS_SIZE g.channels)
    (hno : ∀ i, i * stepOf g.INS_SIZE g.channels < MAX_SIZE →
      g.instructions (i * stepOf g.INS_SIZE g.channels) ≠ 0) :
    (background env fuel hwstart g).g.status = RUNNING ∧
    (background env fuel hwstart g).trace = [.set_status RUNNING] ∧
    countTrigPut (background env fuel hwstart g).trace = 0 ∧
    countSpiWrite (background env fuel hwstart g).trace = 0 := by
  obtain ⟨h1, h2, _⟩ := background_unterminated env fuel hwstart g hstep hno
  refine ⟨h1, h2, ?_, ?_⟩ <;> rw [h2] <;> rfl

theorem start_unterminated_witness :
    (background envQuiet 16660 0 (bootGlobals tableNoTerminator)).g.status = RUNNING ∧
    (background envQuiet 16660 0 (bootGlobals tableNoTerminator)).trace =
      [.set_status RUNNING] ∧
    countTrigPut (background envQuiet 16660 0 (bootGlobals tableNoTerminator)).trace = 0 ∧
    countSpiWrite (background envQuiet 16660 0 (bootGlobals tableNoTerminator)).trace = 0 :=
  start_unterminated envQuiet 16660 0 (bootGlobals tableNoTerminator) (by decide)
    (tableNoTerminator_unterminated _)

/-- C3, counterexample.  The buffer `tableNoTerminator` holds no terminator and the status
cell is `STOPPED`; after the start message the status cell is `RUNNING`, not `STOPPED`. -/
theorem start_unterminated_counterexample :
    (bootGlobals tableNoTerminator).status = STOPPED ∧
    (background envQuiet 16660 0 (bootGlobals tableNoTerminator)).g.status = RUNNING ∧
    (background envQuiet 16660 0 (bootGlobals tableNoTerminator)).g.status ≠ STOPPED := by
  have h := (background_unterminated envQuiet 16660 0 (bootGlobals tableNoTerminator)
    (by decide) (tableNoTerminator_unterminated _)).1
  refine ⟨rfl, h, ?_⟩
  rw [h]
  decide

/-! ## The run loop -/

theorem countWaitAck_append (a b : List Event) :
    countWaitAck (a ++ b) = countWaitAck a + countWaitAck b := by
  induction a with
  | nil => simp [countWaitAck]
  | cons e es ih =>
    cases e <;> simp [countWaitAck, ih]
    omega

theorem countTrigPut_append (a b : List Event) :
    countTrigPut (a ++ b) = countTrigPut a + countTrigPut b := by
  induction a with
  | nil => simp [countTrigPut]
  | cons e es ih =>
    cases e <;> simp [countTrigPut, ih]
    omega

theorem countSpiWrite_append (a b : List Event) :
    countSpiWrite (a ++ b) = countSpiWrite a + countSpiWrite b := by
  induction a with
  | nil => simp [countSpiWrite]
  | cons e es ih =>
    cases e <;> simp [countSpiWrite, ih]
    omega

theorem spiLen_eq (step : Nat) (hstep : 0 < step) (hlt : step < UINT_MOD) :
    spiLen step = step - 1 := by
  unfold spiLen
  have hU : UINT_MOD = 4294967296 := rfl
  rw [hU] at hlt ⊢
  omega

/-- The trigger count after the run loop is the count before it plus the number of advance
events `wait()` observed, reduced modulo `2 ^ 32`. -/
theorem runLoop_triggers (env : Env) (step n : Nat) (rep : Bool) :
    ∀ fuel j i offset (g : Globals), g.triggers < UINT_MOD →
      (runLoop env step n rep fuel j i offset g).g.triggers =
        (g.triggers + countWaitAck (runLoop env step n rep fuel j i offset g).trace)
          % UINT_MOD := by
  intro fuel
  induction fuel with
  | zero =>
    intro j i offset g hg
    simp [runLoop, countWaitAck, Nat.mod_eq_of_lt hg]
  | succ fuel ih =>
    intro j i offset g hg
    simp only [runLoop]
    split_ifs <;>
      simp only [cleanup, cleanupEvents, RunResult.after, countWaitAck, countWaitAck_append,
        Nat.add_zero, Nat.mod_eq_of_lt hg, List.cons_append, List.nil_append, List.append_nil]
    all_goals
      rw [ih _ _ _ _ (Nat.mod_lt _ (by decide))]
      simp only [List.append_eq, List.nil_append]
      have hU : UINT_MOD = 4294967296 := rfl
      rw [hU]
      omega

/-- One iteration of the run loop that issues an instruction and observes its advance
event. -/
theorem runLoop_issue (env : Env) (step n : Nat) (rep : Bool) (fuel j i offset : Nat)
    (g : Globals) (hst : (env.ctl j).getD g.status ≠ ABORTING)
    (hend : ¬ (i = n ∧ rep = false))
    (hoff : (if i = n then 0 else offset) < MAX_SIZE)
    (hspi : spiLen step = 0 ∨ (if i = n then 0 else offset) + spiLen step < MAX_SIZE)
    (hadv : env.advance j = true)
    (hint : (if i = n then 0 else i) < INT_MAX) :
    runLoop env step n rep (fuel + 1) j i offset g =
      (runLoop env step n rep fuel (j + 1) ((if i = n then 0 else i) + 1)
        ((step * ((if i = n then 0 else i) + 1)) % UINT_MOD)
        { g with status := (env.ctl j).getD g.status,
                 triggers := (g.triggers + 1) % UINT_MOD }).after
        ([.trig_put (g.instructions (if i = n then 0 else offset)).val,
          .spi_write ((if i = n then 0 else offset) + 1)
            (bytesFrom g.instructions ((if i = n then 0 else offset) + 1) (spiLen step))] ++
          (if (if i = n then 0 else i) = 0 ∧ g.timing = true
            then [.dma_start TIMING_OFFSET n] else []) ++ [.wait_ack]) := by
  simp only [runLoop]
  rw [if_neg hst, if_neg hend, if_pos hoff, if_pos hspi, if_pos hadv, if_pos hint]

/-- The run loop entered at a boundary where `status` reads `ABORTING`. -/
theorem runLoop_aborting (env : Env) (step n : Nat) (rep : Bool) (fuel j i offset : Nat)
    (g : Globals) (hst : (env.ctl j).getD g.status = ABORTING) :
    runLoop env step n rep (fuel + 1) j i offset g =
      cleanup { g with status := (env.ctl j).getD g.status } := by
  simp only [runLoop]
  rw [if_pos hst]

/-- A run over the last `k` records of a table that does not repeat, with no store to
`status` from outside and every advance event arriving: the records are issued in order,
then the clean-up runs. -/
theorem runLoop_to_end (env : Env) (step n : Nat) (t : Table) (tm : Bool)
    (hstep : 0 < step) (hlt : step < UINT_MOD) (hbound : n * step < MAX_SIZE)
    (hctl : ∀ j, j ≤ n → env.ctl j = none) (hadv : ∀ j, j < n → env.advance j = true) :
    ∀ k i fuel (g : Globals), i + k = n → g.status ≠ ABORTING → g.instructions = t →
      g.timing = tm → g.triggers < UINT_MOD →
      (runLoop env step n false (fuel + k + 1) i i (i * step) g).outcome = .drained ∧
      (runLoop env step n false (fuel + k + 1) i i (i * step) g).g.status = STOPPED ∧
      (runLoop env step n false (fuel + k + 1) i i (i * step) g).g.triggers =
        (g.triggers + k) % UINT_MOD ∧
      (runLoop env step n false (fuel + k + 1) i i (i * step) g).trace =
        recordsTrace t step tm n k i ++ cleanupEvents := by
  have hU : UINT_MOD = 4294967296 := rfl
  have hM : MAX_SIZE = 249856 := rfl
  have hI : INT_MAX = 2147483647 := rfl
  intro k
  induction k with
  | zero =>
    intro i fuel g hik hst ht htm htr
    have hin : i = n := by omega
    subst hin
    have hst2 : (env.ctl i).getD g.status ≠ ABORTING := by
      rw [hctl i (le_refl _)]; exact hst
    simp only [Nat.add_zero, runLoop]
    rw [if_neg hst2]
    simp [cleanup, recordsTrace, Nat.mod_eq_of_lt htr]
  | succ k ih =>
    intro i fuel g hik hst ht htm htr
    have hi : i < n := by omega
    have hne : i ≠ n := by omega
    have hle : (i + 1) * step ≤ n * step := Nat.mul_le_mul_right step (by omega)
    have hexp : (i + 1) * step = i * step + step := by rw [Nat.add_mul, Nat.one_mul]
    have hn : n ≤ n * step := Nat.le_mul_of_pos_right n hstep
    have hmod : (step * (i + 1)) % UINT_MOD = (i + 1) * step := by
      rw [Nat.mul_comm]
      apply Nat.mod_eq_of_lt
      omega
    have hsl := spiLen_eq step hstep hlt
    have e : fuel + (k + 1) + 1 = (fuel + k + 1) + 1 := by omega
    rw [e, runLoop_issue env step n false (fuel + k + 1) i i (i * step) g
      (by rw [hctl i (by omega)]; exact hst) (by simp [hne])
      (by rw [if_neg hne]; omega) (by rw [if_neg hne, hsl]; right; omega)
      (hadv i hi) (by rw [if_neg hne]; omega)]
    simp only [if_neg hne, hmod, hctl i (le_of_lt hi), Option.getD_none]
    obtain ⟨h1, h2, h3, h4⟩ := ih (i + 1) fuel
      { g with status := g.status, triggers := (g.triggers + 1) % UINT_MOD }
      (by omega) hst ht htm (Nat.mod_lt _ (by decide))
    refine ⟨h1, h2, ?_, ?_⟩
    · simp only [RunResult.after, h3]
      rw [hU]
      omega
    · simp only [RunResult.after, h4]
      simp only [recordsTrace, recordEvents, ht, htm, hsl, List.append_assoc]

/-- A run on a table that repeats, with no store to `status` from outside and every advance
event arriving: each boundary check is followed by one observed advance event, and the loop
does not end. -/
theorem runLoop_repeat_acks (env : Env) (step n : Nat) (hstep : 0 < step)
    (hlt : step < UINT_MOD) (hn : 0 < n) (hbound : n * step < MAX_SIZE)
    (hctl : ∀ j, env.ctl j = none) (hadv : ∀ j, env.advance j = true) :
    ∀ fuel j i (g : Globals), i ≤ n → g.status ≠ ABORTING →
      countWaitAck (runLoop env step n true fuel j i (i * step) g).trace = fuel ∧
      (runLoop env step n true fuel j i (i * step) g).outcome = .outOfFuel := by
  have hU : UINT_MOD = 4294967296 := rfl
  have hM : MAX_SIZE = 249856 := rfl
  have hI : INT_MAX = 2147483647 := rfl
  have hnn : n ≤ n * step := Nat.le_mul_of_pos_right n hstep
  have hsl := spiLen_eq step hstep hlt
  intro fuel
  induction fuel with
  | zero => intro j i g _ _; simp [runLoop, countWaitAck]
  | succ fuel ih =>
    intro j i g hi hst
    have key : ∀ i1, i1 < n → (i1 + 1) * step ≤ n * step ∧
        (i1 + 1) * step = i1 * step + step := fun i1 h =>
      ⟨Nat.mul_le_mul_right step (by omega), by rw [Nat.add_mul, Nat.one_mul]⟩
    have hi1 : (if i = n then 0 else i) < n := by split_ifs <;> omega
    have hoff : (if i = n then 0 else i * step) = (if i = n then 0 else i) * step := by
      split_ifs <;> simp
    obtain ⟨k1, k2⟩ := key _ hi1
    have hmod : (step * ((if i = n then 0 else i) + 1)) % UINT_MOD =
        ((if i = n then 0 else i) + 1) * step := by
      rw [Nat.mul_comm]
      apply Nat.mod_eq_of_lt
      omega
    rw [runLoop_issue env step n true fuel j i (i * step) g
      (by rw [hctl j]; exact hst) (by simp)
      (by rw [hoff]; omega) (by rw [hoff, hsl]; right; omega)
      (hadv j) (by omega)]
    rw [hmod]
    obtain ⟨h1, h2⟩ := ih (j + 1) ((if i = n then 0 else i) + 1)
      { g with status := (env.ctl j).getD g.status,
               triggers := (g.triggers + 1) % UINT_MOD }
      (by omega) (by rw [hctl j]; exact hst)
    refine ⟨?_, ?_⟩
    · simp only [RunResult.after, countWaitAck_append, h1]
      split_ifs <;> simp [countWaitAck] <;> omega
    · simp only [RunResult.after, h2]

theorem countWaitAck_recordsTrace (t : Table) (step : Nat) (tm : Bool) (n : Nat) :
    ∀ k i, countWaitAck (recordsTrace t step tm n k i) = k := by
  intro k
  induction k with
  | zero => intro i; rfl
  | succ k ih =>
    intro i
    simp only [recordsTrace, recordEvents, countWaitAck_append, ih]
    split_ifs <;> simp [countWaitAck] <;> omega

/-! ## The dispatcher on the lines of the in-scope commands -/

theorem loop_status (g : Globals) :
    (loop "status".toList g).out = [.line (toString g.status ++ "\n")] ∧
    (loop "status".toList g).g = g := by
  have h1 : cmd "status".toList "version" 7 = false := by decide
  have h2 : cmd "status".toList "status" 6 = true := by decide
  simp only [loop, h1, h2, Bool.false_eq_true, if_false, if_true, and_self]

theorem loop_numtriggers (g : Globals) :
    (loop "numtriggers".toList g).out = [.line (toString g.triggers ++ "\n")] ∧
    (loop "numtriggers".toList g).g = g := by
  have h1 : cmd "numtriggers".toList "version" 7 = false := by decide
  have h2 : cmd "numtriggers".toList "status" 6 = false := by decide
  have h3 : cmd "numtriggers".toList "debug on" 8 = false := by decide
  have h4 : cmd "numtriggers".toList "debug off" 9 = false := by decide
  have h5 : cmd "numtriggers".toList "getfreqs" 8 = false := by decide
  have h6 : cmd "numtriggers".toList "numtriggers" 11 = true := by decide
  simp only [loop, h1, h2, h3, h4, h5, h6, Bool.false_eq_true, if_false, if_true, and_self]

/-! ## The claims on a run -/

theorem background_found (env : Env) (fuel hwstart : Nat) (g : Globals) (n : Nat) (rep : Bool)
    (hscan : scan g.instructions (stepOf g.INS_SIZE g.channels) fuel = .found n rep) :
    background env fuel hwstart g =
      (runLoop env (stepOf g.INS_SIZE g.channels) n rep fuel 0 0 0
        { g with status := RUNNING, triggers := 0 }).after
        ([.set_status RUNNING, .sync] ++ (if hwstart ≠ 0 then [.timer_put 0] else [])) := by
  unfold background
  simp only [hscan]

/-- After a start message whose scan succeeds, the trigger count is the number of advance
events observed in the run, modulo `2 ^ 32`. -/
theorem trigger_count_aux (env : Env) (fuel hwstart : Nat) (g : Globals) (n : Nat) (rep : Bool)
    (hscan : scan g.instructions (stepOf g.INS_SIZE g.channels) fuel = .found n rep) :
    (background env fuel hwstart g).g.triggers =
      countWaitAck (background env fuel hwstart g).trace % UINT_MOD := by
  rw [background_found env fuel hwstart g n rep hscan]
  have h := runLoop_triggers env (stepOf g.INS_SIZE g.channels) n rep fuel 0 0 0
    { g with status := RUNNING, triggers := 0 } (show 0 < UINT_MOD by decide)
  simp only [RunResult.after, countWaitAck_append]
  rw [h]
  split_ifs <;> simp [countWaitAck]

/-- C4, as amended.  A start message whose scan succeeds sets the trigger count to 0, and
after exactly `k` advance events observed by `wait()` in that run the trigger count, which
`numtriggers` prints, is `k` modulo `2 ^ 32`: it equals `k` as long as `k < 2 ^ 32`. -/
theorem trigger_count (env : Env) (fuel hwstart : Nat) (g : Globals) (n : Nat) (rep : Bool)
    (hscan : scan g.instructions (stepOf g.INS_SIZE g.channels) fuel = .found n rep)
    (k : Nat) (hk : countWaitAck (background env fuel hwstart g).trace = k) :
    (background env fuel hwstart g).g.triggers = k % UINT_MOD ∧
    (loop "numtriggers".toList (background env fuel hwstart g).g).out =
      [.line (toString (k % UINT_MOD) ++ "\n")] ∧
    (k < UINT_MOD → (background env fuel hwstart g).g.triggers = k) := by
  have ht : (background env fuel hwstart g).g.triggers = k % UINT_MOD := by
    rw [trigger_count_aux env fuel hwstart g n rep hscan, hk]
  refine ⟨ht, ?_, ?_⟩
  · rw [(loop_numtriggers _).1, ht]
  · intro hlt
    rw [ht, Nat.mod_eq_of_lt hlt]

theorem tableRepeat_terminated : Terminated tableRepeat 15 1 := by
  refine ⟨?_, by decide, by decide⟩
  intro i hi
  have : i = 0 := by omega
  subst this
  decide

theorem tableAB_terminated : Terminated tableAB 15 2 := by
  refine ⟨?_, by decide, by decide⟩
  intro i hi
  have : i = 0 ∨ i = 1 := by omega
  rcases this with h | h <;> subst h <;> decide

theorem trigger_count_witness :
    (background envQuiet 3 0 (bootGlobals tableAB)).g.triggers = 2 % UINT_MOD ∧
    (loop "numtriggers".toList (background envQuiet 3 0 (bootGlobals tableAB)).g).out =
      [.line (toString (2 % UINT_MOD) ++ "\n")] ∧
    (2 < UINT_MOD → (background envQuiet 3 0 (bootGlobals tableAB)).g.triggers = 2) :=
  trigger_count envQuiet 3 0 (bootGlobals tableAB) 2 false (by decide) 2 (by decide)

/-- On the repeating table `tableRepeat`, with every advance event arriving and no store to
`status` from outside, a run observed for `fuel` boundary checks has seen `fuel` advance
events, and its trigger count is `fuel` modulo `2 ^ 32`. -/
theorem repeat_run_count (fuel : Nat) (hfuel : 1 < fuel) :
    countWaitAck (background envQuiet fuel 0 (bootGlobals tableRepeat)).trace = fuel ∧
    (background envQuiet fuel 0 (bootGlobals tableRepeat)).g.triggers = fuel % UINT_MOD := by
  have e : stepOf (bootGlobals tableRepeat).INS_SIZE (bootGlobals tableRepeat).channels = 15 := by
    decide
  have hscan : scan (bootGlobals tableRepeat).instructions
      (stepOf (bootGlobals tableRepeat).INS_SIZE (bootGlobals tableRepeat).channels)
      fuel = .found 1 true := by
    rw [e]
    have h := scan_terminated tableRepeat 15 1 (by decide) tableRepeat_terminated fuel hfuel
    rw [show (bootGlobals tableRepeat).instructions = tableRepeat from rfl, h]
    decide
  have hacks := (runLoop_repeat_acks envQuiet 15 1 (by decide) (by decide) (by decide)
    (by decide) (fun _ => rfl) (fun _ => rfl) fuel 0 0
    { bootGlobals tableRepeat with status := RUNNING, triggers := 0 } (Nat.zero_le _)
    (by decide)).1
  rw [Nat.zero_mul] at hacks
  have hcount : countWaitAck (background envQuiet fuel 0 (bootGlobals tableRepeat)).trace
      = fuel := by
    rw [background_found envQuiet fuel 0 (bootGlobals tableRepeat) 1 true hscan, e]
    simp only [RunResult.after, countWaitAck_append, hacks]
    simp [countWaitAck]
  refine ⟨hcount, ?_⟩
  rw [trigger_count_aux envQuiet fuel 0 (bootGlobals tableRepeat) 1 true hscan, hcount]

/-- C4, counterexample.  On the repeating table `tableRepeat`, after `2 ^ 32` advance events
observed by `wait()` the trigger count is 0, not `2 ^ 32`. -/
theorem trigger_count_counterexample :
    countWaitAck (background envQuiet 4294967296 0 (bootGlobals tableRepeat)).trace
      = 4294967296 ∧
    (background envQuiet 4294967296 0 (bootGlobals tableRepeat)).g.triggers = 0 :=
  ⟨(repeat_run_count 4294967296 (by decide)).1,
   (repeat_run_count 4294967296 (by decide)).2.trans (by decide)⟩

theorem countTrigPut_cleanup : countTrigPut cleanupEvents = 0 := rfl

theorem countSpiWrite_cleanup : countSpiWrite cleanupEvents = 0 := rfl

/-- When `ABORTING` is stored in `status` before the next boundary check, the run loop
issues at most one more instruction. -/
theorem runLoop_abort_next (env : Env) (step n : Nat) (rep : Bool) (fuel j i offset : Nat)
    (g : Globals) (hnext : env.ctl (j + 1) = some ABORTING) :
    countTrigPut (runLoop env step n rep fuel j i offset g).trace ≤ 1 ∧
    countSpiWrite (runLoop env step n rep fuel j i offset g).trace ≤ 1 := by
  cases fuel with
  | zero => simp [runLoop, countTrigPut, countSpiWrite]
  | succ fuel =>
    have hrec : ∀ i2 o2 (g2 : Globals),
        countTrigPut (runLoop env step n rep fuel (j + 1) i2 o2 g2).trace = 0 ∧
        countSpiWrite (runLoop env step n rep fuel (j + 1) i2 o2 g2).trace = 0 := by
      intro i2 o2 g2
      cases fuel with
      | zero => simp [runLoop, countTrigPut, countSpiWrite]
      | succ fuel =>
        rw [runLoop_aborting env step n rep fuel (j + 1) i2 o2 g2 (by rw [hnext]; rfl)]
        exact ⟨rfl, rfl⟩
    simp only [runLoop]
    split_ifs <;>
      simp [cleanup, RunResult.after, countTrigPut, countSpiWrite, countTrigPut_append,
        countSpiWrite_append, countTrigPut_cleanup, countSpiWrite_cleanup, (hrec _ _ _).1,
        (hrec _ _ _).2]

/-- C5.  Whatever the instruction index `i`, the offset and the table (repeating or not): if
the status cell reads `ABORTING` at the boundary check of the run loop, the engine leaves the
loop there, performs only the clean-up (no word to the Trigger sequencer, no transport write)
and ends with status `STOPPED`; and if `ABORTING` is stored after a boundary check, at most
one instruction is issued from that check on. -/
theorem abort_at_boundary (env : Env) (step n : Nat) (rep : Bool) (fuel j i offset : Nat)
    (g : Globals) :
    ((env.ctl j).getD g.status = ABORTING →
      (runLoop env step n rep (fuel + 1) j i offset g).outcome = .drained ∧
      (runLoop env step n rep (fuel + 1) j i offset g).g.status = STOPPED ∧
      (runLoop env step n rep (fuel + 1) j i offset g).trace = cleanupEvents ∧
      countTrigPut (runLoop env step n rep (fuel + 1) j i offset g).trace = 0 ∧
      countSpiWrite (runLoop env step n rep (fuel + 1) j i offset g).trace = 0) ∧
    (env.ctl (j + 1) = some ABORTING →
      countTrigPut (runLoop env step n rep fuel j i offset g).trace ≤ 1 ∧
      countSpiWrite (runLoop env step n rep fuel j i offset g).trace ≤ 1) := by
  refine ⟨?_, runLoop_abort_next env step n rep fuel j i offset g⟩
  intro hst
  rw [runLoop_aborting env step n rep fuel j i offset g hst]
  exact ⟨rfl, rfl, rfl, rfl, rfl⟩

theorem abort_at_boundary_witness :
    ((runLoop envAbortAt1 15 1 true 5 1 1 15
        { bootGlobals tableRepeat with status := RUNNING }).outcome = .drained ∧
      (runLoop envAbortAt1 15 1 true 5 1 1 15
        { bootGlobals tableRepeat with status := RUNNING }).g.status = STOPPED ∧
      (runLoop envAbortAt1 15 1 true 5 1 1 15
        { bootGlobals tableRepeat with status := RUNNING }).trace = cleanupEvents ∧
      countTrigPut (runLoop envAbortAt1 15 1 true 5 1 1 15
        { bootGlobals tableRepeat with status := RUNNING }).trace = 0 ∧
      countSpiWrite (runLoop envAbortAt1 15 1 true 5 1 1 15
        { bootGlobals tableRepeat with status := RUNNING }).trace = 0) ∧
    (countTrigPut (runLoop envAbortAt1 15 1 true 5 0 0 0
        { bootGlobals tableRepeat with status := RUNNING }).trace ≤ 1 ∧
      countSpiWrite (runLoop envAbortAt1 15 1 true 5 0 0 0
        { bootGlobals tableRepeat with status := RUNNING }).trace ≤ 1) :=
  ⟨(abort_at_boundary envAbortAt1 15 1 true 4 1 1 15
      { bootGlobals tableRepeat with status := RUNNING }).1 (by decide),
   (abort_at_boundary envAbortAt1 15 1 true 5 0 0 0
      { bootGlobals tableRepeat with status := RUNNING }).2 (by decide)⟩

/-- C7.  For every table of `n` records with nonzero control byte, closed by a record whose
first two bytes are zero (so it does not repeat), a software-timed run (`hwstart = 0`) that
receives `n` advance events and no store to `status` from outside issues the records
`0 .. n - 1` once each in order, then performs the clean-up; after it `status` reads 0 and
`numtriggers` reads `n`. -/
theorem run_nonrepeating (env : Env) (fuel : Nat) (g : Globals) (n : Nat)
    (hstep : 0 < stepOf g.INS_SIZE g.channels)
    (hterm : Terminated g.instructions (stepOf g.INS_SIZE g.channels) n)
    (hnorep : g.instructions (n * stepOf g.INS_SIZE g.channels + 1) = 0)
    (hctl : ∀ j, j ≤ n → env.ctl j = none) (hadv : ∀ j, j < n → env.advance j = true)
    (hfuel : n < fuel) :
    (background env fuel 0 g).outcome = .drained ∧
    (background env fuel 0 g).trace =
      [.set_status RUNNING, .sync] ++
        recordsTrace g.instructions (stepOf g.INS_SIZE g.channels) g.timing n n 0 ++
        cleanupEvents ∧
    countWaitAck (background env fuel 0 g).trace = n ∧
    (background env fuel 0 g).g.status = STOPPED ∧
    (background env fuel 0 g).g.triggers = n ∧
    (loop "status".toList (background env fuel 0 g).g).out = [.line "0\n"] ∧
    (loop "numtriggers".toList (background env fuel 0 g).g).out =
      [.line (toString n ++ "\n")] := by
  have hlt : stepOf g.INS_SIZE g.channels < UINT_MOD := Nat.mod_lt _ (by decide)
  have hscan := scan_terminated g.instructions _ n hstep hterm fuel hfuel
  have hrep : decide (g.instructions (n * stepOf g.INS_SIZE g.channels + 1) ≠ 0) = false := by
    simp [hnorep]
  rw [hrep] at hscan
  have hb := background_found env fuel 0 g n false hscan
  obtain ⟨f, rfl⟩ : ∃ f, fuel = f + n + 1 := ⟨fuel - n - 1, by omega⟩
  have hbound : n * stepOf g.INS_SIZE g.channels < MAX_SIZE := by
    have := hterm.2.2
    omega
  obtain ⟨h1, h2, h3, h4⟩ := runLoop_to_end env (stepOf g.INS_SIZE g.channels) n
    g.instructions g.timing hstep hlt hbound hctl hadv n 0 f
    { g with status := RUNNING, triggers := 0 } (by omega)
    (show RUNNING ≠ ABORTING by decide) rfl rfl (show 0 < UINT_MOD by decide)
  rw [Nat.zero_mul] at h1 h2 h3 h4
  have hn : n < UINT_MOD := by
    have h5 : n ≤ n * stepOf g.INS_SIZE g.channels := Nat.le_mul_of_pos_right n hstep
    have hM : MAX_SIZE = 249856 := rfl
    have hU : UINT_MOD = 4294967296 := rfl
    omega
  have htrig : (background env (f + n + 1) 0 g).g.triggers = n := by
    rw [hb]
    simp only [RunResult.after, h3, Nat.zero_add]
    exact Nat.mod_eq_of_lt hn
  have hstat : (background env (f + n + 1) 0 g).g.status = STOPPED := by
    rw [hb]; exact h2
  have htrace : (background env (f + n + 1) 0 g).trace =
      [.set_status RUNNING, .sync] ++
        recordsTrace g.instructions (stepOf g.INS_SIZE g.channels) g.timing n n 0 ++
        cleanupEvents := by
    rw [hb]
    simp only [RunResult.after, h4]
    simp
  refine ⟨by rw [hb]; exact h1, htrace, ?_, hstat, htrig, ?_, ?_⟩
  · rw [htrace]
    simp only [countWaitAck_append, countWaitAck_recordsTrace]
    simp [countWaitAck, cleanupEvents]
  · rw [(loop_status _).1, hstat]
    decide
  · rw [(loop_numtriggers _).1, htrig]

theorem run_nonrepeating_witness :
    (background envQuiet 3 0 (bootGlobals tableAB)).outcome = .drained ∧
    (background envQuiet 3 0 (bootGlobals tableAB)).trace =
      [.set_status RUNNING, .sync] ++
        recordsTrace (bootGlobals tableAB).instructions
          (stepOf (bootGlobals tableAB).INS_SIZE (bootGlobals tableAB).channels)
          (bootGlobals tableAB).timing 2 2 0 ++
        cleanupEvents ∧
    countWaitAck (background envQuiet 3 0 (bootGlobals tableAB)).trace = 2 ∧
    (background envQuiet 3 0 (bootGlobals tableAB)).g.status = STOPPED ∧
    (background envQuiet 3 0 (bootGlobals tableAB)).g.triggers = 2 ∧
    (loop "status".toList (background envQuiet 3 0 (bootGlobals tableAB)).g).out =
      [.line "0\n"] ∧
    (loop "numtriggers".toList (background envQuiet 3 0 (bootGlobals tableAB)).g).out =
      [.line (toString 2 ++ "\n")] :=
  run_nonrepeating envQuiet 3 (bootGlobals tableAB) 2 (by decide) tableAB_terminated
    (by decide) (fun _ _ => rfl) (fun _ _ => rfl) (by decide)

theorem loop_save (g : Globals) (hst : g.status = STOPPED) :
    (loop "save".toList g).g = { g with flash := copyTable g.flash g.instructions } ∧
    (loop "save".toList g).out = [.line "ok\n"] := by
  have h1 : cmd "save".toList "version" 7 = false := by decide
  have h2 : cmd "save".toList "status" 6 = false := by decide
  have h3 : cmd "save".toList "debug on" 8 = false := by decide
  have h4 : cmd "save".toList "debug off" 9 = false := by decide
  have h5 : cmd "save".toList "getfreqs" 8 = false := by decide
  have h6 : cmd "save".toList "numtriggers" 11 = false := by decide
  have h7 : cmd "save".toList "reset" 5 = false := by decide
  have h8 : cmd "save".toList "abort" 5 = false := by decide
  have h9 : cmd "save".toList "readregs" 8 = false := by decide
  have h10 : cmd "save".toList "load" 4 = false := by decide
  have h11 : cmd "save".toList "save" 4 = true := by decide
  simp only [loop, h1, h2, h3, h4, h5, h6, h7, h8, h9, h10, h11, hst, ne_eq, not_true_eq_false, Bool.false_eq_true, if_false, if_true, and_self]

theorem loop_load (g : Globals) (hst : g.status = STOPPED) :
    (loop "load".toList g).g = { g with instructions := copyTable g.instructions g.flash } ∧
    (loop "load".toList g).out = [.line "ok\n"] := by
  have h1 : cmd "load".toList "version" 7 = false := by decide
  have h2 : cmd "load".toList "status" 6 = false := by decide
  have h3 : cmd "load".toList "debug on" 8 = false := by decide
  have h4 : cmd "load".toList "debug off" 9 = false := by decide
  have h5 : cmd "load".toList "getfreqs" 8 = false := by decide
  have h6 : cmd "load".toList "numtriggers" 11 = false := by decide
  have h7 : cmd "load".toList "reset" 5 = false := by decide
  have h8 : cmd "load".toList "abort" 5 = false := by decide
  have h9 : cmd "load".toList "readregs" 8 = false := by decide
  have h10 : cmd "load".toList "load" 4 = true := by decide
  simp only [loop, h1, h2, h3, h4, h5, h6, h7, h8, h9, h10, hst, ne_eq, not_true_eq_false, Bool.false_eq_true, if_false, if_true, and_self]

theorem loop_reset (g : Globals) :
    (loop "reset".toList g).g = { (reset (abort_run g).1).1 with status := STOPPED } ∧
    (loop "reset".toList g).out = [.line "ok\n"] := by
  have h1 : cmd "reset".toList "version" 7 = false := by decide
  have h2 : cmd "reset".toList "status" 6 = false := by decide
  have h3 : cmd "reset".toList "debug on" 8 = false := by decide
  have h4 : cmd "reset".toList "debug off" 9 = false := by decide
  have h5 : cmd "reset".toList "getfreqs" 8 = false := by decide
  have h6 : cmd "reset".toList "numtriggers" 11 = false := by decide
  have h7 : cmd "reset".toList "reset" 5 = true := by decide
  simp only [loop, h1, h2, h3, h4, h5, h6, h7, Bool.false_eq_true, if_false, if_true, and_self]

theorem loop_start (g : Globals) :
    loop "start".toList g =
      if g.status ≠ STOPPED then { g := g, out := [.line (busyText "start".toList)], hw := [] }
      else { g := g, out := [], hw := [] } := by
  have h1 : cmd "start".toList "version" 7 = false := by decide
  have h2 : cmd "start".toList "status" 6 = false := by decide
  have h3 : cmd "start".toList "debug on" 8 = false := by decide
  have h4 : cmd "start".toList "debug off" 9 = false := by decide
  have h5 : cmd "start".toList "getfreqs" 8 = false := by decide
  have h6 : cmd "start".toList "numtriggers" 11 = false := by decide
  have h7 : cmd "start".toList "reset" 5 = false := by decide
  have h8 : cmd "start".toList "abort" 5 = false := by decide
  have h9 : cmd "start".toList "readregs" 8 = false := by decide
  have h10 : cmd "start".toList "load" 4 = false := by decide
  have h11 : cmd "start".toList "save" 4 = false := by decide
  have h12 : cmd "start".toList "setfreq1" 8 = false := by decide
  have h13 : cmd "start".toList "setfreq2" 8 = false := by decide
  have h14 : cmd "start".toList "setamp" 6 = false := by decide
  have h15 : cmd "start".toList "checkv" 11 = false := by decide
  have h16 : cmd "start".toList "Custom" 6 = false := by decide
  have h17 : cmd "start".toList "sweepamp" 11 = false := by decide
  have h18 : cmd "start".toList "freq99.5" 8 = false := by decide
  have h19 : cmd "start".toList "Interpolate" 11 = false := by decide
  have h20 : cmd "start".toList "freq_and_amp" 12 = false := by decide
  have h21 : cmd "start".toList "Cust" 4 = false := by decide
  have h22 : cmd "start".toList "pattern1" 8 = false := by decide
  have h23 : cmd "start".toList "pattern2" 8 = false := by decide
  have h24 : cmd "start".toList "pattern3" 8 = false := by decide
  have h25 : cmd "start".toList "pattern4" 8 = false := by decide
  have h26 : cmd "start".toList "pattern5" 8 = false := by decide
  have h27 : cmd "start".toList "pattern6" 8 = false := by decide
  have h28 : cmd "start".toList "pattern7" 8 = false := by decide
  simp only [loop, h1, h2, h3, h4, h5, h6, h7, h8, h9, h10, h11, h12, h13, h14, h15, h16, h17, h18, h19, h20, h21, h22, h23, h24, h25, h26, h27, h28, Bool.false_eq_true, if_false, if_true, and_self]

theorem loop_start_hw (g : Globals) :
    loop "start,hw".toList g =
      if g.status ≠ STOPPED then
        { g := g, out := [.line (busyText "start,hw".toList)], hw := [] }
      else { g := g, out := [], hw := [] } := by
  have h1 : cmd "start,hw".toList "version" 7 = false := by decide
  have h2 : cmd "start,hw".toList "status" 6 = false := by decide
  have h3 : cmd "start,hw".toList "debug on" 8 = false := by decide
  have h4 : cmd "start,hw".toList "debug off" 9 = false := by decide
  have h5 : cmd "start,hw".toList "getfreqs" 8 = false := by decide
  have h6 : cmd "start,hw".toList "numtriggers" 11 = false := by decide
  have h7 : cmd "start,hw".toList "reset" 5 = false := by decide
  have h8 : cmd "start,hw".toList "abort" 5 = false := by decide
  have h9 : cmd "start,hw".toList "readregs" 8 = false := by decide
  have h10 : cmd "start,hw".toList "load" 4 = false := by decide
  have h11 : cmd "start,hw".toList "save" 4 = false := by decide
  have h12 : cmd "start,hw".toList "setfreq1" 8 = false := by decide
  have h13 : cmd "start,hw".toList "setfreq2" 8 = false := by decide
  have h14 : cmd "start,hw".toList "setamp" 6 = false := by decide
  have h15 : cmd "start,hw".toList "checkv" 11 = false := by decide
  have h16 : cmd "start,hw".toList "Custom" 6 = false := by decide
  have h17 : cmd "start,hw".toList "sweepamp" 11 = false := by decide
  have h18 : cmd "start,hw".toList "freq99.5" 8 = false := by decide
  have h19 : cmd "start,hw".toList "Interpolate" 11 = false := by decide
  have h20 : cmd "start,hw".toList "freq_and_amp" 12 = false := by decide
  have h21 : cmd "start,hw".toList "Cust" 4 = false := by decide
  have h22 : cmd "start,hw".toList "pattern1" 8 = false := by decide
  have h23 : cmd "start,hw".toList "pattern2" 8 = false := by decide
  have h24 : cmd "start,hw".toList "pattern3" 8 = false := by decide
  have h25 : cmd "start,hw".toList "pattern4" 8 = false := by decide
  have h26 : cmd "start,hw".toList "pattern5" 8 = false := by decide
  have h27 : cmd "start,hw".toList "pattern6" 8 = false := by decide
  have h28 : cmd "start,hw".toList "pattern7" 8 = false := by decide
  simp only [loop, h1, h2, h3, h4, h5, h6, h7, h8, h9, h10, h11, h12, h13, h14, h15, h16, h17, h18, h19, h20, h21, h22, h23, h24, h25, h26, h27, h28, Bool.false_eq_true, if_false, if_true, and_self]

theorem copyTable_roundtrip (a b : Table) : copyTable a (copyTable b a) = a := by
  funext k
  unfold copyTable
  split_ifs <;> rfl

theorem reset_frame (g : Globals) :
    (reset g).1.instructions = g.instructions ∧ (reset g).1.flash = g.flash ∧
    (reset g).1.status = g.status := ⟨rfl, rfl, rfl⟩

theorem abort_run_frame (g : Globals) :
    (abort_run g).1.instructions = g.instructions ∧ (abort_run g).1.flash = g.flash := by
  unfold abort_run
  split_ifs <;> exact ⟨rfl, rfl⟩

/-- C6.  Whatever the working table holds, the lines `save`, `reset`, `load` handled in this
order from status `STOPPED` each reply `ok` and leave `instructions` equal, at every index, to
its content before `save`. -/
theorem save_reset_load (g : Globals) (hst : g.status = STOPPED) :
    (loop "load".toList (loop "reset".toList (loop "save".toList g).g).g).g.instructions =
      g.instructions ∧
    (loop "save".toList g).out = [.line "ok\n"] ∧
    (loop "reset".toList (loop "save".toList g).g).out = [.line "ok\n"] ∧
    (loop "load".toList (loop "reset".toList (loop "save".toList g).g).g).out =
      [.line "ok\n"] := by
  obtain ⟨hs, hso⟩ := loop_save g hst
  obtain ⟨hr, hro⟩ := loop_reset (loop "save".toList g).g
  have hrst : (loop "reset".toList (loop "save".toList g).g).g.status = STOPPED := by
    rw [hr]
  obtain ⟨hl, hlo⟩ := loop_load (loop "reset".toList (loop "save".toList g).g).g hrst
  refine ⟨?_, hso, hro, hlo⟩
  rw [hl, hr]
  show copyTable (reset (abort_run (loop "save".toList g).g).1).1.instructions
    (reset (abort_run (loop "save".toList g).g).1).1.flash = g.instructions
  rw [(reset_frame _).1, (reset_frame _).2.1, (abort_run_frame _).1, (abort_run_frame _).2, hs]
  exact copyTable_roundtrip g.instructions g.flash

theorem save_reset_load_witness :
    (loop "load".toList (loop "reset".toList
      (loop "save".toList (bootGlobals tableAB)).g).g).g.instructions =
      (bootGlobals tableAB).instructions ∧
    (loop "save".toList (bootGlobals tableAB)).out = [.line "ok\n"] ∧
    (loop "reset".toList (loop "save".toList (bootGlobals tableAB)).g).out = [.line "ok\n"] ∧
    (loop "load".toList (loop "reset".toList
      (loop "save".toList (bootGlobals tableAB)).g).g).out = [.line "ok\n"] :=
  save_reset_load (bootGlobals tableAB) rfl

/-- A line served by none of the branches that come before the test of the status, read
while the status is not `STOPPED`: the busy text is printed and nothing else happens. -/
theorem loop_busy (line : List Char) (g : Globals) (hst : g.status ≠ STOPPED)
    (hnone : alwaysServed line = false) :
    (loop line g).out = [.line (busyText line)] ∧ (loop line g).hw = [] ∧
    (loop line g).g = g := by
  simp only [alwaysServed, alwaysKeywords, List.any_cons, List.any_nil, Bool.or_false,
    Bool.or_eq_false_iff] at hnone
  obtain ⟨h1, h2, h3, h4, h5, h6, h7, h8⟩ := hnone
  simp only [loop, h1, h2, h3, h4, h5, h6, h7, h8, hst, ne_eq, not_false_eq_true,
    Bool.false_eq_true, if_false, if_true, and_self]

/-- C8, counterexample.  The line `debug off` is none of the commands the specification lists
as recognized; sent while `status` reads `RUNNING` it is answered `ok`, not the busy text, and
it clears the debug flag. -/
theorem busy_reject_counterexample :
    specRecognized "debug off".toList = false ∧
    ({ bootGlobals tableAB with status := RUNNING } : Globals).DEBUG = true ∧
    (loop "debug off".toList { bootGlobals tableAB with status := RUNNING }).out =
      [.line "ok\n"] ∧
    (loop "debug off".toList { bootGlobals tableAB with status := RUNNING }).g.DEBUG =
      false := by
  decide

/-- C9, the code at the failing input.  Whatever the globals, the lines `start` and
`start,hw` push no message to the other core and call no hardware, leave every global
unchanged, so `status` never becomes `RUNNING`, and from status `STOPPED` they are not even
answered. -/
theorem start_line_ignored (g : Globals) :
    (loop "start".toList g).hw = [] ∧ (loop "start".toList g).g = g ∧
    (loop "start,hw".toList g).hw = [] ∧ (loop "start,hw".toList g).g = g ∧
    (loop "start".toList (bootGlobals tableAB)).out = [] ∧
    (loop "start,hw".toList (bootGlobals tableAB)).out = [] := by
  rw [loop_start, loop_start_hw]
  refine ⟨?_, ?_, ?_, ?_, by decide, by decide⟩ <;> split_ifs <;> rfl

/-! ## The trigger program -/

theorem Sm.run_add (p : PioProgram) (pin : Nat → Bool) :
    ∀ a b t (s : Sm), Sm.run p pin (a + b) t s = Sm.run p pin b (t + a) (Sm.run p pin a t s) := by
  intro a
  induction a with
  | zero => intro b t s; simp [Sm.run]
  | succ a ih =>
    intro b t s
    have e : a + 1 + b = (a + b) + 1 := by omega
    rw [e, Sm.run, Sm.run, ih]
    congr 1
    omega

theorem trigger_first_cycles (c : Nat) (pin : Nat → Bool) (t : Nat) :
    (Sm.run trigger_program pin 1 t (smWithCommand c)).side = 0 ∧
    (Sm.run trigger_program pin 2 t (smWithCommand c)).side = 0 ∧
    (c ≠ 0 → Sm.run trigger_program pin 3 t (smWithCommand c) = trigAtWait c) ∧
    (c = 0 → (Sm.run trigger_program pin 3 t (smWithCommand c)).side = 0 ∧
      (Sm.run trigger_program pin 4 t (smWithCommand c)).side = 1) := by
  refine ⟨?_, ?_, ?_, ?_⟩
  · simp [Sm.run, Sm.cycle, smWithCommand, trigger_program, trigger_program_instructions,
      exec, sidesetOf, delayOf]
  · simp [Sm.run, Sm.cycle, smWithCommand, trigger_program, trigger_program_instructions,
      exec, sidesetOf, delayOf, movSource]
  · intro hc
    simp [Sm.run, Sm.cycle, smWithCommand, trigger_program, trigger_program_instructions,
      exec, sidesetOf, delayOf, movSource, hc, trigAtWait]
  · intro hc
    subst hc
    simp [Sm.run, Sm.cycle, smWithCommand, trigger_program, trigger_program_instructions,
      exec, sidesetOf, delayOf, movSource]

theorem trigger_wait_low (c : Nat) : Sm.cycle trigger_program false (trigAtWait c) = trigAtWait c := by
  simp [Sm.cycle, trigAtWait, trigger_program, trigger_program_instructions, exec, sidesetOf]

theorem trigger_wait_stall (c : Nat) (pin : Nat → Bool) :
    ∀ n t, (∀ k, k < n → pin (t + k) = false) →
      Sm.run trigger_program pin n t (trigAtWait c) = trigAtWait c := by
  intro n
  induction n with
  | zero => intro t _; rfl
  | succ n ih =>
    intro t h
    have h0 : pin t = false := by simpa using h 0 (by omega)
    rw [Sm.run, h0, trigger_wait_low]
    apply ih
    intro k hk
    have := h (k + 1) (by omega)
    rw [← this]
    congr 1
    omega

theorem trigger_wait_high (c : Nat) (pin : Nat → Bool) (t : Nat) (h : pin t = true) :
    (Sm.run trigger_program pin 1 t (trigAtWait c)).side = 0 ∧
    (Sm.run trigger_program pin 2 t (trigAtWait c)).side = 1 := by
  constructor
  · simp [Sm.run, Sm.cycle, trigAtWait, trigger_program, trigger_program_instructions, exec,
      sidesetOf, delayOf, h]
  · simp [Sm.run, Sm.cycle, trigAtWait, trigger_program, trigger_program_instructions, exec,
      sidesetOf, delayOf, h]

/-- C10, as amended.  For every command value `c` pulled by the Trigger sequencer: if
`c = 0` the program raises the update strobe on its fourth cycle whatever the trigger pin
does, without executing `wait`; if `c` is nonzero it stands at `wait 1 pin, 0` with the
strobe low for as long as the trigger pin is low, and raises the strobe only after the cycle
in which the pin is high. -/
theorem trigger_command (c : Nat) (pin : Nat → Bool) :
    (c = 0 →
      (∀ m, m ≤ 3 → (Sm.run trigger_program pin m 0 (smWithCommand c)).side = 0) ∧
      (Sm.run trigger_program pin 4 0 (smWithCommand c)).side = 1) ∧
    (c ≠ 0 → ∀ n, (∀ k, k < n → pin (3 + k) = false) →
      (∀ m, m ≤ 3 + n → (Sm.run trigger_program pin m 0 (smWithCommand c)).side = 0) ∧
      (Sm.run trigger_program pin (3 + n) 0 (smWithCommand c)).pc = 4 ∧
      (pin (3 + n) = true →
        (Sm.run trigger_program pin (3 + n + 1) 0 (smWithCommand c)).side = 0 ∧
        (Sm.run trigger_program pin (3 + n + 2) 0 (smWithCommand c)).side = 1)) := by
  obtain ⟨h1, h2, h3, h4⟩ := trigger_first_cycles c pin 0
  have hlow3 : ∀ m, m ≤ 2 → (Sm.run trigger_program pin m 0 (smWithCommand c)).side = 0 := by
    intro m hm
    have : m = 0 ∨ m = 1 ∨ m = 2 := by omega
    rcases this with h | h | h <;> subst h
    · rfl
    · exact h1
    · exact h2
  refine ⟨?_, ?_⟩
  · intro hc
    refine ⟨?_, (h4 hc).2⟩
    intro m hm
    rcases Nat.lt_or_ge m 3 with h | h
    · exact hlow3 m (by omega)
    · have : m = 3 := by omega
      subst this
      exact (h4 hc).1
  · intro hc n hlow
    have hat : ∀ k, k ≤ n →
        Sm.run trigger_program pin (3 + k) 0 (smWithCommand c) = trigAtWait c := by
      intro k hk
      rw [Sm.run_add, h3 hc]
      apply trigger_wait_stall
      intro j hj
      rw [Nat.zero_add]
      exact hlow j (by omega)
    refine ⟨?_, ?_, ?_⟩
    · intro m hm
      rcases Nat.lt_or_ge m 3 with h | h
      · exact hlow3 m (by omega)
      · obtain ⟨k, rfl⟩ : ∃ k, m = 3 + k := ⟨m - 3, by omega⟩
        rw [hat k (by omega)]
        rfl
    · rw [hat n (le_refl _)]
      rfl
    · intro hhigh
      have hh : pin (0 + (3 + n)) = true := by rw [Nat.zero_add]; exact hhigh
      obtain ⟨w1, w2⟩ := trigger_wait_high c pin (0 + (3 + n)) hh
      rw [Sm.run_add _ _ (3 + n) 1, Sm.run_add _ _ (3 + n) 2, hat n (le_refl _)]
      exact ⟨w1, w2⟩

theorem trigger_command_witness :
    ((Sm.run trigger_program pinLow 3 0 (smWithCommand 0)).side = 0 ∧
      (Sm.run trigger_program pinLow 4 0 (smWithCommand 0)).side = 1) ∧
    ((Sm.run trigger_program pinHighFrom5 (3 + 2) 0 (smWithCommand 33)).side = 0 ∧
      (Sm.run trigger_program pinHighFrom5 (3 + 2) 0 (smWithCommand 33)).pc = 4 ∧
      (Sm.run trigger_program pinHighFrom5 (3 + 2 + 1) 0 (smWithCommand 33)).side = 0 ∧
      (Sm.run trigger_program pinHighFrom5 (3 + 2 + 2) 0 (smWithCommand 33)).side = 1) :=
  ⟨⟨((trigger_command 0 pinLow).1 rfl).1 3 (le_refl _), ((trigger_command 0 pinLow).1 rfl).2⟩,
   ((trigger_command 33 pinHighFrom5).2 (by decide) 2 (by decide)).1 (3 + 2) (le_refl _),
   ((trigger_command 33 pinHighFrom5).2 (by decide) 2 (by decide)).2.1,
   ((trigger_command 33 pinHighFrom5).2 (by decide) 2 (by decide)).2.2 (by decide)⟩

/-- C10, counterexample.  With the trigger pin held low, command 0 has the update strobe
high after four cycles (it did not wait for the pin), and the nonzero command 1 stands at
`wait 1 pin, 0` with the strobe low after four and after twelve cycles (it did not raise the
strobe at once). -/
theorem trigger_command_counterexample :
    (Sm.run trigger_program pinLow 4 0 (smWithCommand 0)).side = 1 ∧
    (Sm.run trigger_program pinLow 4 0 (smWithCommand 1)).side = 0 ∧
    (Sm.run trigger_program pinLow 12 0 (smWithCommand 1)).side = 0 ∧
    (Sm.run trigger_program pinLow 12 0 (smWithCommand 1)).pc = 4 := by
  decide

/-! ## The timer program -/

theorem timerQuiet_cycle (pin : Bool) (s : Sm) (h : TimerQuiet s) :
    TimerQuiet (Sm.cycle timer_program pin s) := by
  obtain ⟨pc, x, y, osr, isr, tx, rx, side, pins, delay, fault⟩ := s
  obtain ⟨h1, h2, h3, h4, h5, h6, h7⟩ := h
  simp only at h1 h2 h3 h4 h5 h6 h7
  subst h1 h2 h3 h4 h5 h6
  rcases h7 with h | h | h | h | h <;> subst h <;> cases pin <;>
    simp [TimerQuiet, Sm.cycle, timer_program, timer_program_instructions, exec, sidesetOf,
      delayOf, movSource]

theorem timerQuiet_run (pin : Nat → Bool) :
    ∀ n t (s : Sm), TimerQuiet s → TimerQuiet (Sm.run timer_program pin n t s) := by
  intro n
  induction n with
  | zero => intro t s h; exact h
  | succ n ih => intro t s h; exact ih _ _ (timerQuiet_cycle _ _ h)

theorem timer_zero_first (pin : Nat → Bool) (t : Nat) :
    TimerQuiet (Sm.run timer_program pin 1 t (smWithCommand 0)) ∧
    (Sm.run timer_program pin 3 t (smWithCommand 0)).pc = 5 := by
  constructor <;>
  simp [TimerQuiet, Sm.run, Sm.cycle, smWithCommand, timer_program,
    timer_program_instructions, exec, sidesetOf, delayOf, movSource]

theorem timer_zero_at_wait (pin : Nat → Bool) (t : Nat) :
    Sm.run timer_program pin 3 t (smWithCommand 0) = timerAtWait := by
  simp [Sm.run, Sm.cycle, smWithCommand, timer_program, timer_program_instructions, exec,
    sidesetOf, delayOf, movSource, timerAtWait]

theorem timer_wait_low : Sm.cycle timer_program false timerAtWait = timerAtWait := by
  simp [Sm.cycle, timerAtWait, timer_program, timer_program_instructions, exec, sidesetOf]

theorem timer_wait_stall (pin : Nat → Bool) :
    ∀ n t, (∀ k, k < n → pin (t + k) = false) →
      Sm.run timer_program pin n t timerAtWait = timerAtWait := by
  intro n
  induction n with
  | zero => intro t _; rfl
  | succ n ih =>
    intro t h
    have h0 : pin t = false := by simpa using h 0 (by omega)
    rw [Sm.run, h0, timer_wait_low]
    apply ih
    intro k hk
    have := h (k + 1) (by omega)
    rw [← this]
    congr 1
    omega

theorem timer_wait_high (pin : Nat → Bool) (t : Nat) (h : pin t = true) :
    (Sm.run timer_program pin 1 t timerAtWait).pc = 6 ∧
    (Sm.run timer_program pin 2 t timerAtWait).pc = 0 := by
  constructor <;>
  simp [Sm.run, Sm.cycle, timerAtWait, timer_program, timer_program_instructions, exec,
    sidesetOf, delayOf, h]

/-- The timer state machine during the pulse and at its end: for a nonzero word `d` the
side-set pin is high from the fourth to the ninth cycle, with `x` still equal to `d`. -/
theorem timer_pulse (d : Nat) (hd : d ≠ 0) (pin : Nat → Bool) (t : Nat) :
    (∀ m, m ≤ 3 → (Sm.run timer_program pin m t (smWithCommand d)).side = 0) ∧
    (∀ m, 4 ≤ m → m ≤ 9 → (Sm.run timer_program pin m t (smWithCommand d)).side = 1 ∧
      (Sm.run timer_program pin m t (smWithCommand d)).x = d) ∧
    Sm.run timer_program pin 10 t (smWithCommand d) =
      timerCount d ((d + UINT_MOD - 1) % UINT_MOD) := by
  refine ⟨?_, ?_, ?_⟩
  · intro m hm
    have : m = 0 ∨ m = 1 ∨ m = 2 ∨ m = 3 := by omega
    rcases this with h | h | h | h <;> subst h <;>
      simp [Sm.run, Sm.cycle, smWithCommand, timer_program, timer_program_instructions, exec,
        sidesetOf, delayOf, movSource, hd]
  · intro m h4 h9
    have : m = 4 ∨ m = 5 ∨ m = 6 ∨ m = 7 ∨ m = 8 ∨ m = 9 := by omega
    rcases this with h | h | h | h | h | h <;> subst h <;>
      simp [Sm.run, Sm.cycle, smWithCommand, timer_program, timer_program_instructions, exec,
        sidesetOf, delayOf, movSource, hd]
  · simp [Sm.run, Sm.cycle, smWithCommand, timer_program, timer_program_instructions, exec,
      sidesetOf, delayOf, movSource, hd, timerCount]

theorem timer_count_step (d x : Nat) (hx : x + 1 < UINT_MOD) (pin : Bool) :
    Sm.cycle timer_program pin (timerCount d (x + 1)) = timerCount d x := by
  have hU : UINT_MOD = 4294967296 := rfl
  have e : (x + 1 + UINT_MOD - 1) % UINT_MOD = x := by rw [hU] at hx ⊢; omega
  have e2 : x % UINT_MOD = x := Nat.mod_eq_of_lt (by omega)
  simp [Sm.cycle, timerCount, timer_program, timer_program_instructions, exec, sidesetOf,
    delayOf, e, e2]

theorem timer_count_end (d : Nat) (pin : Bool) :
    (Sm.cycle timer_program pin (timerCount d 0)).pc = 0 ∧
    (Sm.cycle timer_program pin (timerCount d 0)).side = 0 := by
  constructor <;>
  simp [Sm.cycle, timerCount, timer_program, timer_program_instructions, exec, sidesetOf,
    delayOf]

theorem timer_count_run (d : Nat) (pin : Nat → Bool) :
    ∀ k x t, x + k < UINT_MOD →
      Sm.run timer_program pin k t (timerCount d (x + k)) = timerCount d x := by
  intro k
  induction k with
  | zero => intro x t _; rfl
  | succ k ih =>
    intro x t h
    have e : x + (k + 1) = (x + k) + 1 := by omega
    rw [Sm.run, e, timer_count_step d (x + k) (by omega)]
    exact ih x (t + 1) (by omega)

/-- C11, as amended.  For every duration word `d` pulled by the Timer sequencer: if `d` is
nonzero the program first emits one advance pulse (side-set pin high from its fourth to its
ninth cycle, while `x` still holds `d`) and only then counts `d` down to zero with the pin
low, reaching `pull` again after `10 + d` cycles; if `d = 0` it emits no pulse at all: the
pin it drives stays low for ever, it stands at `wait 1 pin, 0` while the trigger pin is low
and goes back to `pull` once the pin is high. -/
theorem timer_word (d : Nat) (pin : Nat → Bool) :
    (d ≠ 0 → d < UINT_MOD →
      (∀ m, m ≤ 3 → (Sm.run timer_program pin m 0 (smWithCommand d)).side = 0) ∧
      (∀ m, 4 ≤ m → m ≤ 9 → (Sm.run timer_program pin m 0 (smWithCommand d)).side = 1 ∧
        (Sm.run timer_program pin m 0 (smWithCommand d)).x = d) ∧
      (∀ k, k < d → Sm.run timer_program pin (10 + k) 0 (smWithCommand d) =
        timerCount d (d - 1 - k)) ∧
      (Sm.run timer_program pin (10 + d) 0 (smWithCommand d)).pc = 0 ∧
      (Sm.run timer_program pin (10 + d) 0 (smWithCommand d)).side = 0) ∧
    (d = 0 →
      (∀ m, (Sm.run timer_program pin m 0 (smWithCommand d)).side = 0) ∧
      (∀ n, (∀ k, k < n → pin (3 + k) = false) →
        (Sm.run timer_program pin (3 + n) 0 (smWithCommand d)).pc = 5 ∧
        (pin (3 + n) = true →
          (Sm.run timer_program pin (3 + n + 2) 0 (smWithCommand d)).pc = 0))) := by
  refine ⟨?_, ?_⟩
  · intro hd hlt
    obtain ⟨p1, p2, p3⟩ := timer_pulse d hd pin 0
    have hU : UINT_MOD = 4294967296 := rfl
    have e : (d + UINT_MOD - 1) % UINT_MOD = d - 1 := by rw [hU] at hlt ⊢; omega
    rw [e] at p3
    have hcount : ∀ k, k < d → Sm.run timer_program pin (10 + k) 0 (smWithCommand d) =
        timerCount d (d - 1 - k) := by
      intro k hk
      rw [Sm.run_add, p3]
      have h := timer_count_run d pin k (d - 1 - k) (0 + 10) (by omega)
      have e2 : d - 1 - k + k = d - 1 := by omega
      rw [e2] at h
      exact h
    refine ⟨p1, p2, hcount, ?_⟩
    have hlast := hcount (d - 1) (by omega)
    have e4 : d - 1 - (d - 1) = 0 := by omega
    rw [e4] at hlast
    have e5 : 10 + d = (10 + (d - 1)) + 1 := by omega
    rw [e5, Sm.run_add, hlast]
    simp only [Sm.run]
    exact timer_count_end d _
  · intro hd
    subst hd
    refine ⟨?_, ?_⟩
    · intro m
      cases m with
      | zero => rfl
      | succ m =>
        have e : m + 1 = 1 + m := by omega
        rw [e, Sm.run_add]
        exact (timerQuiet_run pin m _ _ (timer_zero_first pin 0).1).2.2.1
    · intro n hlow
      have hat : Sm.run timer_program pin (3 + n) 0 (smWithCommand 0) = timerAtWait := by
        rw [Sm.run_add, timer_zero_at_wait]
        apply timer_wait_stall
        intro k hk
        rw [Nat.zero_add]
        exact hlow k hk
      refine ⟨by rw [hat]; rfl, ?_⟩
      intro hhigh
      rw [Sm.run_add _ _ (3 + n) 2, hat]
      exact (timer_wait_high pin (0 + (3 + n)) (by rw [Nat.zero_add]; exact hhigh)).2

theorem timer_word_witness :
    ((Sm.run timer_program pinLow 3 0 (smWithCommand 3)).side = 0 ∧
      ((Sm.run timer_program pinLow 4 0 (smWithCommand 3)).side = 1 ∧
        (Sm.run timer_program pinLow 4 0 (smWithCommand 3)).x = 3) ∧
      Sm.run timer_program pinLow (10 + 2) 0 (smWithCommand 3) = timerCount 3 (3 - 1 - 2) ∧
      (Sm.run timer_program pinLow (10 + 3) 0 (smWithCommand 3)).pc = 0 ∧
      (Sm.run timer_program pinLow (10 + 3) 0 (smWithCommand 3)).side = 0) ∧
    ((Sm.run timer_program pinHighFrom5 9 0 (smWithCommand 0)).side = 0 ∧
      (Sm.run timer_program pinHighFrom5 (3 + 2) 0 (smWithCommand 0)).pc = 5 ∧
      (Sm.run timer_program pinHighFrom5 (3 + 2 + 2) 0 (smWithCommand 0)).pc = 0) :=
  ⟨⟨((timer_word 3 pinLow).1 (by decide) (by decide)).1 3 (le_refl _),
    ((timer_word 3 pinLow).1 (by decide) (by decide)).2.1 4 (le_refl _) (by decide),
    ((timer_word 3 pinLow).1 (by decide) (by decide)).2.2.1 2 (by decide),
    ((timer_word 3 pinLow).1 (by decide) (by decide)).2.2.2⟩,
   ((timer_word 0 pinHighFrom5).2 rfl).1 9,
   (((timer_word 0 pinHighFrom5).2 rfl).2 2 (by decide)).1,
   (((timer_word 0 pinHighFrom5).2 rfl).2 2 (by decide)).2 (by decide)⟩

/-- C11, counterexample.  For the nonzero word 3 the side-set pin is already high after four
cycles, with `x` still 3: the pulse comes before the count-down, not after it.  For the word 0
and a trigger pin that goes high at cycle 5, the program has left `wait` after six cycles and
is back at `pull` after seven, and the pin it drives is low after each of the cycles 6 to 9:
no pulse follows the wait. -/
theorem timer_word_counterexample :
    ((Sm.run timer_program pinLow 4 0 (smWithCommand 3)).side = 1 ∧
      (Sm.run timer_program pinLow 4 0 (smWithCommand 3)).x = 3) ∧
    ((Sm.run timer_program pinHighFrom5 6 0 (smWithCommand 0)).pc = 6 ∧
      (Sm.run timer_program pinHighFrom5 7 0 (smWithCommand 0)).pc = 0 ∧
      (Sm.run timer_program pinHighFrom5 6 0 (smWithCommand 0)).side = 0 ∧
      (Sm.run timer_program pinHighFrom5 7 0 (smWithCommand 0)).side = 0 ∧
      (Sm.run timer_program pinHighFrom5 8 0 (smWithCommand 0)).side = 0 ∧
      (Sm.run timer_program pinHighFrom5 9 0 (smWithCommand 0)).side = 0) := by
  decide

/-! ## The dispatcher on an arbitrary line -/

/-- What one call of `loop()` can do to the globals, whatever the line: nothing (and then it
makes no store to `status`), set or clear `DEBUG`, the `reset` branch, the `abort` branch, or,
from status `STOPPED` only, the `load` or the `save` branch. -/
theorem loop_cases (line : List Char) (g : Globals) :
    (∃ o h, loop line g = { g := g, out := o, hw := h } ∧ ∀ st, statusWrites st h = []) ∨
    (∃ b, loop line g = { g := { g with DEBUG := b }, out := [.line "ok\n"], hw := [] }) ∨
    (loop line g =
      { g := { (reset (abort_run g).1).1 with status := STOPPED }, out := [.line "ok\n"],
        hw := (abort_run g).2 ++ (reset (abort_run g).1).2 ++ [.set_status STOPPED] }) ∨
    (loop line g = { g := (abort_run g).1, out := [.line "ok\n"], hw := (abort_run g).2 }) ∨
    (g.status = STOPPED ∧ loop line g =
      { g := { g with instructions := copyTable g.instructions g.flash },
        out := [.line "ok\n"], hw := [] }) ∨
    (g.status = STOPPED ∧ loop line g =
      { g := { g with flash := copyTable g.flash g.instructions },
        out := [.line "ok\n"], hw := [.flash_erase, .flash_program] }) := by
  unfold loop
  by_cases h1 : cmd line "version" 7 = true
  · rw [if_pos h1]; exact Or.inl ⟨_, _, rfl, fun _ => rfl⟩
  rw [if_neg h1]
  by_cases h2 : cmd line "status" 6 = true
  · rw [if_pos h2]; exact Or.inl ⟨_, _, rfl, fun _ => rfl⟩
  rw [if_neg h2]
  by_cases h3 : cmd line "debug on" 8 = true
  · rw [if_pos h3]; exact Or.inr (Or.inl ⟨_, rfl⟩)
  rw [if_neg h3]
  by_cases h4 : cmd line "debug off" 9 = true
  · rw [if_pos h4]; exact Or.inr (Or.inl ⟨_, rfl⟩)
  rw [if_neg h4]
  by_cases h5 : cmd line "getfreqs" 8 = true
  · rw [if_pos h5]; exact Or.inl ⟨_, _, rfl, fun _ => rfl⟩
  rw [if_neg h5]
  by_cases h6 : cmd line "numtriggers" 11 = true
  · rw [if_pos h6]; exact Or.inl ⟨_, _, rfl, fun _ => rfl⟩
  rw [if_neg h6]
  by_cases h7 : cmd line "reset" 5 = true
  · rw [if_pos h7]; exact Or.inr (Or.inr (Or.inl rfl))
  rw [if_neg h7]
  by_cases h8 : cmd line "abort" 5 = true
  · rw [if_pos h8]; exact Or.inr (Or.inr (Or.inr (Or.inl rfl)))
  rw [if_neg h8]
  by_cases hs : g.status ≠ STOPPED
  · rw [if_pos hs]; exact Or.inl ⟨_, _, rfl, fun _ => rfl⟩
  rw [if_neg hs]
  have hst : g.status = STOPPED := not_not.mp hs
  by_cases h10 : cmd line "readregs" 8 = true
  · rw [if_pos h10]; exact Or.inl ⟨_, _, rfl, fun _ => rfl⟩
  rw [if_neg h10]
  by_cases h11 : cmd line "load" 4 = true
  · rw [if_pos h11]; exact Or.inr (Or.inr (Or.inr (Or.inr (Or.inl ⟨hst, rfl⟩))))
  rw [if_neg h11]
  by_cases h12 : cmd line "save" 4 = true
  · rw [if_pos h12]; exact Or.inr (Or.inr (Or.inr (Or.inr (Or.inr ⟨hst, rfl⟩))))
  rw [if_neg h12]
  by_cases h13 : cmd line "setfreq1" 8 = true
  · rw [if_pos h13]; exact Or.inl ⟨_, _, rfl, fun _ => rfl⟩
  rw [if_neg h13]
  by_cases h14 : cmd line "setfreq2" 8 = true
  · rw [if_pos h14]; exact Or.inl ⟨_, _, rfl, fun _ => rfl⟩
  rw [if_neg h14]
  by_cases h15 : cmd line "setamp" 6 = true
  · rw [if_pos h15]; exact Or.inl ⟨_, _, rfl, fun _ => rfl⟩
  rw [if_neg h15]
  by_cases h16 : cmd line "checkv" 11 = true
  · rw [if_pos h16]; exact Or.inl ⟨_, _, rfl, fun _ => rfl⟩
  rw [if_neg h16]
  by_cases h17 : cmd line "Custom" 6 = true
  · rw [if_pos h17]; exact Or.inl ⟨_, _, rfl, fun _ => rfl⟩
  rw [if_neg h17]
  by_cases h18 : cmd line "sweepamp" 11 = true
  · rw [if_pos h18]; exact Or.inl ⟨_, _, rfl, fun _ => rfl⟩
  rw [if_neg h18]
  by_cases h19 : cmd line "freq99.5" 8 = true
  · rw [if_pos h19]; exact Or.inl ⟨_, _, rfl, fun _ => rfl⟩
  rw [if_neg h19]
  by_cases h20 : cmd line "Interpolate" 11 = true
  · rw [if_pos h20]; exact Or.inl ⟨_, _, rfl, fun _ => rfl⟩
  rw [if_neg h20]
  by_cases h21 : cmd line "freq_and_amp" 12 = true
  · rw [if_pos h21]; exact Or.inl ⟨_, _, rfl, fun _ => rfl⟩
  rw [if_neg h21]
  by_cases h22 : cmd line "Cust" 4 = true
  · rw [if_pos h22]; exact Or.inl ⟨_, _, rfl, fun _ => rfl⟩
  rw [if_neg h22]
  by_cases h23 : cmd line "pattern1" 8 = true
  · rw [if_pos h23]; exact Or.inl ⟨_, _, rfl, fun _ => rfl⟩
  rw [if_neg h23]
  by_cases h24 : cmd line "pattern2" 8 = true
  · rw [if_pos h24]; exact Or.inl ⟨_, _, rfl, fun _ => rfl⟩
  rw [if_neg h24]
  by_cases h25 : cmd line "pattern3" 8 = true
  · rw [if_pos h25]; exact Or.inl ⟨_, _, rfl, fun _ => rfl⟩
  rw [if_neg h25]
  by_cases h26 : cmd line "pattern4" 8 = true
  · rw [if_pos h26]; exact Or.inl ⟨_, _, rfl, fun _ => rfl⟩
  rw [if_neg h26]
  by_cases h27 : cmd line "pattern5" 8 = true
  · rw [if_pos h27]; exact Or.inl ⟨_, _, rfl, fun _ => rfl⟩
  rw [if_neg h27]
  by_cases h28 : cmd line "pattern6" 8 = true
  · rw [if_pos h28]; exact Or.inl ⟨_, _, rfl, fun _ => rfl⟩
  rw [if_neg h28]
  by_cases h29 : cmd line "pattern7" 8 = true
  · rw [if_pos h29]; exact Or.inl ⟨_, _, rfl, fun _ => rfl⟩
  rw [if_neg h29]
  exact Or.inl ⟨_, _, rfl, fun _ => rfl⟩

theorem abort_run_status (g : Globals) :
    (g.status = RUNNING ∧ (abort_run g).1 = { g with status := ABORTING } ∧
      (abort_run g).2 = [.set_status ABORTING, .trigger_pulse, .init_pio]) ∨
    (g.status ≠ RUNNING ∧ (abort_run g).1 = g ∧ (abort_run g).2 = []) := by
  unfold abort_run
  by_cases h : g.status = RUNNING
  · left; rw [if_pos h]; exact ⟨h, rfl, rfl⟩
  · right; rw [if_neg h]; exact ⟨h, rfl, rfl⟩

/-- Every branch of `loop()` leaves `instructions` alone, except `load`, which is behind the
test of the status. -/
theorem loop_instructions (line : List Char) (g : Globals) (hst : g.status ≠ STOPPED) :
    (loop line g).g.instructions = g.instructions := by
  rcases loop_cases line g with ⟨o, h, e, _⟩ | ⟨b, e⟩ | e | e | ⟨hs, _⟩ | ⟨hs, _⟩
  · rw [e]
  · rw [e]
  · rw [e]; exact (abort_run_frame g).1
  · rw [e]; exact (abort_run_frame g).1
  · exact absurd hs hst
  · exact absurd hs hst

/-- Every branch of `loop()` leaves `INS_SIZE` and `ad9959.channels` alone, except `reset`,
which sets them to 14 and 1. -/
theorem loop_config (line : List Char) (g : Globals) :
    ((loop line g).g.INS_SIZE = g.INS_SIZE ∧ (loop line g).g.channels = g.channels) ∨
    ((loop line g).g.INS_SIZE = 14 ∧ (loop line g).g.channels = 1) := by
  rcases loop_cases line g with ⟨o, h, e, _⟩ | ⟨b, e⟩ | e | e | ⟨_, e⟩ | ⟨_, e⟩
  · rw [e]; exact Or.inl ⟨rfl, rfl⟩
  · rw [e]; exact Or.inl ⟨rfl, rfl⟩
  · rw [e]; exact Or.inr ⟨rfl, rfl⟩
  · rw [e]
    rcases abort_run_status g with ⟨_, h1, _⟩ | ⟨_, h1, _⟩ <;> rw [h1] <;>
      exact Or.inl ⟨rfl, rfl⟩
  · rw [e]; exact Or.inl ⟨rfl, rfl⟩
  · rw [e]; exact Or.inl ⟨rfl, rfl⟩

/-- The stores of `loop()` to `status`, whatever the line: none, `RUNNING` to `ABORTING` (in
`abort_run()`), and the `set_status(STOPPED)` of the `reset` branch, which finds `ABORTING`
after `abort_run()` stopped a run and otherwise the value it was called with. -/
theorem loop_statusWrites (line : List Char) (g : Globals) :
    (statusWrites g.status (loop line g).hw = [] ∧ (loop line g).g.status = g.status) ∨
    (g.status = RUNNING ∧ statusWrites g.status (loop line g).hw = [(RUNNING, ABORTING)] ∧
      (loop line g).g.status = ABORTING) ∨
    (g.status = RUNNING ∧
      statusWrites g.status (loop line g).hw = [(RUNNING, ABORTING), (ABORTING, STOPPED)] ∧
      (loop line g).g.status = STOPPED) ∨
    (g.status ≠ RUNNING ∧ statusWrites g.status (loop line g).hw = [(g.status, STOPPED)] ∧
      (loop line g).g.status = STOPPED) := by
  rcases loop_cases line g with ⟨o, h, e, hw⟩ | ⟨b, e⟩ | e | e | ⟨_, e⟩ | ⟨_, e⟩
  · rw [e]; exact Or.inl ⟨hw _, rfl⟩
  · rw [e]; exact Or.inl ⟨rfl, rfl⟩
  · rw [e]
    rcases abort_run_status g with ⟨hr, h1, h2⟩ | ⟨hr, h1, h2⟩
    · right; right; left
      refine ⟨hr, ?_, rfl⟩
      simp only [h1, h2, hr, reset]
      rfl
    · right; right; right
      refine ⟨hr, ?_, rfl⟩
      simp only [h1, h2, reset]
      rfl
  · rw [e]
    rcases abort_run_status g with ⟨hr, h1, h2⟩ | ⟨hr, h1, h2⟩
    · right; left
      refine ⟨hr, ?_, ?_⟩
      · simp only [h2, hr]; rfl
      · rw [h1]
    · left
      rw [h1, h2]
      exact ⟨rfl, rfl⟩
  · rw [e]; exact Or.inl ⟨rfl, rfl⟩
  · rw [e]; exact Or.inl ⟨rfl, rfl⟩

/-! ## The claims on the dispatcher -/

theorem loop_version (g : Globals) :
    loop "version".toList g = { g := g, out := [.line "0.1.1\n"], hw := [] } := by
  have h1 : cmd "version".toList "version" 7 = true := by decide
  simp only [loop, h1, if_true]
  rfl

theorem loop_status_eq (g : Globals) :
    loop "status".toList g = { g := g, out := [.line (toString g.status ++ "\n")], hw := [] } := by
  have h1 : cmd "status".toList "version" 7 = false := by decide
  have h2 : cmd "status".toList "status" 6 = true := by decide
  simp only [loop, h1, h2, Bool.false_eq_true, if_false, if_true]

theorem loop_numtriggers_eq (g : Globals) :
    loop "numtriggers".toList g =
      { g := g, out := [.line (toString g.triggers ++ "\n")], hw := [] } := by
  have h1 : cmd "numtriggers".toList "version" 7 = false := by decide
  have h2 : cmd "numtriggers".toList "status" 6 = false := by decide
  have h3 : cmd "numtriggers".toList "debug on" 8 = false := by decide
  have h4 : cmd "numtriggers".toList "debug off" 9 = false := by decide
  have h5 : cmd "numtriggers".toList "getfreqs" 8 = false := by decide
  have h6 : cmd "numtriggers".toList "numtriggers" 11 = true := by decide
  simp only [loop, h1, h2, h3, h4, h5, h6, Bool.false_eq_true, if_false, if_true]

theorem loop_abort (g : Globals) :
    loop "abort".toList g =
      { g := (abort_run g).1, out := [.line "ok\n"], hw := (abort_run g).2 } := by
  have h1 : cmd "abort".toList "version" 7 = false := by decide
  have h2 : cmd "abort".toList "status" 6 = false := by decide
  have h3 : cmd "abort".toList "debug on" 8 = false := by decide
  have h4 : cmd "abort".toList "debug off" 9 = false := by decide
  have h5 : cmd "abort".toList "getfreqs" 8 = false := by decide
  have h6 : cmd "abort".toList "numtriggers" 11 = false := by decide
  have h7 : cmd "abort".toList "reset" 5 = false := by decide
  have h8 : cmd "abort".toList "abort" 5 = true := by decide
  simp only [loop, h1, h2, h3, h4, h5, h6, h7, h8, Bool.false_eq_true, if_false, if_true]

/-- C12.  Whatever the status before (`STOPPED`, `RUNNING`, `ABORTING` or any other value),
after `loop()` has handled the line `reset` the status cell is `STOPPED`, the reply is `ok`,
and the stride configuration is `INS_SIZE = 14` with one channel, which gives the stride
15. -/
theorem reset_line (g : Globals) :
    (loop "reset".toList g).g.status = STOPPED ∧
    (loop "reset".toList g).out = [.line "ok\n"] ∧
    (loop "reset".toList g).g.INS_SIZE = 14 ∧
    (loop "reset".toList g).g.channels = 1 ∧
    stepOf (loop "reset".toList g).g.INS_SIZE (loop "reset".toList g).g.channels = 15 := by
  obtain ⟨hg, ho⟩ := loop_reset g
  rw [hg]
  exact ⟨rfl, ho, rfl, rfl, rfl⟩

/-- C16.  In every status the lines `version`, `status` and `numtriggers` change no global
(status cell, trigger count, table, flash image and the rest) and call no hardware; they are
answered with `0.1.1`, with the decimal value of the status cell, and with the decimal value
of the trigger count. -/
theorem read_only_commands (g : Globals) :
    loop "version".toList g = { g := g, out := [.line "0.1.1\n"], hw := [] } ∧
    loop "status".toList g =
      { g := g, out := [.line (toString g.status ++ "\n")], hw := [] } ∧
    loop "numtriggers".toList g =
      { g := g, out := [.line (toString g.triggers ++ "\n")], hw := [] } ∧
    (loop "status".toList { g with status := STOPPED }).out = [.line "0\n"] ∧
    (loop "status".toList { g with status := RUNNING }).out = [.line "1\n"] ∧
    (loop "status".toList { g with status := ABORTING }).out = [.line "2\n"] := by
  refine ⟨loop_version g, loop_status_eq g, loop_numtriggers_eq g, ?_, ?_, ?_⟩
  · rw [loop_status_eq]
    show [Output.line (toString STOPPED ++ "\n")] = [Output.line "0\n"]
    decide
  · rw [loop_status_eq]
    show [Output.line (toString RUNNING ++ "\n")] = [Output.line "1\n"]
    decide
  · rw [loop_status_eq]
    show [Output.line (toString ABORTING ++ "\n")] = [Output.line "2\n"]
    decide

/-- C18.  The line `abort` is always answered `ok`.  When the status is `RUNNING` it stores
`ABORTING`, pulses the trigger line and re-initialises the sequencers; in every other status
it changes no global and calls no hardware.  So the status becomes `ABORTING` by this command
iff it was `RUNNING`, and a second `abort` right after the first does nothing. -/
theorem abort_line (g : Globals) :
    (loop "abort".toList g).out = [.line "ok\n"] ∧
    (loop "abort".toList g).g =
      (if g.status = RUNNING then { g with status := ABORTING } else g) ∧
    (loop "abort".toList g).hw =
      (if g.status = RUNNING then [.set_status ABORTING, .trigger_pulse, .init_pio] else []) ∧
    (((loop "abort".toList g).g.status = ABORTING ∧ g.status ≠ ABORTING) ↔
      g.status = RUNNING) ∧
    (loop "abort".toList (loop "abort".toList g).g).g = (loop "abort".toList g).g ∧
    (loop "abort".toList (loop "abort".toList g).g).hw = [] := by
  have hab : ∀ g : Globals, (abort_run g).1 =
      (if g.status = RUNNING then { g with status := ABORTING } else g) ∧
      (abort_run g).2 =
      (if g.status = RUNNING then [.set_status ABORTING, .trigger_pulse, .init_pio]
        else []) := by
    intro g
    unfold abort_run
    by_cases h : g.status = RUNNING
    · simp only [if_pos h, and_self]
    · simp only [if_neg h, and_self]
  rw [loop_abort, loop_abort]
  refine ⟨rfl, (hab g).1, (hab g).2, ?_, ?_, ?_⟩
  · show ((abort_run g).1.status = ABORTING ∧ g.status ≠ ABORTING) ↔ g.status = RUNNING
    rw [(hab g).1]
    by_cases h : g.status = RUNNING
    · rw [if_pos h]
      constructor
      · intro _; exact h
      · intro _; exact ⟨rfl, by rw [h]; decide⟩
    · rw [if_neg h]
      constructor
      · intro ⟨h1, h2⟩; exact absurd h1 h2
      · intro h1; exact absurd h1 h
  · show (abort_run (abort_run g).1).1 = (abort_run g).1
    rw [(hab (abort_run g).1).1, (hab g).1]
    by_cases h : g.status = RUNNING
    · rw [if_pos h, if_neg (show ¬ ABORTING = RUNNING by decide)]
    · rw [if_neg h, if_neg h]
  · show (abort_run (abort_run g).1).2 = []
    rw [(hab (abort_run g).1).2, (hab g).1]
    by_cases h : g.status = RUNNING
    · rw [if_pos h, if_neg (show ¬ ABORTING = RUNNING by decide)]
    · rw [if_neg h, if_neg h]

/-! ## What the run loop leaves alone -/

/-- The run loop writes none of the globals but `status` and `triggers`. -/
theorem runLoop_frame (env : Env) (step n : Nat) (rep : Bool) :
    ∀ fuel j i offset (g : Globals),
      (runLoop env step n rep fuel j i offset g).g.INS_SIZE = g.INS_SIZE ∧
      (runLoop env step n rep fuel j i offset g).g.channels = g.channels ∧
      (runLoop env step n rep fuel j i offset g).g.timing = g.timing ∧
      (runLoop env step n rep fuel j i offset g).g.instructions = g.instructions ∧
      (runLoop env step n rep fuel j i offset g).g.flash = g.flash ∧
      (runLoop env step n rep fuel j i offset g).g.DEBUG = g.DEBUG := by
  intro fuel
  induction fuel with
  | zero => intro j i offset g; simp [runLoop]
  | succ fuel ih =>
    intro j i offset g
    simp only [runLoop]
    split_ifs <;> simp only [cleanup, RunResult.after, and_self]
    all_goals exact ih _ _ _ _

/-- Every call the run loop makes is a word to the Trigger sequencer, a transport write, the
start of the TimingDMA transfer with source `TIMING_OFFSET` and count `num_ins` (only when
`timing` is set), an observed advance event, or one of the calls of the clean-up. -/
theorem runLoop_events (env : Env) (step n : Nat) (rep : Bool) (tm : Bool) (Q : Event → Prop)
    (hc : ∀ e, e ∈ cleanupEvents → Q e) (ht : ∀ w, Q (.trig_put w))
    (hs : ∀ a b, Q (.spi_write a b)) (hd : tm = true → Q (.dma_start TIMING_OFFSET n))
    (hw : Q .wait_ack) :
    ∀ fuel j i offset (g : Globals), g.timing = tm →
      ∀ e, e ∈ (runLoop env step n rep fuel j i offset g).trace → Q e := by
  intro fuel
  induction fuel with
  | zero => intro j i offset g _ e he; simp [runLoop] at he
  | succ fuel ih =>
    intro j i offset g hg e he
    simp only [runLoop] at he
    split_ifs at he with c1 c2 c3 c4 c5 c6 c7 c8 c9
    all_goals simp only [cleanup, RunResult.after, List.mem_append, List.mem_cons,
      List.mem_singleton, List.not_mem_nil, or_false, false_or] at he
    all_goals try exact hc e he
    all_goals repeat' (rcases he with he | he)
    all_goals first
      | (refine ih _ _ _ _ ?_ e he; exact hg)
      | exact ht _
      | exact hs _ _
      | exact hw
      | exact hd (by have h := ‹_ ∧ g.timing = true›; rw [← hg]; exact h.2)

/-- The run loop makes none of the calls of the start of a run. -/
theorem runLoop_no_start (env : Env) (step n : Nat) (rep : Bool) (fuel j i offset : Nat)
    (g : Globals) :
    (runLoop env step n rep fuel j i offset g).trace.filter isStartEvent = [] := by
  rw [List.filter_eq_nil_iff]
  intro e he
  have h := runLoop_events env step n rep g.timing (fun e => isStartEvent e = false)
    (by decide) (fun _ => rfl) (fun _ _ => rfl) (fun _ => rfl) rfl fuel j i offset g rfl e he
  simp only at h
  rw [h]
  decide

theorem mem_dmaStarts (w : Nat × Nat) :
    ∀ es : List Event, w ∈ dmaStarts es → Event.dma_start w.1 w.2 ∈ es := by
  intro es
  induction es with
  | nil => intro h; simp [dmaStarts] at h
  | cons e es ih =>
    intro h
    cases e
    case dma_start s c =>
      simp only [dmaStarts, List.mem_cons] at h
      rcases h with h | h
      · subst h; exact List.mem_cons_self _ _
      · exact List.mem_cons_of_mem _ (ih h)
    all_goals exact List.mem_cons_of_mem _ (ih h)

/-- Every TimingDMA transfer the run loop starts has the source `TIMING_OFFSET` and the
count `num_ins`, and it starts none when `timing` is false. -/
theorem runLoop_dmaStarts (env : Env) (step n : Nat) (rep : Bool) (fuel j i offset : Nat)
    (g : Globals) :
    (∀ w, w ∈ dmaStarts (runLoop env step n rep fuel j i offset g).trace →
      w = (TIMING_OFFSET, n)) ∧
    (g.timing = false → dmaStarts (runLoop env step n rep fuel j i offset g).trace = []) := by
  have key : ∀ w, w ∈ dmaStarts (runLoop env step n rep fuel j i offset g).trace →
      w = (TIMING_OFFSET, n) ∧ g.timing = true := by
    intro w hw
    have h := runLoop_events env step n rep g.timing
      (fun e => ∀ s c, e = .dma_start s c → (s, c) = (TIMING_OFFSET, n) ∧ g.timing = true)
      (by intro e he s c hsc; subst hsc; simp [cleanupEvents] at he)
      (fun _ s c h => by cases h) (fun _ _ s c h => by cases h)
      (fun ht s c h => by cases h; exact ⟨rfl, ht⟩) (fun s c h => by cases h)
      fuel j i offset g rfl _ (mem_dmaStarts w _ hw) w.1 w.2 rfl
    exact h
  refine ⟨fun w hw => (key w hw).1, ?_⟩
  intro hf
  rw [List.eq_nil_iff_forall_not_mem]
  intro w hw
  have := (key w hw).2
  rw [hf] at this
  cases this

/-- The stores of the run loop to `status`: none while it runs, and the one of the clean-up
when it has been left. -/
theorem runLoop_statusWrites (env : Env) (step n : Nat) (rep : Bool) :
    ∀ fuel j i offset (g : Globals) (st : Nat),
      (statusWrites st (runLoop env step n rep fuel j i offset g).trace = [] ∧
        (runLoop env step n rep fuel j i offset g).outcome ≠ .drained) ∨
      (statusWrites st (runLoop env step n rep fuel j i offset g).trace = [(st, STOPPED)] ∧
        (runLoop env step n rep fuel j i offset g).outcome = .drained ∧
        (runLoop env step n rep fuel j i offset g).g.status = STOPPED) := by
  intro fuel
  induction fuel with
  | zero => intro j i offset g st; simp [runLoop, statusWrites]
  | succ fuel ih =>
    intro j i offset g st
    simp only [runLoop]
    split_ifs <;>
      simp [cleanup, cleanupEvents, RunResult.after, statusWrites, ih]

/-! ## The claims on the status cell, the stride and the start of a run -/

/-- With no store to `status` from outside, the run loop leaves in `status` the value it
found for as long as the clean-up has not run. -/
theorem runLoop_status_quiet (env : Env) (step n : Nat) (rep : Bool)
    (hctl : ∀ j, env.ctl j = none) :
    ∀ fuel j i offset (g : Globals),
      (runLoop env step n rep fuel j i offset g).outcome ≠ .drained →
      (runLoop env step n rep fuel j i offset g).g.status = g.status := by
  intro fuel
  induction fuel with
  | zero => intro j i offset g _; simp [runLoop]
  | succ fuel ih =>
    intro j i offset g
    simp only [runLoop, hctl, Option.getD_none]
    split_ifs <;> simp only [cleanup, RunResult.after, ne_eq, not_true_eq_false,
      false_implies, implies_true]
    all_goals exact ih _ _ _ _

/-- One pass of `background()`: either the scan finds a terminator and the run loop is
entered, or the pass ends in the scan with `set_status(RUNNING)` as its only call. -/
theorem background_cases (env : Env) (fuel hwstart : Nat) (g : Globals) :
    (∃ n rep, scan g.instructions (stepOf g.INS_SIZE g.channels) fuel = .found n rep ∧
      background env fuel hwstart g =
        (runLoop env (stepOf g.INS_SIZE g.channels) n rep fuel 0 0 0
          { g with status := RUNNING, triggers := 0 }).after
          ([.set_status RUNNING, .sync] ++ (if hwstart ≠ 0 then [.timer_put 0] else []))) ∨
    (∃ o, background env fuel hwstart g =
      { outcome := o, g := { g with status := RUNNING }, trace := [.set_status RUNNING] }) := by
  cases h : scan g.instructions (stepOf g.INS_SIZE g.channels) fuel with
  | found n rep => exact Or.inl ⟨n, rep, rfl, background_found env fuel hwstart g n rep h⟩
  | outOfBounds k =>
    right
    refine ⟨.outOfBounds k, ?_⟩
    unfold background
    simp only [h]
  | intOverflow =>
    right
    refine ⟨.intOverflow, ?_⟩
    unfold background
    simp only [h]
  | outOfFuel =>
    right
    refine ⟨.outOfFuel, ?_⟩
    unfold background
    simp only [h]

theorem background_frame (env : Env) (fuel hwstart : Nat) (g : Globals) :
    (background env fuel hwstart g).g.INS_SIZE = g.INS_SIZE ∧
    (background env fuel hwstart g).g.channels = g.channels ∧
    (background env fuel hwstart g).g.instructions = g.instructions := by
  rcases background_cases env fuel hwstart g with ⟨n, rep, _, e⟩ | ⟨o, e⟩
  · rw [e]
    obtain ⟨h1, h2, _, h4, _⟩ := runLoop_frame env (stepOf g.INS_SIZE g.channels) n rep fuel
      0 0 0 { g with status := RUNNING, triggers := 0 }
    exact ⟨h1, h2, h4⟩
  · rw [e]
    exact ⟨rfl, rfl, rfl⟩

/-- The stores of one pass of `background()` to `status` when nothing outside it stores to
the cell: `RUNNING` over the value found, then, if the run loop is left, `STOPPED` over
`RUNNING`. -/
theorem background_statusWrites (env : Env) (fuel hwstart : Nat) (g : Globals)
    (hctl : ∀ j, env.ctl j = none) :
    (statusWrites g.status (background env fuel hwstart g).trace = [(g.status, RUNNING)] ∧
      (background env fuel hwstart g).g.status = RUNNING) ∨
    (statusWrites g.status (background env fuel hwstart g).trace =
        [(g.status, RUNNING), (RUNNING, STOPPED)] ∧
      (background env fuel hwstart g).g.status = STOPPED) := by
  rcases background_cases env fuel hwstart g with ⟨n, rep, _, e⟩ | ⟨o, e⟩
  · rw [e]
    have hsw := runLoop_statusWrites env (stepOf g.INS_SIZE g.channels) n rep fuel 0 0 0
      { g with status := RUNNING, triggers := 0 } RUNNING
    have hq := runLoop_status_quiet env (stepOf g.INS_SIZE g.channels) n rep hctl fuel 0 0 0
      { g with status := RUNNING, triggers := 0 }
    have hpre : ∀ es, statusWrites g.status
        (([Event.set_status RUNNING, Event.sync] ++
          (if hwstart ≠ 0 then [Event.timer_put 0] else [])) ++ es) =
        (g.status, RUNNING) :: statusWrites RUNNING es := by
      intro es
      split_ifs <;> rfl
    simp only [RunResult.after, hpre]
    rcases hsw with ⟨h1, h2⟩ | ⟨h1, _, h3⟩
    · left; exact ⟨by rw [h1], hq h2⟩
    · right; exact ⟨by rw [h1], h3⟩
  · rw [e]
    left; exact ⟨rfl, rfl⟩

/-- C13, counterexample.  On the table `tableAB`, which does not repeat, with no abort: the
engine stores `RUNNING` over `STOPPED` and then, at the end of the table, `STOPPED` over
`RUNNING`, a change that is none of the three transitions of the claim. -/
theorem status_transitions_counterexample :
    statusWrites STOPPED (background envQuiet 3 0 (bootGlobals tableAB)).trace =
      [(STOPPED, RUNNING), (RUNNING, STOPPED)] ∧
    (RUNNING, STOPPED) ≠ (STOPPED, RUNNING) ∧ (RUNNING, STOPPED) ≠ (RUNNING, ABORTING) ∧
    (RUNNING, STOPPED) ≠ (ABORTING, STOPPED) := by
  decide

/-- Among the calls of a pass whose scan finds a terminator, the calls of the start of a run
are those made before the run loop, once each. -/
theorem start_sequence_aux (env : Env) (fuel hwstart : Nat) (g : Globals) (n : Nat)
    (rep : Bool)
    (hscan : scan g.instructions (stepOf g.INS_SIZE g.channels) fuel = .found n rep) :
    (background env fuel hwstart g).trace.filter isStartEvent =
      [.set_status RUNNING, .sync] ++ (if hwstart ≠ 0 then [.timer_put 0] else []) := by
  rw [background_found env fuel hwstart g n rep hscan]
  simp only [RunResult.after, List.filter_append, runLoop_no_start, List.append_nil]
  split_ifs <;> rfl

/-! ## Runs on a repeating table and the TimingDMA transfer -/

theorem trigPuts_append (a b : List Event) : trigPuts (a ++ b) = trigPuts a ++ trigPuts b := by
  induction a with
  | nil => rfl
  | cons e es ih => cases e <;> simp [trigPuts, ih]

theorem trigPuts_recordEvents (t : Table) (step : Nat) (tm : Bool) (n i : Nat) :
    trigPuts (recordEvents t step tm n i) = [(t (i * step)).val] := by
  unfold recordEvents
  split_ifs <;> rfl

/-- Instruction number `k0 + k` of a repeating run is record `(k0 + k) % n`. -/
theorem trigPuts_repeatTrace (t : Table) (step : Nat) (tm : Bool) (n : Nat) :
    ∀ f k0 k, k < f →
      (trigPuts (repeatTrace t step tm n f k0)).get? k =
        some (t (((k0 + k) % n) * step)).val := by
  intro f
  induction f with
  | zero => intro k0 k hk; omega
  | succ f ih =>
    intro k0 k hk
    rw [repeatTrace, trigPuts_append, trigPuts_recordEvents]
    cases k with
    | zero => simp
    | succ k =>
      have e : k0 + (k + 1) = (k0 + 1) + k := by omega
      rw [e]
      simpa using ih (k0 + 1) k (by omega)

theorem succ_mod_wrap (n k : Nat) (hn : 0 < n) :
    (if k % n + 1 = n then 0 else k % n + 1) = (k + 1) % n := by
  have h1 : k % n < n := Nat.mod_lt k hn
  have hk := Nat.div_add_mod k n
  have key : ∀ r m : Nat, r < n → m + r = k →
      ((r + 1 = n → k + 1 = m + n) ∧ (¬ r + 1 = n → k + 1 = m + (r + 1) ∧ r + 1 < n)) := by
    intro r m hr hm
    constructor
    · intro h; omega
    · intro h; omega
  obtain ⟨ka, kb⟩ := key (k % n) (n * (k / n)) h1 hk
  split_ifs with h
  · have e : k + 1 = n * (k / n + 1) := by rw [Nat.mul_add, Nat.mul_one]; exact ka h
    rw [e, Nat.mul_mod_right]
  · obtain ⟨e, hlt⟩ := kb h
    rw [e, Nat.mul_add_mod, Nat.mod_eq_of_lt hlt]

/-- A run on a table that repeats, with no store to `status` from outside and every advance
event arriving: iteration after iteration the loop issues instruction `k`, which is record
`k % n`, and does nothing else. -/
theorem runLoop_repeat_trace (env : Env) (step n : Nat) (t : Table) (tm : Bool)
    (hstep : 0 < step) (hlt : step < UINT_MOD) (hn : 0 < n) (hbound : n * step < MAX_SIZE)
    (hctl : ∀ j, env.ctl j = none) (hadv : ∀ j, env.advance j = true) :
    ∀ fuel j i k (g : Globals), i ≤ n → (if i = n then 0 else i) = k % n →
      g.status ≠ ABORTING → g.instructions = t → g.timing = tm →
      (runLoop env step n true fuel j i (i * step) g).trace =
        repeatTrace t step tm n fuel k := by
  have hU : UINT_MOD = 4294967296 := rfl
  have hM : MAX_SIZE = 249856 := rfl
  have hI : INT_MAX = 2147483647 := rfl
  have hnn : n ≤ n * step := Nat.le_mul_of_pos_right n hstep
  have hsl := spiLen_eq step hstep hlt
  intro fuel
  induction fuel with
  | zero => intro j i k g _ _ _ _ _; rfl
  | succ fuel ih =>
    intro j i k g hi hik hst ht htm
    have hkn : k % n < n := Nat.mod_lt k hn
    have hi1 : (if i = n then 0 else i) < n := by rw [hik]; exact hkn
    have hoff : (if i = n then 0 else i * step) = (k % n) * step := by
      rw [← hik]; split_ifs <;> simp
    have k1 : (k % n + 1) * step ≤ n * step := Nat.mul_le_mul_right step (by omega)
    have k2 : (k % n + 1) * step = (k % n) * step + step := by rw [Nat.add_mul, Nat.one_mul]
    have hmod : (step * ((if i = n then 0 else i) + 1)) % UINT_MOD = (k % n + 1) * step := by
      rw [hik, Nat.mul_comm]
      apply Nat.mod_eq_of_lt
      omega
    rw [runLoop_issue env step n true fuel j i (i * step) g
      (by rw [hctl j]; exact hst) (by simp)
      (by rw [hoff]; omega) (by rw [hoff, hsl]; right; omega)
      (hadv j) (by omega)]
    rw [hmod, hoff, hik]
    have hnext := ih (j + 1) (k % n + 1) (k + 1)
      { g with status := (env.ctl j).getD g.status,
               triggers := (g.triggers + 1) % UINT_MOD }
      (by omega) (succ_mod_wrap n k hn) (by rw [hctl j]; exact hst) ht htm
    simp only [RunResult.after, hnext]
    simp only [repeatTrace, recordEvents, ht, htm, hsl, List.append_assoc]

/-- One iteration of the run loop that issues an instruction and then finds no advance
event: the engine stays parked in `wait()`. -/
theorem runLoop_blocked (env : Env) (step n : Nat) (rep : Bool) (fuel j i offset : Nat)
    (g : Globals) (hst : (env.ctl j).getD g.status ≠ ABORTING)
    (hend : ¬ (i = n ∧ rep = false))
    (hoff : (if i = n then 0 else offset) < MAX_SIZE)
    (hspi : spiLen step = 0 ∨ (if i = n then 0 else offset) + spiLen step < MAX_SIZE)
    (hadv : ¬ env.advance j = true) :
    runLoop env step n rep (fuel + 1) j i offset g =
      { outcome := .blocked
        g := { g with status := (env.ctl j).getD g.status }
        trace := [.trig_put (g.instructions (if i = n then 0 else offset)).val,
          .spi_write ((if i = n then 0 else offset) + 1)
            (bytesFrom g.instructions ((if i = n then 0 else offset) + 1) (spiLen step))] ++
          (if (if i = n then 0 else i) = 0 ∧ g.timing = true
            then [.dma_start TIMING_OFFSET n] else []) } := by
  simp only [runLoop]
  rw [if_neg hst, if_neg hend, if_pos hoff, if_pos hspi, if_neg hadv]

theorem dmaStarts_append (a b : List Event) :
    dmaStarts (a ++ b) = dmaStarts a ++ dmaStarts b := by
  induction a with
  | nil => rfl
  | cons e es ih => cases e <;> simp [dmaStarts, ih]

/-- C17, as amended.  Whether the TimingDMA transfer is started depends on the global
`timing`, not on the flag of the start message.  With `timing` false no transfer is started,
whatever `hwstart` is.  With `timing` true, on a table of `n >= 1` records, the engine starts
the transfer right after the transport write of instruction index 0, and every transfer it
starts has the source offset `TIMING_OFFSET` and the count `n` of the scan. -/
theorem timing_dma (env : Env) (fuel hwstart : Nat) (g : Globals) (n : Nat)
    (hstep : 0 < stepOf g.INS_SIZE g.channels)
    (hterm : Terminated g.instructions (stepOf g.INS_SIZE g.channels) n) (hn : 0 < n)
    (hctl : env.ctl 0 = none) (hfuel : n < fuel) :
    (g.timing = false → dmaStarts (background env fuel hwstart g).trace = []) ∧
    (∀ w, w ∈ dmaStarts (background env fuel hwstart g).trace → w = (TIMING_OFFSET, n)) ∧
    (g.timing = true → ∃ rest, (background env fuel hwstart g).trace =
      [.set_status RUNNING, .sync] ++ (if hwstart ≠ 0 then [.timer_put 0] else []) ++
        [.trig_put (g.instructions 0).val,
         .spi_write 1 (bytesFrom g.instructions 1 (stepOf g.INS_SIZE g.channels - 1)),
         .dma_start TIMING_OFFSET n] ++ rest) := by
  have hlt : stepOf g.INS_SIZE g.channels < UINT_MOD := Nat.mod_lt _ (by decide)
  have hscan := scan_terminated g.instructions _ n hstep hterm fuel hfuel
  have hb := background_found env fuel hwstart g n _ hscan
  have hdma := runLoop_dmaStarts env (stepOf g.INS_SIZE g.channels) n
    (decide (g.instructions (n * stepOf g.INS_SIZE g.channels + 1) ≠ 0)) fuel 0 0 0
    { g with status := RUNNING, triggers := 0 }
  have hpre : dmaStarts ([Event.set_status RUNNING, Event.sync] ++
      (if hwstart ≠ 0 then [Event.timer_put 0] else [])) = [] := by
    split_ifs <;> rfl
  have hd : dmaStarts (background env fuel hwstart g).trace =
      dmaStarts (runLoop env (stepOf g.INS_SIZE g.channels) n
        (decide (g.instructions (n * stepOf g.INS_SIZE g.channels + 1) ≠ 0)) fuel 0 0 0
        { g with status := RUNNING, triggers := 0 }).trace := by
    rw [hb]
    simp only [RunResult.after, dmaStarts_append, hpre, List.nil_append]
  refine ⟨?_, ?_, ?_⟩
  · intro hf
    rw [hd]
    exact hdma.2 hf
  · intro w hw
    rw [hd] at hw
    exact hdma.1 w hw
  · intro ht
    obtain ⟨f, rfl⟩ : ∃ f, fuel = f + 1 := ⟨fuel - 1, by omega⟩
    have hM : MAX_SIZE = 249856 := rfl
    have hnn : stepOf g.INS_SIZE g.channels ≤ n * stepOf g.INS_SIZE g.channels :=
      Nat.le_mul_of_pos_left _ hn
    have hbound := hterm.2.2
    have hsl := spiLen_eq _ hstep hlt
    have hn0 : ¬ (0 = n) := by omega
    have c1 : (env.ctl 0).getD ({ g with status := RUNNING, triggers := 0 } : Globals).status
        ≠ ABORTING := by rw [hctl]; exact (show RUNNING ≠ ABORTING by decide)
    have c2 : ¬ (0 = n ∧ (decide (g.instructions (n * stepOf g.INS_SIZE g.channels + 1) ≠ 0))
        = false) := fun h => hn0 h.1
    have c3 : (if 0 = n then 0 else 0) < MAX_SIZE := by rw [if_neg hn0]; decide
    have c4 : spiLen (stepOf g.INS_SIZE g.channels) = 0 ∨
        (if 0 = n then 0 else 0) + spiLen (stepOf g.INS_SIZE g.channels) < MAX_SIZE := by
      rw [if_neg hn0, hsl]; right; omega
    rw [hb]
    by_cases hadv : env.advance 0 = true
    · rw [runLoop_issue env _ n _ f 0 0 0 _ c1 c2 c3 c4 hadv (by rw [if_neg hn0]; decide)]
      simp only [RunResult.after, if_neg hn0, hsl, ht, and_self, if_true, List.append_assoc]
      exact ⟨_, rfl⟩
    · rw [runLoop_blocked env _ n _ f 0 0 0 _ c1 c2 c3 c4 hadv]
      simp only [RunResult.after, if_neg hn0, hsl, ht, and_self, if_true, List.append_assoc]
      exact ⟨[], by simp⟩

theorem timing_dma_witness :
    dmaStarts (background envQuiet 3 1 (bootGlobals tableAB)).trace = [] ∧
    (∃ rest, (background envQuiet 3 1 { bootGlobals tableAB with timing := true }).trace =
      [.set_status RUNNING, .sync] ++ (if 1 ≠ 0 then [.timer_put 0] else []) ++
        [.trig_put (({ bootGlobals tableAB with timing := true } : Globals).instructions 0).val,
         .spi_write 1 (bytesFrom
           ({ bootGlobals tableAB with timing := true } : Globals).instructions 1
           (stepOf ({ bootGlobals tableAB with timing := true } : Globals).INS_SIZE
             ({ bootGlobals tableAB with timing := true } : Globals).channels - 1)),
         .dma_start TIMING_OFFSET 2] ++ rest) :=
  ⟨(timing_dma envQuiet 3 1 (bootGlobals tableAB) 2 (by decide) tableAB_terminated (by decide)
      rfl (by decide)).1 rfl,
   (timing_dma envQuiet 3 1 { bootGlobals tableAB with timing := true } 2 (by decide)
      tableAB_terminated (by decide) rfl (by decide)).2.2 rfl⟩

/-- C17, counterexample.  A run on `tableAB` started with the hardware-pacing flag set
(`hwstart = 1`), in the globals as `main()` leaves them (`timing` is false): the Timer
sequencer gets its word 0, both records are issued, and no TimingDMA transfer is started. -/
theorem timing_dma_counterexample :
    (background envQuiet 3 1 (bootGlobals tableAB)).trace.filter isStartEvent =
      [.set_status RUNNING, .sync, .timer_put 0] ∧
    countTrigPut (background envQuiet 3 1 (bootGlobals tableAB)).trace = 2 ∧
    dmaStarts (background envQuiet 3 1 (bootGlobals tableAB)).trace = [] := by
  decide

/-! ## The clean-up after the run loop -/

/-- The calls of the run loop are calls of its iterations, followed, when the loop has been
left, by the calls of the clean-up in their order; no call of the clean-up and no store to
`status` occurs before that. -/
theorem runLoop_shape (env : Env) (step n : Nat) (rep : Bool) :
    ∀ fuel j i offset (g : Globals),
      ((runLoop env step n rep fuel j i offset g).outcome = .drained ∧
        (runLoop env step n rep fuel j i offset g).g.status = STOPPED ∧
        ∃ body, (runLoop env step n rep fuel j i offset g).trace = body ++ cleanupEvents ∧
          body.filter isCleanupEvent = []) ∨
      ((runLoop env step n rep fuel j i offset g).outcome ≠ .drained ∧
        (runLoop env step n rep fuel j i offset g).trace.filter isCleanupEvent = []) := by
  intro fuel
  induction fuel with
  | zero => intro j i offset g; right; simp [runLoop]
  | succ fuel ih =>
    intro j i offset g
    by_cases hst : (env.ctl j).getD g.status = ABORTING
    · left
      rw [runLoop_aborting env step n rep fuel j i offset g hst]
      exact ⟨rfl, rfl, [], rfl, rfl⟩
    by_cases hend : i = n ∧ rep = false
    · left
      simp only [runLoop]
      rw [if_neg hst, if_pos hend]
      exact ⟨rfl, rfl, [], rfl, rfl⟩
    by_cases hoff : (if i = n then 0 else offset) < MAX_SIZE
    swap
    · right
      simp only [runLoop]
      rw [if_neg hst, if_neg hend, if_neg hoff]
      exact ⟨by simp, rfl⟩
    by_cases hspi : spiLen step = 0 ∨ (if i = n then 0 else offset) + spiLen step < MAX_SIZE
    swap
    · right
      simp only [runLoop]
      rw [if_neg hst, if_neg hend, if_pos hoff, if_neg hspi]
      exact ⟨by simp, rfl⟩
    by_cases hadv : env.advance j = true
    swap
    · right
      rw [runLoop_blocked env step n rep fuel j i offset g hst hend hoff hspi hadv]
      refine ⟨by simp, ?_⟩
      simp only []
      split_ifs <;> rfl
    by_cases hint : (if i = n then 0 else i) < INT_MAX
    swap
    · right
      simp only [runLoop]
      rw [if_neg hst, if_neg hend, if_pos hoff, if_pos hspi, if_pos hadv, if_neg hint]
      refine ⟨by simp, ?_⟩
      simp only []
      split_ifs <;> rfl
    rw [runLoop_issue env step n rep fuel j i offset g hst hend hoff hspi hadv hint]
    have hiss : ∀ es : List Event,
        (([Event.trig_put (g.instructions (if i = n then 0 else offset)).val,
          Event.spi_write ((if i = n then 0 else offset) + 1)
            (bytesFrom g.instructions ((if i = n then 0 else offset) + 1) (spiLen step))] ++
          (if (if i = n then 0 else i) = 0 ∧ g.timing = true
            then [Event.dma_start TIMING_OFFSET n] else []) ++ [Event.wait_ack]) ++ es).filter
          isCleanupEvent = es.filter isCleanupEvent := by
      intro es
      rw [List.filter_append]
      have : ([Event.trig_put (g.instructions (if i = n then 0 else offset)).val,
          Event.spi_write ((if i = n then 0 else offset) + 1)
            (bytesFrom g.instructions ((if i = n then 0 else offset) + 1) (spiLen step))] ++
          (if (if i = n then 0 else i) = 0 ∧ g.timing = true
            then [Event.dma_start TIMING_OFFSET n] else []) ++ [Event.wait_ack]).filter
          isCleanupEvent = [] := by
        split_ifs <;> rfl
      rw [this, List.nil_append]
    rcases ih (j + 1) ((if i = n then 0 else i) + 1)
        ((step * ((if i = n then 0 else i) + 1)) % UINT_MOD)
        { g with status := (env.ctl j).getD g.status,
                 triggers := (g.triggers + 1) % UINT_MOD } with
      ⟨h1, h2, body, h3, h4⟩ | ⟨h1, h2⟩
    · left
      refine ⟨h1, h2, ?_⟩
      simp only [RunResult.after, h3]
      refine ⟨_, (List.append_assoc _ _ _).symm, ?_⟩
      rw [hiss, h4]
    · right
      refine ⟨h1, ?_⟩
      simp only [RunResult.after]
      rw [hiss, h2]

/-- C21.  The run loop is left in two ways, by reading `ABORTING` at the boundary check or by
reaching the end of a table that does not repeat, and both go through the same clean-up:
`dma_channel_abort`, `pio_sm_clear_fifos` of the Trigger sequencer, `pio_sm_clear_fifos` of
the Timer sequencer, then `set_status(STOPPED)`.  In every run these four calls are the last
ones, in this order, when the loop has been left, and no clean-up call and no store to
`status` occurs in the loop before them or while the loop is still running. -/
theorem drain_sequence (env : Env) (step n : Nat) (rep : Bool) (fuel j i offset : Nat)
    (g : Globals) :
    ((env.ctl j).getD g.status = ABORTING →
      runLoop env step n rep (fuel + 1) j i offset g =
        { outcome := .drained
          g := { g with status := STOPPED }
          trace := [.dma_abort, .clear_fifos_trig, .clear_fifos_time, .set_status STOPPED] }) ∧
    ((env.ctl j).getD g.status ≠ ABORTING → i = n → rep = false →
      runLoop env step n rep (fuel + 1) j i offset g =
        { outcome := .drained
          g := { g with status := STOPPED }
          trace := [.dma_abort, .clear_fifos_trig, .clear_fifos_time, .set_status STOPPED] }) ∧
    (((runLoop env step n rep fuel j i offset g).outcome = .drained ∧
        (runLoop env step n rep fuel j i offset g).g.status = STOPPED ∧
        ∃ body, (runLoop env step n rep fuel j i offset g).trace =
            body ++ [.dma_abort, .clear_fifos_trig, .clear_fifos_time, .set_status STOPPED] ∧
          body.filter isCleanupEvent = []) ∨
      ((runLoop env step n rep fuel j i offset g).outcome ≠ .drained ∧
        (runLoop env step n rep fuel j i offset g).trace.filter isCleanupEvent = [])) := by
  refine ⟨?_, ?_, runLoop_shape env step n rep fuel j i offset g⟩
  · intro hst
    rw [runLoop_aborting env step n rep fuel j i offset g hst]
    rfl
  · intro hst hi hr
    simp only [runLoop]
    rw [if_neg hst, if_pos ⟨hi, hr⟩]
    rfl

theorem drain_sequence_witness :
    runLoop envAbortAt1 15 1 true (4 + 1) 1 1 15
        { bootGlobals tableRepeat with status := RUNNING } =
      { outcome := .drained
        g := { ({ bootGlobals tableRepeat with status := RUNNING } : Globals) with
          status := STOPPED }
        trace := [.dma_abort, .clear_fifos_trig, .clear_fifos_time, .set_status STOPPED] } ∧
    runLoop envQuiet 15 2 false (0 + 1) 2 2 30
        { bootGlobals tableAB with status := RUNNING } =
      { outcome := .drained
        g := { ({ bootGlobals tableAB with status := RUNNING } : Globals) with
          status := STOPPED }
        trace := [.dma_abort, .clear_fifos_trig, .clear_fifos_time, .set_status STOPPED] } :=
  ⟨(drain_sequence envAbortAt1 15 1 true 4 1 1 15
      { bootGlobals tableRepeat with status := RUNNING }).1 (by decide),
   (drain_sequence envQuiet 15 2 false 0 2 2 30
      { bootGlobals tableAB with status := RUNNING }).2.1 (by decide) rfl rfl⟩

/-! ## The bytes of a transport write -/

theorem bytesFrom_length (t : Table) (src len : Nat) : (bytesFrom t src len).length = len := by
  simp [bytesFrom]

theorem bytesFrom_get (t : Table) (src len k : Nat) (hk : k < len) :
    (bytesFrom t src len).get? k = some (t (src + k)) := by
  simp [bytesFrom, List.getElem?_map, List.getElem?_range hk]

/-! ## The scan reads control bytes only -/

/-- C23.  The scan looks at the first byte of each record only.  For every table and stride
`step >= 1`: if `i` is the least record number with `instructions[i * step] = 0` and
`i * step + 1 < MAX_SIZE`, the scan ends and returns the count `i`, with the repeat flag set
iff `instructions[i * step + 1]`, the second byte of that same record, is nonzero; a table
that has the same control bytes up to record `i` and the same byte `i * step + 1` gives the
same result, whatever its payload bytes. -/
theorem scan_least (t : Table) (step i fuel : Nat) (hstep : 0 < step)
    (hz : t (i * step) = 0) (hb : i * step + 1 < MAX_SIZE)
    (hleast : ∀ k, t (k * step) = 0 → k * step + 1 < MAX_SIZE → i ≤ k) (hfuel : i < fuel) :
    scan t step fuel = .found i (decide (t (i * step + 1) ≠ 0)) ∧
    (∀ t' : Table, (∀ k, k ≤ i → t' (k * step) = t (k * step)) →
      t' (i * step + 1) = t (i * step + 1) → scan t' step fuel = scan t step fuel) := by
  have hrec : ∀ k, k < i → t (k * step) ≠ 0 := by
    intro k hk h0
    have hle : k * step ≤ i * step := Nat.mul_le_mul_right step (le_of_lt hk)
    have := hleast k h0 (by omega)
    omega
  have h1 := scan_terminated t step i hstep ⟨hrec, hz, hb⟩ fuel hfuel
  refine ⟨h1, ?_⟩
  intro t' hsame hflag
  have h2 := scan_terminated t' step i hstep
    ⟨fun k hk => by rw [hsame k (le_of_lt hk)]; exact hrec k hk,
     by rw [hsame i (le_refl _)]; exact hz, hb⟩ fuel hfuel
  rw [h1, h2, hflag]

theorem scan_least_witness :
    scan tableAB 15 3 = .found 2 (decide (tableAB (2 * 15 + 1) ≠ 0)) ∧
    (∀ t' : Table, (∀ k, k ≤ 2 → t' (k * 15) = tableAB (k * 15)) →
      t' (2 * 15 + 1) = tableAB (2 * 15 + 1) → scan t' 15 3 = scan tableAB 15 3) :=
  scan_least tableAB 15 2 3 (by decide) (by decide) (by decide)
    (by
      intro k hk _
      rcases Nat.lt_or_ge k 2 with h | h
      · have : k = 0 ∨ k = 1 := by omega
        rcases this with h0 | h0 <;> subst h0 <;> exact absurd hk (by decide)
      · exact h)
    (by decide)

/-! ## An empty table with the repeat flag set -/

/-- C24, the code at the failing input.  On `tableEmptyRepeat` the scan succeeds with the
count 0 and the repeat flag set; the run loop then issues record 0, which is the terminator
record itself, and goes on with the records 1 and 2 behind it (transport writes from the
offsets 1, 16 and 31): record indices that are not below the count 0. -/
theorem empty_repeat_run :
    scan tableEmptyRepeat (stepOf 14 1) 3 = .found 0 true ∧
    trigPuts (background envQuiet 3 0 (bootGlobals tableEmptyRepeat)).trace = [0, 0, 0] ∧
    spiSources (background envQuiet 3 0 (bootGlobals tableEmptyRepeat)).trace = [1, 16, 31] ∧
    countWaitAck (background envQuiet 3 0 (bootGlobals tableEmptyRepeat)).trace = 3 := by
  decide

/-! ## Acknowledgement words of the trigger program -/

theorem trigIdle_cycle (pin : Bool) (s : Sm) (h : TrigIdle s) :
    TrigIdle (Sm.cycle trigger_program pin s) ∧ (Sm.cycle trigger_program pin s).rx = s.rx := by
  obtain ⟨pc, x, y, osr, isr, tx, rx, side, pins, delay, fault⟩ := s
  obtain ⟨h1, h2, h3⟩ := h
  simp only at h1 h2 h3
  subst h1 h2 h3
  by_cases hd : 0 < delay
  · simp [TrigIdle, Sm.cycle, hd]
  · simp [TrigIdle, Sm.cycle, hd, trigger_program, trigger_program_instructions, exec,
      sidesetOf]

theorem trigIdle_run (pin : Nat → Bool) :
    ∀ n t (s : Sm), TrigIdle s →
      TrigIdle (Sm.run trigger_program pin n t s) ∧
      (Sm.run trigger_program pin n t s).rx = s.rx := by
  intro n
  induction n with
  | zero => intro t s h; exact ⟨h, rfl⟩
  | succ n ih =>
    intro t s h
    obtain ⟨h1, h2⟩ := trigIdle_cycle (pin t) s h
    obtain ⟨h3, h4⟩ := ih (t + 1) _ h1
    exact ⟨h3, h4.trans h2⟩

theorem trig_zero_cycles (pin : Nat → Bool) (t : Nat) (s : Sm) (rest : List Nat)
    (h : TrigReady s) (htx : s.tx = 0 :: rest) :
    (∀ m, m ≤ 11 → (Sm.run trigger_program pin m t s).rx = s.rx) ∧
    TrigReady (Sm.run trigger_program pin 11 t s) ∧
    (Sm.run trigger_program pin 11 t s).tx = rest := by
  obtain ⟨pc, x, y, osr, isr, tx, rx, side, pins, delay, fault⟩ := s
  obtain ⟨h1, h2, h3⟩ := h
  simp only at h1 h2 h3 htx
  subst h1 h2 h3 htx
  refine ⟨?_, ?_, ?_⟩
  · intro m hm
    interval_cases m <;>
      simp [Sm.run, Sm.cycle, trigger_program, trigger_program_instructions, exec, sidesetOf,
        delayOf, movSource, UINT_MOD]
  · simp [TrigReady, Sm.run, Sm.cycle, trigger_program, trigger_program_instructions, exec,
      sidesetOf, delayOf, movSource, UINT_MOD]
  · simp [Sm.run, Sm.cycle, trigger_program, trigger_program_instructions, exec, sidesetOf,
      delayOf, movSource, UINT_MOD]

theorem trig_nonzero_first (pin : Nat → Bool) (t : Nat) (s : Sm) (c : Nat) (rest : List Nat)
    (h : TrigReady s) (htx : s.tx = c :: rest) (hc : c ≠ 0) :
    (∀ m, m ≤ 3 → (Sm.run trigger_program pin m t s).rx = s.rx) ∧
    TrigWaiting (Sm.run trigger_program pin 3 t s) ∧
    (Sm.run trigger_program pin 3 t s).tx = rest ∧
    (Sm.run trigger_program pin 3 t s).isr = s.isr := by
  obtain ⟨pc, x, y, osr, isr, tx, rx, side, pins, delay, fault⟩ := s
  obtain ⟨h1, h2, h3⟩ := h
  simp only at h1 h2 h3 htx
  subst h1 h2 h3 htx
  refine ⟨?_, ?_, ?_, ?_⟩
  · intro m hm
    interval_cases m <;>
      simp [Sm.run, Sm.cycle, trigger_program, trigger_program_instructions, exec, sidesetOf,
        delayOf, movSource, hc]
  all_goals
    simp [TrigWaiting, Sm.run, Sm.cycle, trigger_program, trigger_program_instructions, exec,
      sidesetOf, delayOf, movSource, hc]

theorem trigWaiting_low (s : Sm) (h : TrigWaiting s) :
    Sm.cycle trigger_program false s = s := by
  obtain ⟨pc, x, y, osr, isr, tx, rx, side, pins, delay, fault⟩ := s
  obtain ⟨h1, h2, h3⟩ := h
  simp only at h1 h2 h3
  subst h1 h2 h3
  simp [Sm.cycle, trigger_program, trigger_program_instructions, exec, sidesetOf]

theorem trigWaiting_stall (pin : Nat → Bool) (s : Sm) (h : TrigWaiting s) :
    ∀ n t, (∀ k, k < n → pin (t + k) = false) → Sm.run trigger_program pin n t s = s := by
  intro n
  induction n with
  | zero => intro t _; rfl
  | succ n ih =>
    intro t hlow
    have h0 : pin t = false := by simpa using hlow 0 (by omega)
    rw [Sm.run, h0, trigWaiting_low s h]
    apply ih
    intro k hk
    have := hlow (k + 1) (by omega)
    rw [← this]
    congr 1
    omega

theorem trigWaiting_high (pin : Nat → Bool) (t : Nat) (s : Sm) (h : TrigWaiting s)
    (hpin : pin t = true) (hrx : s.rx.length < FIFO_DEPTH) :
    (∀ m, m ≤ 6 → (Sm.run trigger_program pin m t s).rx = s.rx) ∧
    (Sm.run trigger_program pin 7 t s).rx = s.rx ++ [s.isr] ∧
    TrigReady (Sm.run trigger_program pin 7 t s) ∧
    (Sm.run trigger_program pin 7 t s).tx = s.tx := by
  obtain ⟨pc, x, y, osr, isr, tx, rx, side, pins, delay, fault⟩ := s
  obtain ⟨h1, h2, h3⟩ := h
  simp only at h1 h2 h3 hrx
  subst h1 h2 h3
  refine ⟨?_, ?_, ?_, ?_⟩
  · intro m hm
    interval_cases m <;>
      simp [Sm.run, Sm.cycle, trigger_program, trigger_program_instructions, exec, sidesetOf,
        delayOf, hpin]
  all_goals
    simp [TrigReady, Sm.run, Sm.cycle, trigger_program, trigger_program_instructions, exec,
      sidesetOf, delayOf, hpin, hrx]

/-! ## The line buffer -/

theorem readlineFrom_line (rest : List Char) :
    ∀ (l : List Char) (i : Nat), (∀ c, c ∈ l → c ≠ Char.ofNat 10) → i + l.length ≤ INT_MAX →
      readlineFrom (l ++ Char.ofNat 10 :: rest) i =
        { stores := indexedFrom i l ++ [(i + l.length, Char.ofNat 0)], returned := true } := by
  intro l
  induction l with
  | nil => intro i _ _; simp [readlineFrom, indexedFrom]
  | cons c cs ih =>
    intro i hnl hlen
    have hc : c ≠ Char.ofNat 10 := hnl c (List.mem_cons_self _ _)
    have hi : i < INT_MAX := by simp only [List.length_cons] at hlen; omega
    have ih1 := ih (i + 1) (fun d hd => hnl d (List.mem_cons_of_mem _ hd))
      (by simp only [List.length_cons] at hlen; omega)
    have e : i + 1 + cs.length = i + (cs.length + 1) := by omega
    rw [List.cons_append]
    simp only [readlineFrom, if_neg hc, if_pos hi]
    rw [ih1]
    simp only [indexedFrom, List.length_cons, e, List.cons_append]

theorem mem_replicate_ne_newline (n : Nat) : ∀ c, c ∈ List.replicate n 'a' → c ≠ Char.ofNat 10 := by
  intro c hc
  rw [List.eq_of_mem_replicate hc]
  decide

/-- C25, the code at the failing input.  For a line of 256 characters `a` followed by the
newline, `readline()` returns after a store of the terminating NUL at index 256, which is not
an index of the 256-element `readstring`; 255 characters are the longest line whose stores
all stay below 256. -/
theorem readline_overrun :
    (readline (List.replicate 256 'a' ++ [Char.ofNat 10])).returned = true ∧
    (256, Char.ofNat 0) ∈ (readline (List.replicate 256 'a' ++ [Char.ofNat 10])).stores ∧
    ¬ 256 < READSTRING_SIZE ∧
    (readline (List.replicate 255 'a' ++ [Char.ofNat 10])).stores.getLast? =
      some (255, Char.ofNat 0) := by
  have h1 := readlineFrom_line [] (List.replicate 256 'a') 0 (mem_replicate_ne_newline 256)
    (by rw [List.length_replicate]; decide)
  have h2 := readlineFrom_line [] (List.replicate 255 'a') 0 (mem_replicate_ne_newline 255)
    (by rw [List.length_replicate]; decide)
  rw [List.length_replicate] at h1 h2
  refine ⟨?_, ?_, by decide, ?_⟩
  · rw [readline, h1]
  · rw [readline, h1]
    exact List.mem_append_right _ (List.mem_singleton.2 rfl)
  · rw [readline, h2]
    exact List.getLast?_concat _

/-! ## Dispatch by `strncmp` -/

theorem strncmpEq_prefix (b : List Char) :
    ∀ a : List Char, strncmpEq a b b.length = true ↔ b <+: a := by
  induction b with
  | nil => intro a; simp [strncmpEq]
  | cons c cs ih =>
    intro a
    cases a with
    | nil => simp [strncmpEq]
    | cons d ds =>
      simp only [List.length_cons, strncmpEq, Bool.and_eq_true, beq_iff_eq, ih ds,
        List.cons_prefix_cons]
      constructor
      · rintro ⟨h1, h2⟩; exact ⟨h1.symm, h2⟩
      · rintro ⟨h1, h2⟩; exact ⟨h1.symm, h2⟩

theorem strncmpEq_whole (b : List Char) :
    ∀ (a : List Char) (n : Nat), b.length < n → (strncmpEq a b n = true ↔ a = b) := by
  induction b with
  | nil =>
    intro a n hn
    obtain ⟨m, rfl⟩ : ∃ m, n = m + 1 := ⟨n - 1, by simp at hn; omega⟩
    cases a <;> simp [strncmpEq]
  | cons c cs ih =>
    intro a n hn
    obtain ⟨m, rfl⟩ : ∃ m, n = m + 1 := ⟨n - 1, by omega⟩
    cases a with
    | nil => simp [strncmpEq]
    | cons d ds =>
      simp only [List.length_cons] at hn
      simp only [strncmpEq, Bool.and_eq_true, beq_iff_eq, ih ds m (by omega), List.cons.injEq]

/-- C27, the code at the failing input.  The line `checkvabc` begins with the keyword
`checkv` and with no keyword tested before it, yet `loop()`, Stopped, runs no handler for it:
no reply and no state change, because the test is `strncmp(readstring, "checkv", 11)`, which
holds for the line `checkv` alone; the same for `sweepamp 1` and
`strncmp(readstring, "sweepamp", 11)`.  The lines `resetXYZ`, `statusfoo` and `loaded` do run
`reset`, `status` and `load`. -/
theorem checkv_prefix_ignored :
    cmd "checkvabc".toList "checkv" 6 = true ∧
    cmd "checkvabc".toList "checkv" 11 = false ∧
    (loop "checkvabc".toList (bootGlobals tableAB)).out = [] ∧
    (loop "checkvabc".toList (bootGlobals tableAB)).hw = [] ∧
    (loop "checkvabc".toList (bootGlobals tableAB)).g = bootGlobals tableAB ∧
    (loop "checkv".toList (bootGlobals tableAB)).hw = [.script "checkv"] ∧
    cmd "sweepamp 1".toList "sweepamp" 8 = true ∧
    (loop "sweepamp 1".toList (bootGlobals tableAB)).out = [] ∧
    (loop "sweepamp 1".toList (bootGlobals tableAB)).hw = [] ∧
    (loop "sweepamp".toList (bootGlobals tableAB)).hw = [.script "sweepamp"] ∧
    (loop "resetXYZ".toList (bootGlobals tableAB)).hw =
      (loop "reset".toList (bootGlobals tableAB)).hw ∧
    (loop "statusfoo".toList (bootGlobals tableAB)).out = [.line "0\n"] ∧
    (loop "loaded".toList (bootGlobals tableAB)).out = [.line "ok\n"] := by
  refine ⟨by decide, by decide, ?_, ?_, ?_, ?_, by decide, ?_, ?_, ?_, ?_, ?_, ?_⟩ <;> rfl

/-! ## Array indices of the spline -/

theorem splineSetup_first (n : Nat) (hn : 2 ≤ n) :
    rd .h (-1) ∈ splineSetup n ∧ rd .y (-1) ∈ splineSetup n := by
  obtain ⟨m, rfl⟩ : ∃ m, n = m + 2 := ⟨n - 2, by omega⟩
  have hmem : step1Body 0 ∈ (List.range (m + 2 - 1)).map (fun i : Nat => step1Body (i : Int)) :=
    List.mem_map.2 ⟨0, List.mem_range.2 (by omega), rfl⟩
  have h1 : ∀ a, a ∈ step1Body 0 → a ∈ splineSetup (m + 2) := by
    intro a ha
    unfold splineSetup
    simp only [List.append_assoc]
    exact List.mem_append_left _ (List.mem_flatten.2 ⟨_, hmem, ha⟩)
  exact ⟨h1 _ (by decide), h1 _ (by decide)⟩

theorem splineSetup_bounds (n : Nat) (h2 : 2 ≤ n) (h13 : n ≤ MAX_POINTS) :
    (splineSetup n).filter (fun a => !a.inBounds) = [rd .h (-1), rd .y (-1)] := by
  have : n ≤ 13 := h13
  interval_cases n <;> decide

theorem searchFrom_bounds (ge le : Nat → Bool) :
    ∀ k i, i + k < MAX_POINTS →
      (∀ a, a ∈ (searchFrom ge le k i).1 → a.inBounds = true) ∧
      (∀ j, (searchFrom ge le k i).2 = some j → j + 1 < MAX_POINTS) := by
  intro k
  induction k with
  | zero => intro i _; simp [searchFrom]
  | succ k ih =>
    intro i hi
    have hM : MAX_POINTS = 13 := rfl
    obtain ⟨ih1, ih2⟩ := ih (i + 1) (by omega)
    have hx0 : (rd .x (i : Int)).inBounds = true := by
      simp [rd, Access.inBounds, Arr.size, hM]; omega
    have hx1 : (rd .x ((i : Int) + 1)).inBounds = true := by
      simp [rd, Access.inBounds, Arr.size, hM]; omega
    simp only [searchFrom]
    split_ifs with hg hl
    · refine ⟨?_, ?_⟩
      · intro a ha
        simp only [List.mem_cons, List.mem_singleton, List.not_mem_nil, or_false] at ha
        rcases ha with ha | ha <;> subst ha <;> assumption
      · intro j hj
        simp only [Option.some.injEq] at hj
        omega
    · refine ⟨?_, ih2⟩
      intro a ha
      simp only [List.mem_cons] at ha
      rcases ha with ha | ha | ha
      · subst ha; exact hx0
      · subst ha; exact hx1
      · exact ih1 a ha
    · refine ⟨?_, ih2⟩
      intro a ha
      simp only [List.mem_cons] at ha
      rcases ha with ha | ha
      · subst ha; exact hx0
      · exact ih1 a ha

theorem splineEval_bounds (n : Nat) (ge le : Nat → Bool) (h2 : 2 ≤ n) (h13 : n ≤ MAX_POINTS) :
    ∀ a, a ∈ splineEval n ge le → a.inBounds = true := by
  have hM : MAX_POINTS = 13 := rfl
  obtain ⟨s1, s2⟩ := searchFrom_bounds ge le (n - 1) 0 (by omega)
  intro a ha
  unfold splineEval at ha
  rcases List.mem_append.1 ha with ha | ha
  · exact s1 a ha
  · cases hs : (searchFrom ge le (n - 1) 0).2 with
    | none => rw [hs] at ha; simp at ha
    | some k =>
      rw [hs] at ha
      have hk := s2 k hs
      simp only [List.mem_cons, List.mem_singleton, List.not_mem_nil, or_false] at ha
      rcases ha with ha | ha | ha | ha | ha <;> subst ha <;>
        simp [rd, Access.inBounds, Arr.size, hM] <;> omega

theorem spline_bounds (n : Nat) (ge le : Nat → Bool) (h2 : 2 ≤ n) (h13 : n ≤ MAX_POINTS) :
    (cubicSplineAccesses n ge le).filter (fun a => !a.inBounds) =
      [rd .h (-1), rd .y (-1)] := by
  have he : (splineEval n ge le).filter (fun a => !a.inBounds) = [] := by
    rw [List.filter_eq_nil_iff]
    intro a ha
    simp [splineEval_bounds n ge le h2 h13 a ha]
  rw [cubicSplineAccesses, List.filter_append, splineSetup_bounds n h2 h13, he]
  rfl

/-- C28, the code at the failing input.  For `n = 2` (and for `n = 13`, with either outcome
of the search of step 4) the first iteration `i = 0` of the loop of step 1 reads `h[i - 1]`
and `y[i - 1]`, that is `h[-1]` and `y[-1]`: two reads before the start of their arrays.
They are the only accesses of the function outside the bounds. -/
theorem spline_reads_before_start :
    rd .h (-1) ∈ cubicSplineAccesses 2 (fun _ => true) (fun _ => true) ∧
    rd .y (-1) ∈ cubicSplineAccesses 2 (fun _ => true) (fun _ => true) ∧
    (rd .h (-1)).inBounds = false ∧ (rd .y (-1)).inBounds = false ∧
    (cubicSplineAccesses 2 (fun _ => true) (fun _ => true)).filter (fun a => !a.inBounds) =
      [rd .h (-1), rd .y (-1)] ∧
    (cubicSplineAccesses 13 (fun _ => true) (fun _ => true)).filter (fun a => !a.inBounds) =
      [rd .h (-1), rd .y (-1)] ∧
    (cubicSplineAccesses 13 (fun _ => false) (fun _ => false)).filter (fun a => !a.inBounds) =
      [rd .h (-1), rd .y (-1)] :=
  ⟨List.mem_append_left _ (splineSetup_first 2 (by decide)).1,
   List.mem_append_left _ (splineSetup_first 2 (by decide)).2,
   by decide, by decide,
   spline_bounds 2 _ _ (by decide) (by decide),
   spline_bounds 13 _ _ (by decide) (by decide),
   spline_bounds 13 _ _ (by decide) (by decide)⟩

/-! ## Record indices issued by the run loop -/

theorem spiSources_append (a b : List Event) :
    spiSources (a ++ b) = spiSources a ++ spiSources b := by
  induction a with
  | nil => rfl
  | cons e es ih => cases e <;> simp [spiSources, ih]

/-- With a count `n` of at least 1 the run loop issues records below `n` only: every
transport write starts at byte 1 of a record `k < n`. -/
theorem runLoop_sources_below (env : Env) (step n : Nat) (rep : Bool) (hn : 1 ≤ n)
    (hb : n * step < UINT_MOD) :
    ∀ fuel j i (g : Globals), i ≤ n →
      ∀ src, src ∈ spiSources (runLoop env step n rep fuel j i (i * step) g).trace →
        ∃ k, k < n ∧ src = k * step + 1 := by
  intro fuel
  induction fuel with
  | zero => intro j i g _ src h; simp [runLoop, spiSources] at h
  | succ fuel ih =>
    intro j i g hi src hsrc
    have hi1 : (if i = n then 0 else i) < n := by split_ifs <;> omega
    have ho1 : (if i = n then 0 else i * step) = (if i = n then 0 else i) * step := by
      split_ifs <;> simp
    by_cases hst : (env.ctl j).getD g.status = ABORTING
    · rw [runLoop_aborting env step n rep fuel j i _ g hst] at hsrc
      simp [cleanup, spiSources] at hsrc
    by_cases hend : i = n ∧ rep = false
    · simp only [runLoop] at hsrc
      rw [if_neg hst, if_pos hend] at hsrc
      simp [cleanup, spiSources] at hsrc
    by_cases hoff : (if i = n then 0 else i * step) < MAX_SIZE
    swap
    · simp only [runLoop] at hsrc
      rw [if_neg hst, if_neg hend, if_neg hoff] at hsrc
      simp [spiSources] at hsrc
    by_cases hspi : spiLen step = 0 ∨ (if i = n then 0 else i * step) + spiLen step < MAX_SIZE
    swap
    · simp only [runLoop] at hsrc
      rw [if_neg hst, if_neg hend, if_pos hoff, if_neg hspi] at hsrc
      simp [spiSources] at hsrc
    have hiss : ∀ (w : Nat) (bs : List Byte) (c : Prop) [Decidable c] (tail : List Event),
        spiSources ([Event.trig_put w,
          Event.spi_write ((if i = n then 0 else i * step) + 1) bs] ++
          (if c then [Event.dma_start TIMING_OFFSET n] else []) ++ tail) =
        ((if i = n then 0 else i * step) + 1) :: spiSources tail := by
      intro w bs c _ tail
      rw [spiSources_append]
      split_ifs <;> rfl
    by_cases hadv : env.advance j = true
    swap
    · rw [runLoop_blocked env step n rep fuel j i _ g hst hend hoff hspi hadv] at hsrc
      have := hiss (g.instructions (if i = n then 0 else i * step)).val
        (bytesFrom g.instructions ((if i = n then 0 else i * step) + 1) (spiLen step))
        ((if i = n then 0 else i) = 0 ∧ g.timing = true) []
      rw [List.append_nil] at this
      simp only [] at hsrc
      rw [this] at hsrc
      simp only [spiSources, List.mem_singleton] at hsrc
      exact ⟨_, hi1, by rw [hsrc, ho1]⟩
    by_cases hint : (if i = n then 0 else i) < INT_MAX
    swap
    · simp only [runLoop] at hsrc
      rw [if_neg hst, if_neg hend, if_pos hoff, if_pos hspi, if_pos hadv, if_neg hint] at hsrc
      simp only [] at hsrc
      rw [hiss] at hsrc
      simp only [spiSources, List.mem_singleton] at hsrc
      exact ⟨_, hi1, by rw [hsrc, ho1]⟩
    rw [runLoop_issue env step n rep fuel j i _ g hst hend hoff hspi hadv hint] at hsrc
    simp only [RunResult.after] at hsrc
    rw [spiSources_append, hiss] at hsrc
    simp only [spiSources, List.mem_append, List.mem_singleton] at hsrc
    rcases hsrc with hsrc | hsrc
    · exact ⟨_, hi1, by rw [hsrc, ho1]⟩
    · have hle : ((if i = n then 0 else i) + 1) * step ≤ n * step :=
        Nat.mul_le_mul_right step hi1
      have hmod : (step * ((if i = n then 0 else i) + 1)) % UINT_MOD =
          ((if i = n then 0 else i) + 1) * step := by
        rw [Nat.mul_comm]
        exact Nat.mod_eq_of_lt (by omega)
      rw [hmod] at hsrc
      exact ih _ _ _ hi1 src hsrc

/-! ## The scan on a well-formed table -/

theorem tableStride1_wellFormed : WellFormedSpec tableStride1 1 1 := by
  refine ⟨?_, ?_, by decide⟩
  · intro i hi
    have : i = 0 := by omega
    subst this
    decide
  · intro j h1 h2
    have : j = 1 := by omega
    subst this
    rfl

/-- C1, as amended.  For every table that is well formed in the words of the specification
(`n` records with nonzero control byte, an all-zero terminator record, a flag byte, all inside
the buffer) the scan returns the instruction count `n`, and its repeat flag is true iff the
byte at index `n * step + 1` is nonzero.  At stride 1 that is the byte that follows the
terminator record; at every stride of 2 or more it is the second byte of the terminator
record, which is zero, so the repeat flag is false. -/
theorem scan_wellFormed (t : Table) (step n fuel : Nat) (hstep : 0 < step)
    (h : WellFormedSpec t step n) (hfuel : n < fuel) :
    scan t step fuel = .found n (decide (t (n * step + 1) ≠ 0)) ∧
    (step = 1 → scan t step fuel = .found n (decide (t (n * step + step) ≠ 0))) ∧
    (2 ≤ step → scan t step fuel = .found n false) := by
  have hs := scan_terminated t step n hstep (wellFormedSpec_terminated t step n hstep h) fuel
    hfuel
  refine ⟨hs, ?_, ?_⟩
  · intro h1
    subst h1
    exact hs
  · intro h2
    rw [hs, h.2.1 (n * step + 1) (by omega) (by omega)]
    rfl

theorem scan_wellFormed_witness :
    (scan tableFlagAfter 15 2 = .found 1 (decide (tableFlagAfter (1 * 15 + 1) ≠ 0)) ∧
      (15 = 1 →
        scan tableFlagAfter 15 2 = .found 1 (decide (tableFlagAfter (1 * 15 + 15) ≠ 0))) ∧
      (2 ≤ 15 → scan tableFlagAfter 15 2 = .found 1 false)) ∧
    (scan tableStride1 1 2 = .found 1 (decide (tableStride1 (1 * 1 + 1) ≠ 0)) ∧
      (1 = 1 → scan tableStride1 1 2 = .found 1 (decide (tableStride1 (1 * 1 + 1) ≠ 0))) ∧
      (2 ≤ 1 → scan tableStride1 1 2 = .found 1 false)) :=
  ⟨scan_wellFormed tableFlagAfter 15 1 2 (by decide) tableFlagAfter_wellFormed (by decide),
   scan_wellFormed tableStride1 1 1 2 (by decide) tableStride1_wellFormed (by decide)⟩

/-! ## One iteration of the run loop -/

/-- C22.  Every iteration of the run loop that issues an instruction issues one record `k`:
the record `i` the loop stands at, or record 0 when it stands at the end (`i = num_ins`) of a
table that repeats and takes the branch `i = offset = 0`.  For a record inside the buffer
the engine first hands the single byte `instructions[k * step]` to the Trigger sequencer,
then writes to the transport exactly the `step - 1` bytes
`instructions[k * step + 1 .. k * step + step - 1]` (then, for `k = 0` with `timing` set,
starts the TimingDMA transfer), then blocks in `wait()`.  With one advance event the trigger
count goes up by one (modulo `2 ^ 32`) and the loop goes on at index `k + 1`, offset
`(k + 1) * step`; without one the engine stays parked and the count is unchanged. -/
theorem issue_instruction (env : Env) (step n : Nat) (rep : Bool) (fuel j i offset k : Nat)
    (g : Globals) (hst : (env.ctl j).getD g.status ≠ ABORTING)
    (hk : (i ≠ n ∧ k = i ∧ offset = i * step) ∨ (i = n ∧ rep = true ∧ k = 0))
    (hstep : 0 < step) (hfit : k * step + step ≤ MAX_SIZE) :
    (env.advance j = true →
      runLoop env step n rep (fuel + 1) j i offset g =
        (runLoop env step n rep fuel (j + 1) (k + 1) ((k + 1) * step)
          { g with status := (env.ctl j).getD g.status,
                   triggers := (g.triggers + 1) % UINT_MOD }).after
          ([.trig_put (g.instructions (k * step)).val,
            .spi_write (k * step + 1) (bytesFrom g.instructions (k * step + 1) (step - 1))] ++
            (if k = 0 ∧ g.timing = true then [.dma_start TIMING_OFFSET n] else []) ++
            [.wait_ack])) ∧
    (¬ env.advance j = true →
      runLoop env step n rep (fuel + 1) j i offset g =
        { outcome := .blocked
          g := { g with status := (env.ctl j).getD g.status }
          trace := [.trig_put (g.instructions (k * step)).val,
            .spi_write (k * step + 1) (bytesFrom g.instructions (k * step + 1) (step - 1))] ++
            (if k = 0 ∧ g.timing = true then [.dma_start TIMING_OFFSET n] else []) }) ∧
    (bytesFrom g.instructions (k * step + 1) (step - 1)).length = step - 1 ∧
    (∀ m, m < step - 1 →
      (bytesFrom g.instructions (k * step + 1) (step - 1)).get? m =
        some (g.instructions (k * step + 1 + m))) ∧
    (g.triggers + 1 < UINT_MOD → (g.triggers + 1) % UINT_MOD = g.triggers + 1) := by
  have hM : MAX_SIZE = 249856 := rfl
  have hU : UINT_MOD = 4294967296 := rfl
  have hI : INT_MAX = 2147483647 := rfl
  have hlt : step < UINT_MOD := by omega
  have hsl := spiLen_eq step hstep hlt
  have hend : ¬ (i = n ∧ rep = false) := by
    rcases hk with ⟨h1, _, _⟩ | ⟨_, h2, _⟩
    · exact fun h => h1 h.1
    · intro h; rw [h2] at h; exact Bool.noConfusion h.2
  have hi1 : (if i = n then 0 else i) = k := by
    rcases hk with ⟨h1, h2, _⟩ | ⟨h1, _, h3⟩
    · rw [if_neg h1, h2]
    · rw [if_pos h1, h3]
  have ho1 : (if i = n then 0 else offset) = k * step := by
    rcases hk with ⟨h1, h2, h3⟩ | ⟨h1, _, h3⟩
    · rw [if_neg h1, h2, h3]
    · rw [if_pos h1, h3, Nat.zero_mul]
  have hoff : (if i = n then 0 else offset) < MAX_SIZE := by rw [ho1]; omega
  have hspi : spiLen step = 0 ∨ (if i = n then 0 else offset) + spiLen step < MAX_SIZE := by
    rw [ho1, hsl]; right; omega
  have hexp : (k + 1) * step = k * step + step := by rw [Nat.add_mul, Nat.one_mul]
  have hkle : k ≤ k * step := Nat.le_mul_of_pos_right k hstep
  have hmod : (step * (k + 1)) % UINT_MOD = (k + 1) * step := by
    rw [Nat.mul_comm]
    apply Nat.mod_eq_of_lt
    omega
  refine ⟨?_, ?_, bytesFrom_length _ _ _, fun m hm => bytesFrom_get _ _ _ m hm,
    fun h => Nat.mod_eq_of_lt h⟩
  · intro hadv
    rw [runLoop_issue env step n rep fuel j i offset g hst hend hoff hspi hadv
      (by rw [hi1]; omega)]
    simp only [hi1, ho1, hmod, hsl]
  · intro hadv
    rw [runLoop_blocked env step n rep fuel j i offset g hst hend hoff hspi hadv]
    simp only [hi1, ho1, hsl]

theorem issue_instruction_witness :
    runLoop envQuiet 15 2 false (2 + 1) 1 1 15
        { bootGlobals tableAB with status := RUNNING } =
      (runLoop envQuiet 15 2 false 2 (1 + 1) (1 + 1) ((1 + 1) * 15)
        { ({ bootGlobals tableAB with status := RUNNING } : Globals) with
          status := (envQuiet.ctl 1).getD
            ({ bootGlobals tableAB with status := RUNNING } : Globals).status,
          triggers := (({ bootGlobals tableAB with status := RUNNING } : Globals).triggers + 1)
            % UINT_MOD }).after
        ([.trig_put (({ bootGlobals tableAB with status := RUNNING } : Globals).instructions
            (1 * 15)).val,
          .spi_write (1 * 15 + 1) (bytesFrom
            ({ bootGlobals tableAB with status := RUNNING } : Globals).instructions
            (1 * 15 + 1) (15 - 1))] ++
          (if 1 = 0 ∧ ({ bootGlobals tableAB with status := RUNNING } : Globals).timing = true
            then [.dma_start TIMING_OFFSET 2] else []) ++ [.wait_ack]) ∧
    runLoop envQuiet 15 1 true (2 + 1) 1 1 15
        { bootGlobals tableRepeat with status := RUNNING } =
      (runLoop envQuiet 15 1 true 2 (1 + 1) (0 + 1) ((0 + 1) * 15)
        { ({ bootGlobals tableRepeat with status := RUNNING } : Globals) with
          status := (envQuiet.ctl 1).getD
            ({ bootGlobals tableRepeat with status := RUNNING } : Globals).status,
          triggers :=
            (({ bootGlobals tableRepeat with status := RUNNING } : Globals).triggers + 1)
              % UINT_MOD }).after
        ([.trig_put (({ bootGlobals tableRepeat with status := RUNNING } : Globals).instructions
            (0 * 15)).val,
          .spi_write (0 * 15 + 1) (bytesFrom
            ({ bootGlobals tableRepeat with status := RUNNING } : Globals).instructions
            (0 * 15 + 1) (15 - 1))] ++
          (if 0 = 0 ∧
              ({ bootGlobals tableRepeat with status := RUNNING } : Globals).timing = true
            then [.dma_start TIMING_OFFSET 1] else []) ++ [.wait_ack]) :=
  ⟨(issue_instruction envQuiet 15 2 false 2 1 1 15 1
      { bootGlobals tableAB with status := RUNNING }
      (by decide) (Or.inl ⟨by decide, rfl, rfl⟩) (by decide) (by decide)).1 rfl,
   (issue_instruction envQuiet 15 1 true 2 1 1 15 0
      { bootGlobals tableRepeat with status := RUNNING }
      (by decide) (Or.inr ⟨rfl, rfl, rfl⟩) (by decide) (by decide)).1 rfl⟩

/-! ## Runs on a table that repeats -/

theorem tableABRepeat_terminated : Terminated tableABRepeat 15 2 := by
  refine ⟨?_, by decide, by decide⟩
  intro i hi
  have : i = 0 ∨ i = 1 := by omega
  rcases this with h | h <;> subst h <;> decide

/-- C14, as amended.  For every table of `n >= 1` records with nonzero control byte, closed by a record
whose control byte is zero and whose second byte, the repeat flag, is set: in a run that is
never aborted (no store to `status` from outside, every advance event arriving) the calls
are `set_status(RUNNING)`, `sync()`, the Timer word iff `hwstart` is nonzero, and then, for
`k = 0, 1, 2, ...`, the calls that issue record `k % n`; the `k`-th word handed to the Trigger
sequencer is the control byte of record `k % n`.  The loop does not end, and on wrap-around
there is no scan, no `sync()` and no reset of the trigger count, which after `fuel`
iterations is `fuel` modulo `2 ^ 32`. -/
theorem run_repeating (env : Env) (fuel hwstart : Nat) (g : Globals) (n k : Nat)
    (hstep : 0 < stepOf g.INS_SIZE g.channels)
    (hterm : Terminated g.instructions (stepOf g.INS_SIZE g.channels) n) (hn : 0 < n)
    (hrep : g.instructions (n * stepOf g.INS_SIZE g.channels + 1) ≠ 0)
    (hctl : ∀ j, env.ctl j = none) (hadv : ∀ j, env.advance j = true)
    (hfuel : n < fuel) (hk : k < fuel) :
    (background env fuel hwstart g).trace =
      [.set_status RUNNING, .sync] ++ (if hwstart ≠ 0 then [.timer_put 0] else []) ++
        repeatTrace g.instructions (stepOf g.INS_SIZE g.channels) g.timing n fuel 0 ∧
    (trigPuts (background env fuel hwstart g).trace).get? k =
      some (g.instructions ((k % n) * stepOf g.INS_SIZE g.channels)).val ∧
    (background env fuel hwstart g).outcome = .outOfFuel ∧
    (background env fuel hwstart g).g.triggers = fuel % UINT_MOD ∧
    (background env fuel hwstart g).trace.filter isStartEvent =
      [.set_status RUNNING, .sync] ++ (if hwstart ≠ 0 then [.timer_put 0] else []) := by
  have hlt : stepOf g.INS_SIZE g.channels < UINT_MOD := Nat.mod_lt _ (by decide)
  have hscan := scan_terminated g.instructions _ n hstep hterm fuel hfuel
  have hr : decide (g.instructions (n * stepOf g.INS_SIZE g.channels + 1) ≠ 0) = true := by
    simp [hrep]
  rw [hr] at hscan
  have hb := background_found env fuel hwstart g n true hscan
  have hbound : n * stepOf g.INS_SIZE g.channels < MAX_SIZE := by
    have := hterm.2.2
    omega
  have htr := runLoop_repeat_trace env (stepOf g.INS_SIZE g.channels) n g.instructions
    g.timing hstep hlt hn hbound hctl hadv fuel 0 0 0
    { g with status := RUNNING, triggers := 0 } (Nat.zero_le _)
    (by rw [Nat.zero_mod]; split_ifs <;> rfl) (show RUNNING ≠ ABORTING by decide) rfl rfl
  have hacks := runLoop_repeat_acks env (stepOf g.INS_SIZE g.channels) n hstep hlt hn hbound
    hctl hadv fuel 0 0 { g with status := RUNNING, triggers := 0 } (Nat.zero_le _)
    (show RUNNING ≠ ABORTING by decide)
  rw [Nat.zero_mul] at htr hacks
  have htrace : (background env fuel hwstart g).trace =
      [.set_status RUNNING, .sync] ++ (if hwstart ≠ 0 then [.timer_put 0] else []) ++
        repeatTrace g.instructions (stepOf g.INS_SIZE g.channels) g.timing n fuel 0 := by
    rw [hb]
    simp only [RunResult.after, htr]
  have hcount : countWaitAck (background env fuel hwstart g).trace = fuel := by
    rw [hb]
    simp only [RunResult.after, countWaitAck_append, hacks.1]
    split_ifs <;> simp [countWaitAck]
  refine ⟨htrace, ?_, by rw [hb]; exact hacks.2, ?_, (start_sequence_aux env fuel hwstart g n true hscan)⟩
  · rw [htrace, trigPuts_append]
    have hpre : trigPuts ([Event.set_status RUNNING, Event.sync] ++
        (if hwstart ≠ 0 then [Event.timer_put 0] else [])) = [] := by
      split_ifs <;> rfl
    rw [hpre, List.nil_append]
    have := trigPuts_repeatTrace g.instructions (stepOf g.INS_SIZE g.channels) g.timing n
      fuel 0 k hk
    rw [Nat.zero_add] at this
    exact this
  · rw [trigger_count_aux env fuel hwstart g n true hscan, hcount]

theorem run_repeating_witness :
    (background envQuiet 5 0 (bootGlobals tableABRepeat)).trace =
      [.set_status RUNNING, .sync] ++ (if 0 ≠ 0 then [.timer_put 0] else []) ++
        repeatTrace (bootGlobals tableABRepeat).instructions
          (stepOf (bootGlobals tableABRepeat).INS_SIZE (bootGlobals tableABRepeat).channels)
          (bootGlobals tableABRepeat).timing 2 5 0 ∧
    (trigPuts (background envQuiet 5 0 (bootGlobals tableABRepeat)).trace).get? 3 =
      some ((bootGlobals tableABRepeat).instructions ((3 % 2) *
        stepOf (bootGlobals tableABRepeat).INS_SIZE (bootGlobals tableABRepeat).channels)).val ∧
    (background envQuiet 5 0 (bootGlobals tableABRepeat)).outcome = .outOfFuel ∧
    (background envQuiet 5 0 (bootGlobals tableABRepeat)).g.triggers = 5 % UINT_MOD ∧
    (background envQuiet 5 0 (bootGlobals tableABRepeat)).trace.filter isStartEvent =
      [.set_status RUNNING, .sync] ++ (if 0 ≠ 0 then [.timer_put 0] else []) :=
  run_repeating envQuiet 5 0 (bootGlobals tableABRepeat) 2 3 (by decide)
    tableABRepeat_terminated (by decide) (by decide) (fun _ => rfl) (fun _ => rfl) (by decide)
    (by decide)

/-- C14, counterexample.  The table `tableFlagAfter` is well formed with one record and
stride 15, and its repeat flag, the byte that follows the terminator record, is set; yet the
run, never aborted and with every advance event arriving, issues record 0 once and ends in the
clean-up: there is no instruction number 1. -/
theorem run_repeating_counterexample :
    WellFormedSpec tableFlagAfter (stepOf 14 1) 1 ∧
    tableFlagAfter (1 * stepOf 14 1 + stepOf 14 1) ≠ 0 ∧
    (background envQuiet 5 0 (bootGlobals tableFlagAfter)).outcome = .drained ∧
    trigPuts (background envQuiet 5 0 (bootGlobals tableFlagAfter)).trace = [1] ∧
    (trigPuts (background envQuiet 5 0 (bootGlobals tableFlagAfter)).trace).get? 1 = none ∧
    (background envQuiet 5 0 (bootGlobals tableFlagAfter)).g.status = STOPPED :=
  ⟨tableFlagAfter_wellFormed, by decide, by decide, by decide, by decide, by decide⟩

/-! ## The start of a run -/

/-- C20, as amended.  On a start message with the flag `hwstart` whose scan finds a
terminator: the pass is `set_status(RUNNING)`, the one computation of the stride, the one
scan, the store of 0 to the trigger count, `sync()`, then the word 0 to the Timer sequencer
iff `hwstart` is nonzero, then the run loop, which is entered at index 0 with the stride, the
count and the repeat flag of that scan, with status `RUNNING` and with the trigger count 0
whatever it was before.  The run loop repeats none of these calls, and the trigger count at
the end is the number of advance events of this run, modulo `2 ^ 32`. -/
theorem start_sequence (env : Env) (fuel hwstart : Nat) (g : Globals) (n : Nat) (rep : Bool)
    (hscan : scan g.instructions (stepOf g.INS_SIZE g.channels) fuel = .found n rep) :
    background env fuel hwstart g =
      (runLoop env (stepOf g.INS_SIZE g.channels) n rep fuel 0 0 0
        { g with status := RUNNING, triggers := 0 }).after
        ([.set_status RUNNING, .sync] ++ (if hwstart ≠ 0 then [.timer_put 0] else [])) ∧
    (background env fuel hwstart g).trace.filter isStartEvent =
      [.set_status RUNNING, .sync] ++ (if hwstart ≠ 0 then [.timer_put 0] else []) ∧
    (background env fuel hwstart g).g.triggers =
      countWaitAck (background env fuel hwstart g).trace % UINT_MOD ∧
    (hwstart = 0 → ∀ w, Event.timer_put w ∉ (background env fuel hwstart g).trace) := by
  refine ⟨background_found env fuel hwstart g n rep hscan,
    start_sequence_aux env fuel hwstart g n rep hscan,
    trigger_count_aux env fuel hwstart g n rep hscan, ?_⟩
  intro hw w hmem
  have hf : Event.timer_put w ∈ (background env fuel hwstart g).trace.filter isStartEvent :=
    List.mem_filter.2 ⟨hmem, rfl⟩
  rw [start_sequence_aux env fuel hwstart g n rep hscan, hw] at hf
  simp at hf

theorem start_sequence_witness :
    background envQuiet 3 1 { bootGlobals tableAB with triggers := 7 } =
      (runLoop envQuiet
        (stepOf ({ bootGlobals tableAB with triggers := 7 } : Globals).INS_SIZE
          ({ bootGlobals tableAB with triggers := 7 } : Globals).channels) 2 false 3 0 0 0
        { ({ bootGlobals tableAB with triggers := 7 } : Globals) with
          status := RUNNING, triggers := 0 }).after
        ([.set_status RUNNING, .sync] ++ (if 1 ≠ 0 then [.timer_put 0] else [])) ∧
    (background envQuiet 3 1 { bootGlobals tableAB with triggers := 7 }).trace.filter
        isStartEvent =
      [.set_status RUNNING, .sync] ++ (if 1 ≠ 0 then [.timer_put 0] else []) ∧
    (background envQuiet 3 1 { bootGlobals tableAB with triggers := 7 }).g.triggers =
      countWaitAck (background envQuiet 3 1
        { bootGlobals tableAB with triggers := 7 }).trace % UINT_MOD ∧
    (1 = 0 → ∀ w, Event.timer_put w ∉
      (background envQuiet 3 1 { bootGlobals tableAB with triggers := 7 }).trace) :=
  start_sequence envQuiet 3 1 { bootGlobals tableAB with triggers := 7 } 2 false (by decide)

/-- C20, counterexample.  The buffer `tableNoTerminator` holds no terminator.  On a start
message with the flag 1 the pass makes one call, `set_status(RUNNING)`: the scan leaves the
buffer, and there is no `sync()`, no word to the Timer sequencer and no store to the trigger
count, which still holds 7. -/
theorem start_sequence_counterexample :
    (background envQuiet 16660 1 { bootGlobals tableNoTerminator with triggers := 7 }).trace =
      [.set_status RUNNING] ∧
    Event.sync ∉
      (background envQuiet 16660 1 { bootGlobals tableNoTerminator with triggers := 7 }).trace ∧
    Event.timer_put 0 ∉
      (background envQuiet 16660 1 { bootGlobals tableNoTerminator with triggers := 7 }).trace ∧
    (background envQuiet 16660 1
      { bootGlobals tableNoTerminator with triggers := 7 }).g.triggers = 7 ∧
    (background envQuiet 16660 1 { bootGlobals tableNoTerminator with triggers := 7 }).outcome =
      .outOfBounds 249870 := by
  obtain ⟨_, h2, h3⟩ := background_unterminated envQuiet 16660 1
    { bootGlobals tableNoTerminator with triggers := 7 } (by decide)
    (tableNoTerminator_unterminated _)
  have hfr := background_frame envQuiet 16660 1
    { bootGlobals tableNoTerminator with triggers := 7 }
  refine ⟨h2, by rw [h2]; decide, by rw [h2]; decide, ?_, ?_⟩
  · rcases background_cases envQuiet 16660 1
      { bootGlobals tableNoTerminator with triggers := 7 } with ⟨n, rep, _, e⟩ | ⟨o, e⟩
    · rw [e] at h2
      simp [RunResult.after] at h2
    · rw [e]
  · have e1 : firstOutside 15 * 15 = 249870 := by decide
    rw [← e1]
    exact h3 (by decide)

/-! ## `loop()` with its `readline()` -/

theorem cstr_append_nul (l : List Char) : cstr (l ++ [Char.ofNat 0]) = cstr l := by
  unfold cstr
  induction l with
  | nil => simp [List.takeWhile]
  | cons c cs ih =>
    by_cases h : c = Char.ofNat 0
    · simp [List.takeWhile, h]
    · simp only [List.cons_append, List.takeWhile_cons, ih]

theorem loop_append_nul (l : List Char) (g : Globals) :
    loop (l ++ [Char.ofNat 0]) g = loop l g := by
  unfold loop
  simp only [cmd, busyText, cstr_append_nul]

theorem indexedFrom_fst (l : List Char) :
    ∀ i p, p ∈ indexedFrom i l → p.1 < i + l.length := by
  induction l with
  | nil => intro i p h; simp [indexedFrom] at h
  | cons c cs ih =>
    intro i p h
    simp only [indexedFrom, List.mem_cons] at h
    simp only [List.length_cons]
    rcases h with h | h
    · rw [h]; simp
    · have := ih (i + 1) p h
      omega

theorem indexedFrom_snd (l : List Char) :
    ∀ i, (indexedFrom i l).map Prod.snd = l := by
  induction l with
  | nil => intro i; rfl
  | cons c cs ih => intro i; simp [indexedFrom, ih]

/-- A line of fewer than 256 characters is stored inside `readstring` with its NUL, and the
dispatch runs on it. -/
theorem loopOnInput_line (l rest : List Char) (g : Globals)
    (hnl : ∀ c, c ∈ l → c ≠ Char.ofNat 10) (hfit : l.length < READSTRING_SIZE) :
    loopOnInput (l ++ Char.ofNat 10 :: rest) g = .served (loop l g) := by
  have hR : READSTRING_SIZE = 256 := rfl
  have hI : INT_MAX = 2147483647 := rfl
  have hr := readlineFrom_line rest l 0 hnl (by omega)
  have hfind : (indexedFrom 0 l ++ [(0 + l.length, Char.ofNat 0)]).find?
      (fun p => decide (READSTRING_SIZE ≤ p.1)) = none := by
    rw [List.find?_eq_none]
    intro p hp
    simp only [List.mem_append, List.mem_singleton] at hp
    rcases hp with hp | hp
    · have := indexedFrom_fst l 0 p hp
      simp only [decide_eq_true_eq]
      omega
    · rw [hp]
      simp only [decide_eq_true_eq]
      omega
  unfold loopOnInput readline
  rw [hr]
  simp only [hfind, if_true, List.map_append, indexedFrom_snd, List.map_cons, List.map_nil,
    loop_append_nul]

theorem find_overrun (z : Char) (l : List Char) :
    ∀ i, i ≤ READSTRING_SIZE → READSTRING_SIZE ≤ i + l.length →
      ∃ c, (indexedFrom i l ++ [(i + l.length, z)]).find?
        (fun p => decide (READSTRING_SIZE ≤ p.1)) = some (READSTRING_SIZE, c) := by
  induction l with
  | nil =>
    intro i h1 h2
    have : i = READSTRING_SIZE := by simp only [List.length_nil] at h2; omega
    subst this
    exact ⟨z, by simp [indexedFrom]⟩
  | cons c cs ih =>
    intro i h1 h2
    by_cases hi : i = READSTRING_SIZE
    · subst hi
      exact ⟨c, by simp [indexedFrom]⟩
    · obtain ⟨d, hd⟩ := ih (i + 1) (by omega) (by simp only [List.length_cons] at h2; omega)
      refine ⟨d, ?_⟩
      have e : i + (c :: cs).length = i + 1 + cs.length := by
        simp only [List.length_cons]; omega
      have hlt : ¬ READSTRING_SIZE ≤ i := by omega
      rw [e]
      simp only [indexedFrom, List.cons_append, List.find?_cons, hlt, decide_False]
      exact hd

/-- A line of 256 characters or more makes `readline()` store outside `readstring`, first
at index 256, before the dispatch looks at the line. -/
theorem loopOnInput_long (l rest : List Char) (g : Globals)
    (hnl : ∀ c, c ∈ l → c ≠ Char.ofNat 10) (hlong : READSTRING_SIZE ≤ l.length)
    (hint : l.length ≤ INT_MAX) :
    loopOnInput (l ++ Char.ofNat 10 :: rest) g = .overrun READSTRING_SIZE := by
  have hr := readlineFrom_line rest l 0 hnl (by omega)
  obtain ⟨c, hc⟩ := find_overrun (Char.ofNat 0) l 0 (Nat.zero_le _) (by omega)
  unfold loopOnInput readline
  rw [hr]
  simp only [hc]

theorem indexedFrom_replicate_mem (c : Char) :
    ∀ n i k, k < n → (i + k, c) ∈ indexedFrom i (List.replicate n c) := by
  intro n
  induction n with
  | zero => intro i k hk; omega
  | succ n ih =>
    intro i k hk
    simp only [List.replicate_succ, indexedFrom, List.mem_cons]
    cases k with
    | zero => left; rfl
    | succ k =>
      right
      have := ih (i + 1) k (by omega)
      have e : i + 1 + k = i + (k + 1) := by omega
      rw [e] at this
      exact this

/-- C8, as amended.  For every line of fewer than 256 characters, which `readline()` stores
inside `readstring`, that begins with none of the keywords the dispatcher serves in every
status (`version`, `status`, `debug on`, `debug off`, `getfreqs`, `numtriggers`, `reset`,
`abort`): when the status read at the start of `loop()` is not `STOPPED` the reply is the busy
text and nothing else happens: no hardware call, and the globals (status, trigger count,
table, flash image, debug flag) are unchanged. -/
theorem busy_reject (l rest : List Char) (g : Globals)
    (hnl : ∀ c, c ∈ l → c ≠ Char.ofNat 10) (hfit : l.length < READSTRING_SIZE)
    (hst : g.status ≠ STOPPED) (hnone : alwaysServed l = false) :
    loopOnInput (l ++ Char.ofNat 10 :: rest) g = .served (loop l g) ∧
    (loop l g).out = [.line (busyText l)] ∧ (loop l g).hw = [] ∧ (loop l g).g = g :=
  ⟨loopOnInput_line l rest g hnl hfit, loop_busy l g hst hnone⟩

theorem busy_reject_witness :
    loopOnInput ("load".toList ++ Char.ofNat 10 :: [])
        { bootGlobals tableAB with status := RUNNING } =
      .served (loop "load".toList { bootGlobals tableAB with status := RUNNING }) ∧
    (loop "load".toList { bootGlobals tableAB with status := RUNNING }).out =
      [.line (busyText "load".toList)] ∧
    (loop "load".toList { bootGlobals tableAB with status := RUNNING }).hw = [] ∧
    (loop "load".toList { bootGlobals tableAB with status := RUNNING }).g =
      { bootGlobals tableAB with status := RUNNING } :=
  busy_reject "load".toList [] { bootGlobals tableAB with status := RUNNING } (by decide)
    (by decide) (by decide) (by decide)

/-- For every line of fewer than 256 characters handled by `loop()` while the status read at
its start is not `STOPPED`, `instructions` is the same table afterwards. -/
theorem table_kept_short_line (l rest : List Char) (g : Globals)
    (hnl : ∀ c, c ∈ l → c ≠ Char.ofNat 10) (hfit : l.length < READSTRING_SIZE)
    (hst : g.status ≠ STOPPED) :
    loopOnInput (l ++ Char.ofNat 10 :: rest) g = .served (loop l g) ∧
    (loop l g).g.instructions = g.instructions :=
  ⟨loopOnInput_line l rest g hnl hfit, loop_instructions l g hst⟩

/-- C19, the code at the failing input.  After `reset` the stride is 15.  A line of 300
characters `x` then makes `readline()` store the characters 256 to 299 and the terminating NUL
at the indices 256 to 300, outside `readstring`, in the memory of the globals declared behind
it, without any call of `reset()`; the dispatch that would leave `INS_SIZE` alone is not
reached with the globals intact. -/
theorem long_line_before_run :
    stepOf (loop "reset".toList (bootGlobals tableAB)).g.INS_SIZE
      (loop "reset".toList (bootGlobals tableAB)).g.channels = 15 ∧
    loopOnInput (List.replicate 300 'x' ++ Char.ofNat 10 :: [])
        (loop "reset".toList (bootGlobals tableAB)).g = .overrun READSTRING_SIZE ∧
    (256, 'x') ∈ (readline (List.replicate 300 'x' ++ Char.ofNat 10 :: [])).stores ∧
    (299, 'x') ∈ (readline (List.replicate 300 'x' ++ Char.ofNat 10 :: [])).stores ∧
    (300, Char.ofNat 0) ∈ (readline (List.replicate 300 'x' ++ Char.ofNat 10 :: [])).stores := by
  have hnl : ∀ c, c ∈ List.replicate 300 'x' → c ≠ Char.ofNat 10 := by
    intro c hc
    rw [List.eq_of_mem_replicate hc]
    decide
  have hr := readlineFrom_line [] (List.replicate 300 'x') 0 hnl
    (by rw [List.length_replicate]; decide)
  rw [List.length_replicate] at hr
  refine ⟨by decide, loopOnInput_long _ [] _ hnl (by rw [List.length_replicate]; decide)
    (by rw [List.length_replicate]; decide), ?_, ?_, ?_⟩
  · rw [readline, hr]
    exact List.mem_append_left _ (indexedFrom_replicate_mem 'x' 300 0 256 (by decide))
  · rw [readline, hr]
    exact List.mem_append_left _ (indexedFrom_replicate_mem 'x' 300 0 299 (by decide))
  · rw [readline, hr]
    exact List.mem_append_right _ (List.mem_singleton.2 rfl)

/-- The stride of a run is `INS_SIZE * channels + 1`; `background()` computes it once, from
the globals it finds at the start message, and uses that one value for the scan and for the
run loop, and does not write `INS_SIZE` or the channel count.  On a line of fewer than 256
characters `loop()` writes them only in `reset`, to 14 and 1, so once set they stay; after
`reset` the stride is 15, and with `INS_SIZE` 0 or 14 and one channel the stride is at
least 1. -/
theorem stride_short_line (l rest : List Char) (env : Env) (fuel hwstart : Nat) (g : Globals)
    (hnl : ∀ c, c ∈ l → c ≠ Char.ofNat 10) (hfit : l.length < READSTRING_SIZE)
    (hcfg : Configured g) :
    loopOnInput (l ++ Char.ofNat 10 :: rest) g = .served (loop l g) ∧
    stepOf g.INS_SIZE g.channels = g.INS_SIZE * g.channels + 1 ∧
    1 ≤ stepOf g.INS_SIZE g.channels ∧
    Configured (loop l g).g ∧
    (g.INS_SIZE = 14 ∧ g.channels = 1 →
      (loop l g).g.INS_SIZE = 14 ∧ (loop l g).g.channels = 1) ∧
    (background env fuel hwstart g).g.INS_SIZE = g.INS_SIZE ∧
    (background env fuel hwstart g).g.channels = g.channels ∧
    stepOf (loop "reset".toList g).g.INS_SIZE (loop "reset".toList g).g.channels = 15 := by
  have hfr := background_frame env fuel hwstart g
  have hstep : stepOf g.INS_SIZE g.channels = g.INS_SIZE * g.channels + 1 := by
    unfold stepOf
    rcases hcfg with h | ⟨h1, h2⟩
    · rw [h]; simp [UINT_MOD]
    · rw [h1, h2]; decide
  refine ⟨loopOnInput_line l rest g hnl hfit, hstep, by rw [hstep]; omega, ?_, ?_, hfr.1,
    hfr.2.1, by rw [(loop_reset g).1]; rfl⟩
  · rcases loop_config l g with ⟨h1, _⟩ | ⟨h1, h2⟩
    · rcases hcfg with h | ⟨h3, h4⟩
      · left; rw [h1]; exact h
      · rcases loop_config l g with ⟨k1, k2⟩ | ⟨k1, k2⟩
        · right; exact ⟨by rw [k1]; exact h3, by rw [k2]; exact h4⟩
        · right; exact ⟨k1, k2⟩
    · right; exact ⟨h1, h2⟩
  · intro ⟨h3, h4⟩
    rcases loop_config l g with ⟨k1, k2⟩ | ⟨k1, k2⟩
    · exact ⟨by rw [k1]; exact h3, by rw [k2]; exact h4⟩
    · exact ⟨k1, k2⟩

/-! ## The status cell under interleaving -/

theorem sys_step_bound (s s1 : Sys) (a : StatusStep) (w : List (Nat × Nat))
    (hs : s.status ≤ 2) (h : s.step a = some (s1, w)) :
    s1.status ≤ 2 ∧ ∀ p, p ∈ w → p.1 ≤ 2 ∧ p.2 ≤ 2 := by
  have h0 : STOPPED = 0 := rfl
  have h1 : RUNNING = 1 := rfl
  have h2 : ABORTING = 2 := rfl
  cases a with
  | abortSet =>
    simp only [Sys.step] at h
    split at h
    · split_ifs at h <;> simp only [Option.some.injEq, Prod.mk.injEq] at h <;>
        obtain ⟨e1, e2⟩ := h <;> subst e1 e2 <;> simp [h2, hs]
    · exact absurd h (by simp)
  | _ =>
    simp only [Sys.step] at h
    split_ifs at h
    simp only [Option.some.injEq, Prod.mk.injEq] at h
    obtain ⟨e1, e2⟩ := h
    subst e1 e2
    simp [h0, h1, h2, hs]

theorem sys_run_cons (s : Sys) (a : StatusStep) (rest : List StatusStep) (s2 : Sys)
    (ws : List (Nat × Nat)) (h : Sys.run s (a :: rest) = some (s2, ws)) :
    ∃ s1 w ws1, s.step a = some (s1, w) ∧ Sys.run s1 rest = some (s2, ws1) ∧
      ws = w ++ ws1 := by
  simp only [Sys.run] at h
  cases h1 : s.step a with
  | none => rw [h1] at h; exact absurd h (by simp)
  | some p =>
    obtain ⟨s1, w⟩ := p
    rw [h1] at h
    simp only at h
    cases h2 : Sys.run s1 rest with
    | none => rw [h2] at h; exact absurd h (by simp)
    | some q =>
      obtain ⟨s3, ws1⟩ := q
      rw [h2] at h
      simp only [Option.some.injEq, Prod.mk.injEq] at h
      exact ⟨s1, w, ws1, rfl, by rw [h2, h.1], h.2.symm⟩

/-- In every interleaving the status cell holds 0, 1 or 2, before and after every store. -/
theorem sys_run_bound :
    ∀ (sched : List StatusStep) (s s2 : Sys) (ws : List (Nat × Nat)), s.status ≤ 2 →
      Sys.run s sched = some (s2, ws) →
      s2.status ≤ 2 ∧ ∀ p, p ∈ ws → p.1 ≤ 2 ∧ p.2 ≤ 2 := by
  intro sched
  induction sched with
  | nil =>
    intro s s2 ws hs h
    simp only [Sys.run, Option.some.injEq, Prod.mk.injEq] at h
    obtain ⟨e1, e2⟩ := h
    subst e1 e2
    exact ⟨hs, by simp⟩
  | cons a rest ih =>
    intro s s2 ws hs h
    obtain ⟨s1, w, ws1, h1, h2, e⟩ := sys_run_cons s a rest s2 ws h
    obtain ⟨b1, b2⟩ := sys_step_bound s s1 a w hs h1
    obtain ⟨c1, c2⟩ := ih s1 s2 ws1 b1 h2
    refine ⟨c1, ?_⟩
    intro p hp
    rw [e] at hp
    rcases List.mem_append.1 hp with hp | hp
    · exact b2 p hp
    · exact c2 p hp

theorem allowed_to_stopped (st : Nat) (h : st ≤ 2) :
    st = STOPPED ∨ (st, STOPPED) ∈ fourTransitions := by
  interval_cases st <;> decide

/-- A store of the execution context or of `reset`, made in a settled state, is one of the
four transitions or stores the value the cell holds, and leaves a settled state. -/
theorem settled_step (s s1 : Sys) (a : StatusStep) (w : List (Nat × Nat)) (hs : s.Settled)
    (ha : a = .resetSet ∨ a = .engStart ∨ a = .engStop) (h : s.step a = some (s1, w)) :
    s1.Settled ∧ ∀ p, p ∈ w → p.1 = p.2 ∨ p ∈ fourTransitions := by
  obtain ⟨st, c, e⟩ := s
  obtain ⟨hc, hst, hw⟩ := hs
  simp only at hc hst hw
  rcases ha with ha | ha | ha <;> subst ha <;> simp only [Sys.step] at h <;>
    split_ifs at h with hcond <;> simp only [Option.some.injEq, Prod.mk.injEq] at h <;>
    obtain ⟨e1, e2⟩ := h <;> subst e1 e2
  · refine ⟨⟨Or.inl rfl, (show STOPPED ≤ 2 by decide), fun _ => rfl⟩, ?_⟩
    intro p hp
    simp only [List.mem_singleton] at hp
    subst hp
    exact allowed_to_stopped st hst
  · refine ⟨⟨hc, (show RUNNING ≤ 2 by decide), fun h => by cases h⟩, ?_⟩
    intro p hp
    simp only [List.mem_singleton] at hp
    subst hp
    right
    rw [hw hcond]
    decide
  · refine ⟨⟨hc, (show STOPPED ≤ 2 by decide), fun _ => rfl⟩, ?_⟩
    intro p hp
    simp only [List.mem_singleton] at hp
    subst hp
    exact allowed_to_stopped st hst

/-- The two accesses of `abort_run()` made one after the other in a settled state: the only
store is `ABORTING` over `RUNNING`, and the state after them is settled. -/
theorem settled_abort (s s1 s2 : Sys) (b : Bool) (w1 w2 : List (Nat × Nat)) (hs : s.Settled)
    (h1 : s.step (.abortGet b) = some (s1, w1)) (h2 : s1.step .abortSet = some (s2, w2)) :
    s2.Settled ∧ ∀ p, p ∈ w1 ++ w2 → p.1 = p.2 ∨ p ∈ fourTransitions := by
  obtain ⟨st, c, e⟩ := s
  obtain ⟨hc, hst, hw⟩ := hs
  simp only at hc hst hw
  simp only [Sys.step] at h1
  split_ifs at h1 with hidle
  simp only [Option.some.injEq, Prod.mk.injEq] at h1
  obtain ⟨e1, e2⟩ := h1
  subst e1 e2
  simp only [Sys.step] at h2
  by_cases hr : st = RUNNING
  · rw [if_pos hr] at h2
    simp only [Option.some.injEq, Prod.mk.injEq] at h2
    obtain ⟨e1, e2⟩ := h2
    subst e1 e2
    refine ⟨⟨by cases b <;> simp, (show ABORTING ≤ 2 by decide), ?_⟩, ?_⟩
    · intro he
      have := hw he
      rw [hr] at this
      exact absurd this (by decide)
    · intro p hp
      simp only [List.nil_append, List.mem_singleton] at hp
      subst hp
      right
      rw [hr]
      decide
  · rw [if_neg hr] at h2
    simp only [Option.some.injEq, Prod.mk.injEq] at h2
    obtain ⟨e1, e2⟩ := h2
    subst e1 e2
    exact ⟨⟨by cases b <;> simp, hst, hw⟩, by simp⟩

/-- In every interleaving in which `abort_run()` is atomic, started in a settled state, every
store is one of the four transitions or stores the value the cell holds. -/
theorem sys_run_atomic :
    ∀ (n : Nat) (sched : List StatusStep), sched.length ≤ n →
      ∀ (s s2 : Sys) (ws : List (Nat × Nat)), s.Settled → abortAtomic sched = true →
        Sys.run s sched = some (s2, ws) →
        ∀ p, p ∈ ws → p.1 = p.2 ∨ p ∈ fourTransitions := by
  intro n
  induction n with
  | zero =>
    intro sched hlen s s2 ws _ _ h p hp
    have : sched = [] := List.eq_nil_of_length_eq_zero (by omega)
    subst this
    simp only [Sys.run, Option.some.injEq, Prod.mk.injEq] at h
    rw [← h.2] at hp
    exact absurd hp (by simp)
  | succ n ih =>
    intro sched hlen s s2 ws hs hat h p hp
    cases sched with
    | nil =>
      simp only [Sys.run, Option.some.injEq, Prod.mk.injEq] at h
      rw [← h.2] at hp
      exact absurd hp (by simp)
    | cons a rest =>
      obtain ⟨s1, w, ws1, h1, h2, e⟩ := sys_run_cons s a rest s2 ws h
      simp only [List.length_cons] at hlen
      rw [e] at hp
      cases a with
      | abortGet b =>
        cases rest with
        | nil => simp [abortAtomic] at hat
        | cons a2 rest2 =>
          cases a2 with
          | abortSet =>
            obtain ⟨s3, w2, ws2, h3, h4, e2⟩ := sys_run_cons s1 .abortSet rest2 s2 ws1 h2
            obtain ⟨k1, k2⟩ := settled_abort s s1 s3 b w w2 hs h1 h3
            simp only [abortAtomic] at hat
            simp only [List.length_cons] at hlen
            rw [e2, ← List.append_assoc] at hp
            rcases List.mem_append.1 hp with hp | hp
            · exact k2 p hp
            · exact ih rest2 (by omega) s3 s2 ws2 k1 hat h4 p hp
          | abortGet _ => simp [abortAtomic] at hat
          | resetSet => simp [abortAtomic] at hat
          | engStart => simp [abortAtomic] at hat
          | engStop => simp [abortAtomic] at hat
      | abortSet =>
        obtain ⟨st, c, en⟩ := s
        obtain ⟨hc, _, _⟩ := hs
        simp only at hc
        rcases hc with hc | hc <;> subst hc <;> simp [Sys.step] at h1
      | resetSet =>
        obtain ⟨k1, k2⟩ := settled_step s s1 _ w hs (Or.inl rfl) h1
        simp only [abortAtomic] at hat
        rcases List.mem_append.1 hp with hp | hp
        · exact k2 p hp
        · exact ih rest (by omega) s1 s2 ws1 k1 hat h2 p hp
      | engStart =>
        obtain ⟨k1, k2⟩ := settled_step s s1 _ w hs (Or.inr (Or.inl rfl)) h1
        simp only [abortAtomic] at hat
        rcases List.mem_append.1 hp with hp | hp
        · exact k2 p hp
        · exact ih rest (by omega) s1 s2 ws1 k1 hat h2 p hp
      | engStop =>
        obtain ⟨k1, k2⟩ := settled_step s s1 _ w hs (Or.inr (Or.inr rfl)) h1
        simp only [abortAtomic] at hat
        rcases List.mem_append.1 hp with hp | hp
        · exact k2 p hp
        · exact ih rest (by omega) s1 s2 ws1 k1 hat h2 p hp

/-- Executed without an access of the other context in between, the accesses of one call of
`loop()` to `status` are those of one of the schedules `loopSchedules`. -/
theorem loop_schedule (l : List Char) (g : Globals) (e : EngAt) :
    ∃ sc, sc ∈ loopSchedules ∧
      Sys.run { status := g.status, ctl := .idle, eng := e } sc =
        some ({ status := (loop l g).g.status, ctl := .idle, eng := e },
          statusWrites g.status (loop l g).hw) := by
  rcases loop_statusWrites l g with ⟨h1, h2⟩ | ⟨hr, h1, h2⟩ | ⟨hr, h1, h2⟩ | ⟨hr, h1, h2⟩
  · exact ⟨[], by simp [loopSchedules], by rw [h1, h2]; rfl⟩
  · refine ⟨[.abortGet false, .abortSet], by simp [loopSchedules], ?_⟩
    rw [h1, h2, hr]
    rfl
  · refine ⟨[.abortGet true, .abortSet, .resetSet], by simp [loopSchedules], ?_⟩
    rw [h1, h2, hr]
    rfl
  · refine ⟨[.abortGet true, .abortSet, .resetSet], by simp [loopSchedules], ?_⟩
    rw [h1, h2]
    simp [Sys.run, Sys.step, hr]

/-- The values one pass of `background()` stores in `status` are those of one of the
schedules `engineSchedules`, whatever the other context does meanwhile. -/
theorem background_schedule (env : Env) (fuel hwstart : Nat) (g : Globals) (c : CtlAt) :
    ∃ sc, sc ∈ engineSchedules ∧
      (Sys.run { status := g.status, ctl := c, eng := .waiting } sc).map
          (fun r => r.2.map Prod.snd) =
        some ((statusWrites g.status (background env fuel hwstart g).trace).map Prod.snd) := by
  rcases background_cases env fuel hwstart g with ⟨n, rep, _, e⟩ | ⟨o, e⟩
  · rw [e]
    have hpre : ∀ es, statusWrites g.status
        (([Event.set_status RUNNING, Event.sync] ++
          (if hwstart ≠ 0 then [Event.timer_put 0] else [])) ++ es) =
        (g.status, RUNNING) :: statusWrites RUNNING es := by
      intro es
      split_ifs <;> rfl
    simp only [RunResult.after, hpre]
    rcases runLoop_statusWrites env (stepOf g.INS_SIZE g.channels) n rep fuel 0 0 0
      { g with status := RUNNING, triggers := 0 } RUNNING with ⟨h1, _⟩ | ⟨h1, _, _⟩
    · exact ⟨[.engStart], by simp [engineSchedules], by rw [h1]; rfl⟩
    · exact ⟨[.engStart, .engStop], by simp [engineSchedules], by rw [h1]; rfl⟩
  · rw [e]
    exact ⟨[.engStart], by simp [engineSchedules], rfl⟩

/-- When the clean-up of the execution context falls between the two accesses of
`abort_run()`, the store of `ABORTING` finds `STOPPED`: a change that is none of the four
transitions. -/
theorem sys_abort_interleaved :
    Sys.run Sys.boot [.engStart, .abortGet false, .engStop, .abortSet] =
      some ({ status := ABORTING, ctl := .idle, eng := .waiting },
        [(STOPPED, RUNNING), (RUNNING, STOPPED), (STOPPED, ABORTING)]) ∧
    abortAtomic [.engStart, .abortGet false, .engStop, .abortSet] = false ∧
    (STOPPED, ABORTING) ∉ fourTransitions := by
  decide

/-- C13, as amended.  The accesses to `status` are those of `get_status()` and
`set_status()`: for a line of fewer than 256 characters, one call of `loop()` makes none that
stores, or the two of `abort_run()` (`set_status(ABORTING)` when `get_status()` returned
`RUNNING`), or those and the `set_status(STOPPED)` of `reset`; one pass of `background()`
stores `RUNNING` and, when the run loop is left, `STOPPED`.  In every interleaving of these
accesses after boot the cell holds 0, 1 or 2; and in every interleaving in which no access of
the execution context falls between the two accesses of `abort_run()`, every change of the
cell is one of four transitions: `STOPPED` to `RUNNING`, `RUNNING` to `ABORTING`, `ABORTING`
to `STOPPED`, `RUNNING` to `STOPPED`. -/
theorem status_transitions (l rest : List Char) (g : Globals) (env : Env)
    (fuel hwstart : Nat) (e : EngAt) (c : CtlAt) (sched : List StatusStep) (s2 : Sys)
    (ws : List (Nat × Nat)) (hnl : ∀ ch, ch ∈ l → ch ≠ Char.ofNat 10)
    (hfit : l.length < READSTRING_SIZE) (hrun : Sys.run Sys.boot sched = some (s2, ws)) :
    (loopOnInput (l ++ Char.ofNat 10 :: rest) g = .served (loop l g) ∧
      ∃ sc, sc ∈ loopSchedules ∧
        Sys.run { status := g.status, ctl := .idle, eng := e } sc =
          some ({ status := (loop l g).g.status, ctl := .idle, eng := e },
            statusWrites g.status (loop l g).hw)) ∧
    (∃ sc, sc ∈ engineSchedules ∧
      (Sys.run { status := g.status, ctl := c, eng := .waiting } sc).map
          (fun r => r.2.map Prod.snd) =
        some ((statusWrites g.status (background env fuel hwstart g).trace).map Prod.snd)) ∧
    (s2.status ≤ 2 ∧ ∀ p, p ∈ ws → p.1 ≤ 2 ∧ p.2 ≤ 2) ∧
    (abortAtomic sched = true → ∀ p, p ∈ ws → p.1 = p.2 ∨ p ∈ fourTransitions) :=
  ⟨⟨loopOnInput_line l rest g hnl hfit, loop_schedule l g e⟩,
   background_schedule env fuel hwstart g c,
   sys_run_bound sched Sys.boot s2 ws (by decide) hrun,
   fun hat => sys_run_atomic sched.length sched (le_refl _) Sys.boot s2 ws
     ⟨Or.inl rfl, by decide, fun _ => rfl⟩ hat hrun⟩

theorem status_transitions_witness :
    (loopOnInput ("abort".toList ++ Char.ofNat 10 :: [])
        { bootGlobals tableAB with status := RUNNING } =
        .served (loop "abort".toList { bootGlobals tableAB with status := RUNNING }) ∧
      ∃ sc, sc ∈ loopSchedules ∧
        Sys.run { status := ({ bootGlobals tableAB with status := RUNNING } : Globals).status,
                  ctl := .idle, eng := .running } sc =
          some ({ status :=
                    (loop "abort".toList { bootGlobals tableAB with status := RUNNING }).g.status,
                  ctl := .idle, eng := .running },
            statusWrites ({ bootGlobals tableAB with status := RUNNING } : Globals).status
              (loop "abort".toList { bootGlobals tableAB with status := RUNNING }).hw)) ∧
    (∃ sc, sc ∈ engineSchedules ∧
      (Sys.run { status := ({ bootGlobals tableAB with status := RUNNING } : Globals).status,
                 ctl := .idle, eng := .waiting } sc).map (fun r => r.2.map Prod.snd) =
        some ((statusWrites ({ bootGlobals tableAB with status := RUNNING } : Globals).status
          (background envQuiet 3 0
            { bootGlobals tableAB with status := RUNNING }).trace).map Prod.snd)) ∧
    (({ status := STOPPED, ctl := .idle, eng := .waiting } : Sys).status ≤ 2 ∧
      ∀ p, p ∈ [(STOPPED, RUNNING), (RUNNING, ABORTING), (ABORTING, STOPPED)] →
        p.1 ≤ 2 ∧ p.2 ≤ 2) ∧
    (∀ p, p ∈ [(STOPPED, RUNNING), (RUNNING, ABORTING), (ABORTING, STOPPED)] →
      p.1 = p.2 ∨ p ∈ fourTransitions) :=
  ⟨(status_transitions "abort".toList [] { bootGlobals tableAB with status := RUNNING }
      envQuiet 3 0 .running .idle [.engStart, .abortGet false, .abortSet, .engStop]
      { status := STOPPED, ctl := .idle, eng := .waiting }
      [(STOPPED, RUNNING), (RUNNING, ABORTING), (ABORTING, STOPPED)] (by decide) (by decide)
      (by decide)).1,
   (status_transitions "abort".toList [] { bootGlobals tableAB with status := RUNNING }
      envQuiet 3 0 .running .idle [.engStart, .abortGet false, .abortSet, .engStop]
      { status := STOPPED, ctl := .idle, eng := .waiting }
      [(STOPPED, RUNNING), (RUNNING, ABORTING), (ABORTING, STOPPED)] (by decide) (by decide)
      (by decide)).2.1,
   (status_transitions "abort".toList [] { bootGlobals tableAB with status := RUNNING }
      envQuiet 3 0 .running .idle [.engStart, .abortGet false, .abortSet, .engStop]
      { status := STOPPED, ctl := .idle, eng := .waiting }
      [(STOPPED, RUNNING), (RUNNING, ABORTING), (ABORTING, STOPPED)] (by decide) (by decide)
      (by decide)).2.2.1,
   (status_transitions "abort".toList [] { bootGlobals tableAB with status := RUNNING }
      envQuiet 3 0 .running .idle [.engStart, .abortGet false, .abortSet, .engStop]
      { status := STOPPED, ctl := .idle, eng := .waiting }
      [(STOPPED, RUNNING), (RUNNING, ABORTING), (ABORTING, STOPPED)] (by decide) (by decide)
      (by decide)).2.2.2 (by decide)⟩

/-! ## `wait()` on the trigger state machine -/

theorem trigServing_cycle (c : Nat) (hc : c ≠ 0) (pin : Bool) (s : Sm)
    (h : TrigServing c s) :
    TrigServing c (Sm.cycle trigger_program pin s) ∨
      TrigAcked (Sm.cycle trigger_program pin s) := by
  obtain ⟨pc, x, y, osr, isr, tx, rx, side, pins, delay, fault⟩ := s
  obtain ⟨h1, h2, h3⟩ := h
  simp only at h1 h2 h3
  subst h1 h2
  by_cases hd : 0 < delay
  · left
    rcases h3 with ⟨a, b⟩ | ⟨a, b, _⟩ | ⟨a, b, d⟩
    · subst a b
      simp [TrigServing, Sm.cycle, hd]
    · omega
    · subst a b
      refine ⟨by simp [Sm.cycle, hd], by simp [Sm.cycle, hd], Or.inr (Or.inr ?_)⟩
      simp [Sm.cycle, hd]
      omega
  · have hd0 : delay = 0 := by omega
    subst hd0
    rcases h3 with ⟨a, b⟩ | ⟨a, _, b⟩ | ⟨a, b, _⟩
    · subst a b
      left
      simp [TrigServing, Sm.cycle, trigger_program, trigger_program_instructions, exec,
        sidesetOf, delayOf]
    · subst a
      rcases b with ⟨b, e⟩ | ⟨b, e⟩ | b | b | b
      · subst b e
        left
        simp [TrigServing, Sm.cycle, trigger_program, trigger_program_instructions, exec,
          sidesetOf, delayOf, movSource]
      · subst b e
        left
        simp [TrigServing, Sm.cycle, trigger_program, trigger_program_instructions, exec,
          sidesetOf, delayOf, hc]
      · subst b
        left
        cases pin <;>
          simp [TrigServing, Sm.cycle, trigger_program, trigger_program_instructions, exec,
            sidesetOf, delayOf]
      · subst b
        left
        simp [TrigServing, Sm.cycle, trigger_program, trigger_program_instructions, exec,
          sidesetOf, delayOf]
      · subst b
        right
        simp [TrigAcked, Sm.cycle, trigger_program, trigger_program_instructions, exec,
          sidesetOf, delayOf, FIFO_DEPTH]
    · subst a b
      left
      simp [TrigServing, Sm.cycle, trigger_program, trigger_program_instructions, exec,
        sidesetOf, delayOf]

theorem trigAcked_cycle (pin : Bool) (s : Sm) (h : TrigAcked s) :
    TrigAcked (Sm.cycle trigger_program pin s) := by
  obtain ⟨pc, x, y, osr, isr, tx, rx, side, pins, delay, fault⟩ := s
  obtain ⟨h1, h2, h3, h4, w, h5⟩ := h
  simp only at h1 h2 h3 h4 h5
  subst h1 h2 h3 h4 h5
  simp [TrigAcked, Sm.cycle, trigger_program, trigger_program_instructions, exec, sidesetOf]

theorem trigSilent_cycle (pin : Bool) (s : Sm) (h : TrigSilent s) :
    TrigSilent (Sm.cycle trigger_program pin s) := by
  obtain ⟨pc, x, y, osr, isr, tx, rx, side, pins, delay, fault⟩ := s
  obtain ⟨h1, h2, h3⟩ := h
  simp only at h1 h2 h3
  subst h1 h2
  by_cases hd : 0 < delay
  · rcases h3 with ⟨a, b⟩ | ⟨a, b, _⟩
    · subst a
      rcases b with b | b <;> subst b <;> simp [TrigSilent, Sm.cycle, hd]
    · omega
  · have hd0 : delay = 0 := by omega
    subst hd0
    rcases h3 with ⟨a, b⟩ | ⟨a, _, b⟩
    · subst a
      rcases b with b | b <;> subst b <;>
        simp [TrigSilent, Sm.cycle, trigger_program, trigger_program_instructions, exec,
          sidesetOf, delayOf]
    · subst a
      rcases b with ⟨b, e⟩ | ⟨b, e⟩ | b
      · subst b e
        simp [TrigSilent, Sm.cycle, trigger_program, trigger_program_instructions, exec,
          sidesetOf, delayOf, movSource]
      · subst b e
        simp [TrigSilent, Sm.cycle, trigger_program, trigger_program_instructions, exec,
          sidesetOf, delayOf]
      · subst b
        simp [TrigSilent, Sm.cycle, trigger_program, trigger_program_instructions, exec,
          sidesetOf, delayOf]

theorem trigSilent_run (pin : Nat → Bool) :
    ∀ n t (s : Sm), TrigSilent s → TrigSilent (Sm.run trigger_program pin n t s) := by
  intro n
  induction n with
  | zero => intro t s h; exact h
  | succ n ih => intro t s h; exact ih _ _ (trigSilent_cycle _ _ h)

theorem trigServing_run (c : Nat) (hc : c ≠ 0) (pin : Nat → Bool) :
    ∀ n t (s : Sm), TrigServing c s ∨ TrigAcked s →
      TrigServing c (Sm.run trigger_program pin n t s) ∨
        TrigAcked (Sm.run trigger_program pin n t s) := by
  intro n
  induction n with
  | zero => intro t s h; exact h
  | succ n ih =>
    intro t s h
    rcases h with h | h
    · exact ih _ _ (trigServing_cycle c hc _ s h)
    · exact ih _ _ (Or.inr (trigAcked_cycle _ s h))

/-- While the state machine serves the command 0, or rests after it, `wait()` does not
return. -/
theorem get_blocking_silent (pin : Nat → Bool) :
    ∀ fuel t (s : Sm), TrigSilent s →
      pio_sm_get_blocking trigger_program pin fuel t s = none := by
  intro fuel
  induction fuel with
  | zero => intro t s _; rfl
  | succ fuel ih =>
    intro t s h
    have hrx : s.rx = [] := h.2.1
    simp only [pio_sm_get_blocking, hrx]
    exact ih _ _ (trigSilent_cycle _ s h)

/-- While the state machine serves a nonzero command, a `wait()` that returns leaves it at
`pull block` with both FIFOs empty. -/
theorem get_blocking_serving (c : Nat) (hc : c ≠ 0) (pin : Nat → Bool) :
    ∀ fuel t (s : Sm), TrigServing c s ∨ TrigAcked s →
      ∀ w t2 s2, pio_sm_get_blocking trigger_program pin fuel t s = some (w, t2, s2) →
        TrigRest s2 := by
  intro fuel
  induction fuel with
  | zero => intro t s _ w t2 s2 h; simp [pio_sm_get_blocking] at h
  | succ fuel ih =>
    intro t s h w t2 s2 hget
    rcases h with h | h
    · have hrx : s.rx = [] := h.2.1
      simp only [pio_sm_get_blocking, hrx] at hget
      exact ih _ _ (trigServing_cycle c hc _ s h) w t2 s2 hget
    · obtain ⟨h1, h2, h3, h4, v, h5⟩ := h
      simp only [pio_sm_get_blocking, h5, Option.some.injEq, Prod.mk.injEq] at hget
      obtain ⟨_, _, e⟩ := hget
      subst e
      exact ⟨h1, h2, h4, rfl⟩

theorem put_rest (s : Sm) (c : Nat) (h : TrigRest s) :
    (c ≠ 0 → TrigServing c (pio_sm_put s c)) ∧ (c = 0 → TrigSilent (pio_sm_put s c)) := by
  obtain ⟨pc, x, y, osr, isr, tx, rx, side, pins, delay, fault⟩ := s
  obtain ⟨h1, h2, h3, h4⟩ := h
  simp only at h1 h2 h3 h4
  subst h1 h2 h3 h4
  constructor
  · intro _
    simp [TrigServing, pio_sm_put, FIFO_DEPTH]
  · intro hc
    subst hc
    simp [TrigSilent, pio_sm_put, FIFO_DEPTH]

/-- One iteration of the coupled run loop whose `wait()` returns. -/
theorem runLoopPio_served (env : PioEnv) (step n : Nat) (rep : Bool)
    (fuel j i offset t : Nat) (s : Sm) (g : Globals) (w t2 : Nat) (s2 : Sm)
    (hst : (env.ctl j).getD g.status ≠ ABORTING) (hend : ¬ (i = n ∧ rep = false))
    (hoff : (if i = n then 0 else offset) < MAX_SIZE)
    (hspi : spiLen step = 0 ∨ (if i = n then 0 else offset) + spiLen step < MAX_SIZE)
    (hget : pio_sm_get_blocking trigger_program env.pin env.patience (t + env.busy j)
      (Sm.run trigger_program env.pin (env.busy j) t
        (pio_sm_put s (g.instructions (if i = n then 0 else offset)).val)) =
      some (w, t2, s2))
    (hint : (if i = n then 0 else i) < INT_MAX) :
    runLoopPio env step n rep (fuel + 1) j i offset t s g =
      (runLoopPio env step n rep fuel (j + 1) ((if i = n then 0 else i) + 1)
        ((step * ((if i = n then 0 else i) + 1)) % UINT_MOD) t2 s2
        { g with status := (env.ctl j).getD g.status,
                 triggers := (g.triggers + 1) % UINT_MOD }).after
        ([.trig_put (g.instructions (if i = n then 0 else offset)).val,
          .spi_write ((if i = n then 0 else offset) + 1)
            (bytesFrom g.instructions ((if i = n then 0 else offset) + 1) (spiLen step))] ++
          (if (if i = n then 0 else i) = 0 ∧ g.timing = true
            then [.dma_start TIMING_OFFSET n] else []) ++ [.wait_ack]) := by
  simp only [runLoopPio]
  rw [if_neg hst, if_neg hend, if_pos hoff, if_pos hspi]
  simp only [hget]
  rw [if_pos hint]

/-- One iteration of the coupled run loop whose `wait()` does not return. -/
theorem runLoopPio_blocked (env : PioEnv) (step n : Nat) (rep : Bool)
    (fuel j i offset t : Nat) (s : Sm) (g : Globals)
    (hst : (env.ctl j).getD g.status ≠ ABORTING) (hend : ¬ (i = n ∧ rep = false))
    (hoff : (if i = n then 0 else offset) < MAX_SIZE)
    (hspi : spiLen step = 0 ∨ (if i = n then 0 else offset) + spiLen step < MAX_SIZE)
    (hget : pio_sm_get_blocking trigger_program env.pin env.patience (t + env.busy j)
      (Sm.run trigger_program env.pin (env.busy j) t
        (pio_sm_put s (g.instructions (if i = n then 0 else offset)).val)) = none) :
    runLoopPio env step n rep (fuel + 1) j i offset t s g =
      { outcome := .blocked
        g := { g with status := (env.ctl j).getD g.status }
        trace := [.trig_put (g.instructions (if i = n then 0 else offset)).val,
          .spi_write ((if i = n then 0 else offset) + 1)
            (bytesFrom g.instructions ((if i = n then 0 else offset) + 1) (spiLen step))] ++
          (if (if i = n then 0 else i) = 0 ∧ g.timing = true
            then [.dma_start TIMING_OFFSET n] else []) } := by
  simp only [runLoopPio]
  rw [if_neg hst, if_neg hend, if_pos hoff, if_pos hspi]
  simp only [hget]

theorem ackedWords_issue (c a : Nat) (bs : List Byte) (p : Prop) [Decidable p] (x y : Nat)
    (last : Option Nat) (rest : List Event) :
    ackedWords last (([Event.trig_put c, Event.spi_write a bs] ++
      (if p then [Event.dma_start x y] else []) ++ [Event.wait_ack]) ++ rest) =
      c :: ackedWords none rest ∧
    ackedWords last ([Event.trig_put c, Event.spi_write a bs] ++
      (if p then [Event.dma_start x y] else [])) = [] := by
  cases last <;> split_ifs <;> exact ⟨rfl, rfl⟩

/-- The wait of an iteration of the coupled run loop returns only when the control byte
handed to the Trigger sequencer is nonzero, and it leaves the state machine at `pull block`
with both FIFOs empty. -/
theorem wait_returns_nonzero (pin : Nat → Bool) (c b fuel t : Nat) (s : Sm) (h : TrigRest s)
    (w t2 : Nat) (s2 : Sm)
    (hget : pio_sm_get_blocking trigger_program pin fuel (t + b)
      (Sm.run trigger_program pin b t (pio_sm_put s c)) = some (w, t2, s2)) :
    c ≠ 0 ∧ TrigRest s2 := by
  have hc : c ≠ 0 := by
    intro hc
    have hs := trigSilent_run pin b t _ ((put_rest s c h).2 hc)
    rw [get_blocking_silent pin fuel (t + b) _ hs] at hget
    exact absurd hget (by simp)
  refine ⟨hc, ?_⟩
  have hs := trigServing_run c hc pin b t _ (Or.inl ((put_rest s c h).1 hc))
  exact get_blocking_serving c hc pin fuel (t + b) _ hs w t2 s2 hget

/-- In the coupled run loop every word whose `wait()` returned is nonzero. -/
theorem runLoopPio_acked (env : PioEnv) (step n : Nat) (rep : Bool) :
    ∀ fuel j i offset t (s : Sm) (g : Globals), TrigRest s →
      ∀ w, w ∈ ackedWords none (runLoopPio env step n rep fuel j i offset t s g).trace →
        w ≠ 0 := by
  intro fuel
  induction fuel with
  | zero => intro j i offset t s g _ w hw; simp [runLoopPio, ackedWords] at hw
  | succ fuel ih =>
    intro j i offset t s g hs w hw
    by_cases hst : (env.ctl j).getD g.status = ABORTING
    · simp only [runLoopPio] at hw
      rw [if_pos hst] at hw
      simp [cleanup, ackedWords] at hw
    by_cases hend : i = n ∧ rep = false
    · simp only [runLoopPio] at hw
      rw [if_neg hst, if_pos hend] at hw
      simp [cleanup, ackedWords] at hw
    by_cases hoff : (if i = n then 0 else offset) < MAX_SIZE
    swap
    · simp only [runLoopPio] at hw
      rw [if_neg hst, if_neg hend, if_neg hoff] at hw
      simp [ackedWords] at hw
    by_cases hspi : spiLen step = 0 ∨ (if i = n then 0 else offset) + spiLen step < MAX_SIZE
    swap
    · simp only [runLoopPio] at hw
      rw [if_neg hst, if_neg hend, if_pos hoff, if_neg hspi] at hw
      simp [ackedWords] at hw
    cases hget : pio_sm_get_blocking trigger_program env.pin env.patience (t + env.busy j)
        (Sm.run trigger_program env.pin (env.busy j) t
          (pio_sm_put s (g.instructions (if i = n then 0 else offset)).val)) with
    | none =>
      rw [runLoopPio_blocked env step n rep fuel j i offset t s g hst hend hoff hspi hget] at hw
      simp only [] at hw
      rw [(ackedWords_issue _ _ _ _ _ _ _ []).2] at hw
      exact absurd hw (by simp)
    | some r =>
      obtain ⟨v, t2, s2⟩ := r
      obtain ⟨hc, hs2⟩ := wait_returns_nonzero env.pin _ _ _ _ s hs v t2 s2 hget
      by_cases hint : (if i = n then 0 else i) < INT_MAX
      · rw [runLoopPio_served env step n rep fuel j i offset t s g v t2 s2 hst hend hoff hspi
          hget hint] at hw
        simp only [RunResult.after] at hw
        rw [(ackedWords_issue _ _ _ _ _ _ _ _).1] at hw
        rcases List.mem_cons.1 hw with hw | hw
        · rw [hw]; exact hc
        · exact ih _ _ _ _ _ _ hs2 w hw
      · simp only [runLoopPio] at hw
        rw [if_neg hst, if_neg hend, if_pos hoff, if_pos hspi] at hw
        simp only [hget] at hw
        rw [if_neg hint] at hw
        simp only [] at hw
        have := (ackedWords_issue (g.instructions (if i = n then 0 else offset)).val
          ((if i = n then 0 else offset) + 1)
          (bytesFrom g.instructions ((if i = n then 0 else offset) + 1) (spiLen step))
          ((if i = n then 0 else i) = 0 ∧ g.timing = true) TIMING_OFFSET n none []).1
        rw [List.append_nil] at this
        rw [this] at hw
        simp only [ackedWords, List.mem_singleton] at hw
        rw [hw]; exact hc

/-- An iteration of the coupled run loop that issues a record with control byte 0: the
instruction is handed out, and `wait()` does not return, whatever the trigger pin does and
however long it is polled. -/
theorem runLoopPio_zero (env : PioEnv) (step n : Nat) (rep : Bool)
    (fuel j i offset t : Nat) (s : Sm) (g : Globals) (hs : TrigRest s)
    (hst : (env.ctl j).getD g.status ≠ ABORTING) (hend : ¬ (i = n ∧ rep = false))
    (hoff : (if i = n then 0 else offset) < MAX_SIZE)
    (hspi : spiLen step = 0 ∨ (if i = n then 0 else offset) + spiLen step < MAX_SIZE)
    (hzero : (g.instructions (if i = n then 0 else offset)).val = 0) :
    runLoopPio env step n rep (fuel + 1) j i offset t s g =
      { outcome := .blocked
        g := { g with status := (env.ctl j).getD g.status }
        trace := [.trig_put 0,
          .spi_write ((if i = n then 0 else offset) + 1)
            (bytesFrom g.instructions ((if i = n then 0 else offset) + 1) (spiLen step))] ++
          (if (if i = n then 0 else i) = 0 ∧ g.timing = true
            then [.dma_start TIMING_OFFSET n] else []) } := by
  have hget := get_blocking_silent env.pin env.patience (t + env.busy j) _
    (trigSilent_run env.pin (env.busy j) t _ ((put_rest s 0 hs).2 rfl))
  rw [← hzero] at hget
  rw [runLoopPio_blocked env step n rep fuel j i offset t s g hst hend hoff hspi hget, hzero]

/-- The RX FIFO of the trigger state machine while it serves the command `c` pulled at
`pull block`: for `c = 0` nothing is pushed and the machine stands at `pull block` again
after 11 cycles; for a nonzero `c` nothing is pushed while the trigger pin is low, and once
the pin is high exactly one word is pushed, seven cycles later. -/
theorem trigger_rx_timeline (pin : Nat → Bool) (t : Nat) (s : Sm) (c : Nat) (rest : List Nat)
    (h : TrigReady s) (htx : s.tx = c :: rest) :
    (c = 0 →
      (∀ m, m ≤ 11 → (Sm.run trigger_program pin m t s).rx = s.rx) ∧
      TrigReady (Sm.run trigger_program pin 11 t s) ∧
      (Sm.run trigger_program pin 11 t s).tx = rest ∧
      (rest = [] → ∀ m, (Sm.run trigger_program pin m t s).rx = s.rx)) ∧
    (c ≠ 0 → ∀ n, (∀ k, k < n → pin (t + 3 + k) = false) →
      (∀ m, m ≤ 3 + n → (Sm.run trigger_program pin m t s).rx = s.rx) ∧
      (pin (t + 3 + n) = true → s.rx.length < FIFO_DEPTH →
        (∀ m, m ≤ 3 + n + 6 → (Sm.run trigger_program pin m t s).rx = s.rx) ∧
        (Sm.run trigger_program pin (3 + n + 7) t s).rx = s.rx ++ [s.isr] ∧
        TrigReady (Sm.run trigger_program pin (3 + n + 7) t s) ∧
        (Sm.run trigger_program pin (3 + n + 7) t s).tx = rest ∧
        (rest = [] → ∀ m, 3 + n + 7 ≤ m →
          (Sm.run trigger_program pin m t s).rx = s.rx ++ [s.isr]))) := by
  refine ⟨?_, ?_⟩
  · intro hc
    subst hc
    obtain ⟨z1, z2, z3⟩ := trig_zero_cycles pin t s rest h htx
    refine ⟨z1, z2, z3, ?_⟩
    intro hr m
    rcases Nat.lt_or_ge m 11 with hm | hm
    · exact z1 m (by omega)
    · obtain ⟨k, rfl⟩ : ∃ k, m = 11 + k := ⟨m - 11, by omega⟩
      rw [Sm.run_add]
      have hidle : TrigIdle (Sm.run trigger_program pin 11 t s) :=
        ⟨z2.1, z2.2.2, by rw [z3, hr]⟩
      rw [(trigIdle_run pin k (t + 11) _ hidle).2]
      exact z1 11 (le_refl _)
  · intro hc n hlow
    obtain ⟨f1, f2, f3, f4⟩ := trig_nonzero_first pin t s c rest h htx hc
    have hat : ∀ k, k ≤ n →
        Sm.run trigger_program pin (3 + k) t s = Sm.run trigger_program pin 3 t s := by
      intro k hk
      rw [Sm.run_add]
      apply trigWaiting_stall pin _ f2
      intro j hj
      exact hlow j (by omega)
    have hbefore : ∀ m, m ≤ 3 + n → (Sm.run trigger_program pin m t s).rx = s.rx := by
      intro m hm
      rcases Nat.lt_or_ge m 3 with h3 | h3
      · exact f1 m (by omega)
      · obtain ⟨k, rfl⟩ : ∃ k, m = 3 + k := ⟨m - 3, by omega⟩
        rw [hat k (by omega)]
        exact f1 3 (le_refl _)
    refine ⟨hbefore, ?_⟩
    intro hhigh hrx
    have hrx3 : (Sm.run trigger_program pin 3 t s).rx.length < FIFO_DEPTH := by
      rw [f1 3 (le_refl _)]; exact hrx
    obtain ⟨g1, g2, g3, g4⟩ :=
      trigWaiting_high pin (t + (3 + n)) (Sm.run trigger_program pin 3 t s) f2
        (by rw [← Nat.add_assoc]; exact hhigh) hrx3
    have hstep : ∀ k, Sm.run trigger_program pin (3 + n + k) t s =
        Sm.run trigger_program pin k (t + (3 + n)) (Sm.run trigger_program pin 3 t s) := by
      intro k
      rw [Sm.run_add, hat n (le_refl _)]
    have hpush : (Sm.run trigger_program pin (3 + n + 7) t s).rx = s.rx ++ [s.isr] := by
      rw [hstep, g2, f1 3 (le_refl _), f4]
    refine ⟨?_, hpush, ?_, ?_, ?_⟩
    · intro m hm
      rcases Nat.lt_or_ge m (3 + n) with h3 | h3
      · exact hbefore m (by omega)
      · obtain ⟨k, rfl⟩ : ∃ k, m = 3 + n + k := ⟨m - (3 + n), by omega⟩
        rw [hstep, g1 k (by omega)]
        exact f1 3 (le_refl _)
    · rw [hstep]; exact g3
    · rw [hstep, g4]; exact f3
    · intro hr m hm
      obtain ⟨k, rfl⟩ : ∃ k, m = 3 + n + 7 + k := ⟨m - (3 + n + 7), by omega⟩
      rw [Sm.run_add]
      have hidle : TrigIdle (Sm.run trigger_program pin (3 + n + 7) t s) := by
        refine ⟨?_, ?_, ?_⟩
        · rw [hstep]; exact g3.1
        · rw [hstep]; exact g3.2.2
        · rw [hstep, g4, f3, hr]
      rw [(trigIdle_run pin k _ _ hidle).2]
      exact hpush

theorem get_blocking_arrives (p : PioProgram) (pin : Nat → Bool) :
    ∀ fuel t (s : Sm) k, k < fuel → (Sm.run p pin k t s).rx ≠ [] →
      ∃ r, pio_sm_get_blocking p pin fuel t s = some r := by
  intro fuel
  induction fuel with
  | zero => intro t s k hk _; omega
  | succ fuel ih =>
    intro t s k hk hrx
    cases h : s.rx with
    | cons w rest => exact ⟨(w, t, { s with rx := rest }), by simp only [pio_sm_get_blocking, h]⟩
    | nil =>
      cases k with
      | zero => exact absurd h hrx
      | succ k =>
        simp only [pio_sm_get_blocking, h]
        exact ih (t + 1) _ k (by omega) hrx

/-- After a nonzero control byte was handed to the Trigger sequencer at rest, `wait()` does
return once the trigger pin has been high, when it is polled long enough. -/
theorem wait_returns (pin : Nat → Bool) (c b n patience t : Nat) (s : Sm) (hc : c ≠ 0)
    (hr : TrigReady s) (htx : s.tx = []) (hrx : s.rx = [])
    (hlow : ∀ k, k < n → pin (t + 3 + k) = false) (hhigh : pin (t + 3 + n) = true)
    (hp : 3 + n + 7 < patience) :
    ∃ w t2 s2, pio_sm_get_blocking trigger_program pin patience (t + b)
        (Sm.run trigger_program pin b t (pio_sm_put s c)) = some (w, t2, s2) ∧
      TrigRest s2 := by
  have hput : pio_sm_put s c = { s with tx := [c] } := by
    simp [pio_sm_put, htx, FIFO_DEPTH]
  have hr1 : TrigReady (pio_sm_put s c) := by rw [hput]; exact hr
  have htx1 : (pio_sm_put s c).tx = c :: [] := by rw [hput]
  have hrx1 : (pio_sm_put s c).rx = [] := by rw [hput]; exact hrx
  have htl := (((trigger_rx_timeline pin t (pio_sm_put s c) c [] hr1 htx1).2 hc n hlow).2 hhigh
    (by rw [hrx1]; decide)).2.2.2.2 rfl
  have harr : (Sm.run trigger_program pin (3 + n + 7 - b) (t + b)
      (Sm.run trigger_program pin b t (pio_sm_put s c))).rx ≠ [] := by
    rw [← Sm.run_add, htl (b + (3 + n + 7 - b)) (by omega), hrx1]
    simp
  obtain ⟨r, hget⟩ := get_blocking_arrives trigger_program pin patience (t + b) _
    (3 + n + 7 - b) (by omega) harr
  obtain ⟨w, t2, s2⟩ := r
  exact ⟨w, t2, s2, hget,
    (wait_returns_nonzero pin c b patience t s ⟨hr.1, hr.2.2, htx, hrx⟩ w t2 s2 hget).2⟩

theorem runLoop_congr (e1 e2 : Env) (step n : Nat) (rep : Bool) :
    ∀ fuel j i offset (g : Globals),
      (∀ k, j ≤ k → e1.ctl k = e2.ctl k ∧ e1.advance k = e2.advance k) →
      runLoop e1 step n rep fuel j i offset g = runLoop e2 step n rep fuel j i offset g := by
  intro fuel
  induction fuel with
  | zero => intro j i offset g _; rfl
  | succ fuel ih =>
    intro j i offset g h
    have hj := h j (le_refl _)
    simp only [runLoop, hj.1, hj.2]
    simp only [ih (j + 1) _ _ _ (fun k hk => h k (by omega))]

/-- Every run of the coupled run loop is a run of the run loop for some pattern of advance
events: the events are the returns of `wait()` on the trigger state machine. -/
theorem runLoopPio_refines (env : PioEnv) (step n : Nat) (rep : Bool) :
    ∀ fuel j i offset t (s : Sm) (g : Globals),
      ∃ adv : Nat → Bool,
        runLoopPio env step n rep fuel j i offset t s g =
          runLoop { ctl := env.ctl, advance := adv } step n rep fuel j i offset g := by
  intro fuel
  induction fuel with
  | zero => intro j i offset t s g; exact ⟨fun _ => true, rfl⟩
  | succ fuel ih =>
    intro j i offset t s g
    by_cases hst : (env.ctl j).getD g.status = ABORTING
    · refine ⟨fun _ => true, ?_⟩
      simp only [runLoopPio, runLoop]
      rw [if_pos hst, if_pos hst]
    by_cases hend : i = n ∧ rep = false
    · refine ⟨fun _ => true, ?_⟩
      simp only [runLoopPio, runLoop]
      rw [if_neg hst, if_pos hend, if_neg hst, if_pos hend]
    by_cases hoff : (if i = n then 0 else offset) < MAX_SIZE
    swap
    · refine ⟨fun _ => true, ?_⟩
      simp only [runLoopPio, runLoop]
      rw [if_neg hst, if_neg hend, if_neg hoff, if_neg hst, if_neg hend, if_neg hoff]
    by_cases hspi : spiLen step = 0 ∨ (if i = n then 0 else offset) + spiLen step < MAX_SIZE
    swap
    · refine ⟨fun _ => true, ?_⟩
      simp only [runLoopPio, runLoop]
      rw [if_neg hst, if_neg hend, if_pos hoff, if_neg hspi, if_neg hst, if_neg hend,
        if_pos hoff, if_neg hspi]
    cases hget : pio_sm_get_blocking trigger_program env.pin env.patience (t + env.busy j)
        (Sm.run trigger_program env.pin (env.busy j) t
          (pio_sm_put s (g.instructions (if i = n then 0 else offset)).val)) with
    | none =>
      refine ⟨fun _ => false, ?_⟩
      rw [runLoopPio_blocked env step n rep fuel j i offset t s g hst hend hoff hspi hget,
        runLoop_blocked { ctl := env.ctl, advance := fun _ => false } step n rep fuel j i offset
          g hst hend hoff hspi (by simp)]
    | some r =>
      obtain ⟨v, t2, s2⟩ := r
      by_cases hint : (if i = n then 0 else i) < INT_MAX
      · obtain ⟨adv, hadv⟩ := ih (j + 1) ((if i = n then 0 else i) + 1)
          ((step * ((if i = n then 0 else i) + 1)) % UINT_MOD) t2 s2
          { g with status := (env.ctl j).getD g.status,
                   triggers := (g.triggers + 1) % UINT_MOD }
        refine ⟨fun k => if k = j then true else adv k, ?_⟩
        rw [runLoopPio_served env step n rep fuel j i offset t s g v t2 s2 hst hend hoff hspi
          hget hint,
          runLoop_issue { ctl := env.ctl, advance := fun k => if k = j then true else adv k }
            step n rep fuel j i offset g hst hend hoff hspi (by simp) hint, hadv]
        congr 1
        apply runLoop_congr
        intro k hk
        refine ⟨rfl, ?_⟩
        have : k ≠ j := by omega
        simp [this]
      · refine ⟨fun _ => true, ?_⟩
        simp only [runLoopPio, runLoop]
        rw [if_neg hst, if_neg hend, if_pos hoff, if_pos hspi, if_neg hst, if_neg hend,
          if_pos hoff, if_pos hspi]
        simp only [hget]
        rw [if_neg hint, if_pos trivial, if_neg hint]

/-- C26.  Under the PIO semantics of `trigger_program_instructions`, for every command `c`
the Trigger sequencer pulls at `pull block`: if `c = 0` it pushes nothing to its RX FIFO and
stands at `pull block` again after 11 cycles, whatever the trigger pin does; if `c` is
nonzero it pushes nothing while the trigger pin is low, and once the pin is high (the RX FIFO
not full) it pushes exactly one word, seven cycles later, and stands at `pull block` again.
Hence, in the run loop with `wait()` carried out by `pio_sm_get_blocking` on this state
machine, started with the machine at `pull block` and both FIFOs empty: every word whose
`wait()` returned is a nonzero control byte; an iteration that hands out the control byte 0
ends parked in `wait()`, however long it is polled; after a nonzero control byte `wait()`
does return once the trigger pin has been high; and the run is a run of the run loop for the
advance events that these returns are. -/
theorem trigger_ack (pin : Nat → Bool) (t : Nat) (s : Sm) (c : Nat) (rest : List Nat)
    (env : PioEnv) (step n : Nat) (rep : Bool) (fuel j i offset t0 : Nat) (s0 : Sm)
    (g : Globals) (h : TrigReady s) (htx : s.tx = c :: rest) (h0 : TrigRest s0) :
    (c = 0 →
      (∀ m, m ≤ 11 → (Sm.run trigger_program pin m t s).rx = s.rx) ∧
      TrigReady (Sm.run trigger_program pin 11 t s) ∧
      (Sm.run trigger_program pin 11 t s).tx = rest ∧
      (rest = [] → ∀ m, (Sm.run trigger_program pin m t s).rx = s.rx)) ∧
    (c ≠ 0 → ∀ k, (∀ m, m < k → pin (t + 3 + m) = false) →
      (∀ m, m ≤ 3 + k → (Sm.run trigger_program pin m t s).rx = s.rx) ∧
      (pin (t + 3 + k) = true → s.rx.length < FIFO_DEPTH →
        (∀ m, m ≤ 3 + k + 6 → (Sm.run trigger_program pin m t s).rx = s.rx) ∧
        (Sm.run trigger_program pin (3 + k + 7) t s).rx = s.rx ++ [s.isr] ∧
        TrigReady (Sm.run trigger_program pin (3 + k + 7) t s) ∧
        (Sm.run trigger_program pin (3 + k + 7) t s).tx = rest ∧
        (rest = [] → ∀ m, 3 + k + 7 ≤ m →
          (Sm.run trigger_program pin m t s).rx = s.rx ++ [s.isr]))) ∧
    (∀ w, w ∈ ackedWords none
        (runLoopPio env step n rep fuel j i offset t0 s0 g).trace → w ≠ 0) ∧
    ((env.ctl j).getD g.status ≠ ABORTING → ¬ (i = n ∧ rep = false) →
      (if i = n then 0 else offset) < MAX_SIZE →
      (spiLen step = 0 ∨ (if i = n then 0 else offset) + spiLen step < MAX_SIZE) →
      (g.instructions (if i = n then 0 else offset)).val = 0 →
      runLoopPio env step n rep (fuel + 1) j i offset t0 s0 g =
        { outcome := .blocked
          g := { g with status := (env.ctl j).getD g.status }
          trace := [.trig_put 0,
            .spi_write ((if i = n then 0 else offset) + 1)
              (bytesFrom g.instructions ((if i = n then 0 else offset) + 1) (spiLen step))] ++
            (if (if i = n then 0 else i) = 0 ∧ g.timing = true
              then [.dma_start TIMING_OFFSET n] else []) }) ∧
    (∀ b k patience, c ≠ 0 → s0.delay = 0 → (∀ m, m < k → pin (t0 + 3 + m) = false) →
      pin (t0 + 3 + k) = true → 3 + k + 7 < patience →
      ∃ w t2 s2, pio_sm_get_blocking trigger_program pin patience (t0 + b)
          (Sm.run trigger_program pin b t0 (pio_sm_put s0 c)) = some (w, t2, s2) ∧
        TrigRest s2) ∧
    (∃ adv : Nat → Bool,
      runLoopPio env step n rep fuel j i offset t0 s0 g =
        runLoop { ctl := env.ctl, advance := adv } step n rep fuel j i offset g) := by
  obtain ⟨p1, p2⟩ := trigger_rx_timeline pin t s c rest h htx
  refine ⟨p1, p2, runLoopPio_acked env step n rep fuel j i offset t0 s0 g h0,
    fun hst hend hoff hspi hzero =>
      runLoopPio_zero env step n rep fuel j i offset t0 s0 g h0 hst hend hoff hspi hzero,
    ?_, runLoopPio_refines env step n rep fuel j i offset t0 s0 g⟩
  intro b k patience hc hd hlow hhigh hp
  exact wait_returns pin c b k patience t0 s0 hc ⟨h0.1, hd, h0.2.1⟩ h0.2.2.1 h0.2.2.2 hlow
    hhigh hp

theorem trigger_ack_witness :
    (∀ m, (Sm.run trigger_program pinPulseAt5 m 0 (smWithCommand 0)).rx =
      (smWithCommand 0).rx) ∧
    (∀ m, m ≤ 3 + 2 + 6 →
      (Sm.run trigger_program pinPulseAt5 m 0 (smWithCommand 33)).rx = (smWithCommand 33).rx) ∧
    (∀ m, 3 + 2 + 7 ≤ m →
      (Sm.run trigger_program pinPulseAt5 m 0 (smWithCommand 33)).rx =
        (smWithCommand 33).rx ++ [(smWithCommand 33).isr]) ∧
    (∀ w, w ∈ ackedWords none (runLoopPio pioEnvHigh 15 2 false 3 0 0 0 0 smAfterInit
      { bootGlobals tableAB with status := RUNNING }).trace → w ≠ 0) ∧
    runLoopPio pioEnvHigh 15 0 true (2 + 1) 0 0 0 0 smAfterInit
        { bootGlobals tableEmptyRepeat with status := RUNNING } =
      { outcome := .blocked
        g := { ({ bootGlobals tableEmptyRepeat with status := RUNNING } : Globals) with
          status := (pioEnvHigh.ctl 0).getD
            ({ bootGlobals tableEmptyRepeat with status := RUNNING } : Globals).status }
        trace := [.trig_put 0,
          .spi_write ((if 0 = 0 then 0 else 0) + 1)
            (bytesFrom ({ bootGlobals tableEmptyRepeat with status := RUNNING } :
              Globals).instructions ((if 0 = 0 then 0 else 0) + 1) (spiLen 15))] ++
          (if (if 0 = 0 then 0 else 0) = 0 ∧
              ({ bootGlobals tableEmptyRepeat with status := RUNNING } : Globals).timing = true
            then [.dma_start TIMING_OFFSET 0] else []) } ∧
    (runLoopPio pioEnvHigh 15 2 false 3 0 0 0 0 smAfterInit
      { bootGlobals tableAB with status := RUNNING }).outcome = .drained ∧
    ackedWords none (runLoopPio pioEnvHigh 15 2 false 3 0 0 0 0 smAfterInit
      { bootGlobals tableAB with status := RUNNING }).trace = [1, 2] :=
  ⟨((trigger_ack pinPulseAt5 0 (smWithCommand 0) 0 [] pioEnvHigh 15 2 false 3 0 0 0 0
      smAfterInit { bootGlobals tableAB with status := RUNNING } ⟨rfl, rfl, rfl⟩ rfl
      ⟨rfl, rfl, rfl, rfl⟩).1 rfl).2.2.2 rfl,
   (((trigger_ack pinPulseAt5 0 (smWithCommand 33) 33 [] pioEnvHigh 15 2 false 3 0 0 0 0
      smAfterInit { bootGlobals tableAB with status := RUNNING } ⟨rfl, rfl, rfl⟩ rfl
      ⟨rfl, rfl, rfl, rfl⟩).2.1 (by decide) 2 (by decide)).2 (by decide) (by decide)).1,
   (((trigger_ack pinPulseAt5 0 (smWithCommand 33) 33 [] pioEnvHigh 15 2 false 3 0 0 0 0
      smAfterInit { bootGlobals tableAB with status := RUNNING } ⟨rfl, rfl, rfl⟩ rfl
      ⟨rfl, rfl, rfl, rfl⟩).2.1 (by decide) 2 (by decide)).2 (by decide)
      (by decide)).2.2.2.2 rfl,
   (trigger_ack pinPulseAt5 0 (smWithCommand 33) 33 [] pioEnvHigh 15 2 false 3 0 0 0 0
      smAfterInit { bootGlobals tableAB with status := RUNNING } ⟨rfl, rfl, rfl⟩ rfl
      ⟨rfl, rfl, rfl, rfl⟩).2.2.1,
   (trigger_ack pinPulseAt5 0 (smWithCommand 33) 33 [] pioEnvHigh 15 0 true 2 0 0 0 0
      smAfterInit { bootGlobals tableEmptyRepeat with status := RUNNING } ⟨rfl, rfl, rfl⟩ rfl
      ⟨rfl, rfl, rfl, rfl⟩).2.2.2.1 (by decide) (by decide) (by decide) (by decide)
      (by decide),
   by decide, by decide⟩

/-! ## A line longer than `readstring` while a run is under way -/

/-- C15, the code at the failing input.  The line `load` followed by 296 characters `x`,
300 characters in all, read while the status is `RUNNING`: before the dispatch reads the
status or compares a keyword, `readline()` has stored the characters 256 to 299 and the
terminating NUL at the indices 256 to 300, outside `readstring`, in the memory of the globals
declared behind it, so the call is not the rejection of `load`; the line `load` alone is
rejected with the busy text and changes nothing. -/
theorem long_line_while_busy :
    loopOnInput (("load".toList ++ List.replicate 296 'x') ++ Char.ofNat 10 :: [])
        { bootGlobals tableAB with status := RUNNING } = .overrun READSTRING_SIZE ∧
    (4 + 252, 'x') ∈
      (readline (("load".toList ++ List.replicate 296 'x') ++ Char.ofNat 10 :: [])).stores ∧
    (300, Char.ofNat 0) ∈
      (readline (("load".toList ++ List.replicate 296 'x') ++ Char.ofNat 10 :: [])).stores ∧
    loopOnInput ("load".toList ++ Char.ofNat 10 :: [])
        { bootGlobals tableAB with status := RUNNING } =
      .served { g := { bootGlobals tableAB with status := RUNNING },
                out := [.line (busyText "load".toList)], hw := [] } := by
  have hx : ∀ c, c ∈ List.replicate 296 'x' → c ≠ Char.ofNat 10 := by
    intro c hc
    rw [List.eq_of_mem_replicate hc]
    decide
  have hload : ∀ c, c ∈ "load".toList → c ≠ Char.ofNat 10 := by decide
  have hnl : ∀ c, c ∈ "load".toList ++ List.replicate 296 'x' → c ≠ Char.ofNat 10 := by
    intro c hc
    rcases List.mem_append.1 hc with h | h
    · exact hload c h
    · exact hx c h
  have hlen : ("load".toList ++ List.replicate 296 'x').length = 300 := by
    rw [List.length_append, List.length_replicate]; rfl
  have hr := readlineFrom_line [] ("load".toList ++ List.replicate 296 'x') 0 hnl
    (by rw [hlen]; decide)
  have hidx : indexedFrom 0 ("load".toList ++ List.replicate 296 'x') =
      indexedFrom 0 "load".toList ++ indexedFrom 4 (List.replicate 296 'x') := rfl
  refine ⟨loopOnInput_long _ [] _ hnl (by rw [hlen]; decide) (by rw [hlen]; decide), ?_, ?_, ?_⟩
  · rw [readline, hr, hidx]
    exact List.mem_append_left _ (List.mem_append_right _
      (indexedFrom_replicate_mem 'x' 296 4 252 (by decide)))
  · rw [readline, hr, hlen]
    exact List.mem_append_right _ (List.mem_singleton.2 rfl)
  · rw [loopOnInput_line "load".toList [] _ (by decide) (by decide)]
    rfl

/-- C1, counterexample.  The table `tableFlagAfter` is well formed with one record and
stride 15, and the byte that follows its terminator record is nonzero, yet the scan returns the
repeat flag false.  In the table `tableZeroControl` two records that are not all zero come
before the all-zero terminator record, yet the scan returns the count 1, because the control
byte of record 1 is zero. -/
theorem scan_flag_counterexample :
    WellFormedSpec tableFlagAfter (stepOf 14 1) 1 ∧
    tableFlagAfter (1 * stepOf 14 1 + stepOf 14 1) ≠ 0 ∧
    scan tableFlagAfter (stepOf 14 1) 2 = .found 1 false ∧
    tableZeroControl (0 * stepOf 14 1) ≠ 0 ∧ tableZeroControl (1 * stepOf 14 1 + 1) ≠ 0 ∧
    (∀ j, 2 * stepOf 14 1 ≤ j → j < 2 * stepOf 14 1 + stepOf 14 1 → tableZeroControl j = 0) ∧
    scan tableZeroControl (stepOf 14 1) 3 = .found 1 true := by
  refine ⟨tableFlagAfter_wellFormed, by decide, by decide, by decide, by decide, ?_, by decide⟩
  intro j h1 h2
  have e : stepOf 14 1 = 15 := by decide
  rw [e] at h1 h2
  have h0 : j ≠ 0 := by omega
  have h16 : j ≠ 16 := by omega
  simp [tableZeroControl, h0, h16]

end DDSSweeper
